import Mathlib

/-!
# app-functions-sdk-go: store-and-forward checkpoint model, MQTT export stage, tag transform

A shallow embedding of

* `internal/store/db/redis/models/storedobject.go` (the persisted export record and its JSON form),
* `internal/store/factory.go` (backend selection),
* `pkg/transforms/mqttsecret.go` (the secret-aware MQTT export stage),
* `pkg/transforms/tags.go` (the tag-adding transform),

followed by theorems about them.

Conventions of the embedding.

* A Go `string` held by the persisted record is a `GoString`: a sequence of bytes, which need
  not be valid UTF-8.  `encoding/json` writes such a string as the text `utf8Lossy` makes of
  it (each byte that is not part of a well-formed encoding becomes U+FFFD) and stores a JSON
  string into it as the bytes `utf8Encode` of its text.  Everywhere else (configuration, log
  text, error messages, object keys, tags) a Go `string` is a Lean `String` (Unicode text).
* A Go `int` is an `Int` together with the 64-bit range predicate `IsGoInt` wherever the
  range matters; a Go `[]byte` is an `Option (List Byte)`, `none` being the nil slice.  Where
  `encoding/json` decodes an array into a slice it reuses the slice's backing array; the part
  of the backing array past the slice's length is carried next to the slice, memory that was
  never written being zero.
* `encoding/json` is embedded at the level of JSON values: `MarshalJSON` yields the JSON value
  whose text the library writes, `UnmarshalJSON` consumes what the library's scanner makes of
  the bytes (`Data`): either a syntax error or a JSON value.  Writing a value as text and
  scanning it back is the identity on values and is not modelled further.
* Calls are sequential: `sync.Mutex` operations have no effect in the embedding.
* The collaborators that live outside these files (type coercion, the MQTT client factory, the
  MQTT client, the clock, the store constructors) appear as fields of an explicit `World` or
  as parameters; the calls that act on them (logging, client construction, connect, publish,
  store construction) are recorded, in order, in a trace.
-/

/-! ## Basic types -/

/-- One octet. -/
abbrev Byte := Fin 256

/-- Go `[]byte`: `none` is the nil slice, `some bs` a non-nil slice with contents `bs`. -/
abbrev Bytes := Option (List Byte)

/-- Go `len` on a byte slice. -/
def Bytes.len : Bytes → Nat
  | none => 0
  | some bs => bs.length

/-- The contents of a byte slice, a nil slice and an empty one having the same contents. -/
def Bytes.content : Bytes → List Byte
  | none => []
  | some bs => bs

/-- Go `string`: a sequence of bytes, not necessarily valid UTF-8. -/
abbrev GoString := List Byte

/-- Go `error` values are represented by their message. -/
abbrev Error := String

/-- Range of the Go type `int` (64-bit). -/
def IsGoInt (n : Int) : Prop := -9223372036854775808 ≤ n ∧ n ≤ 9223372036854775807

instance (n : Int) : Decidable (IsGoInt n) := by unfold IsGoInt; infer_instance

/-! ## base64 (`encoding/base64.StdEncoding`), used by `encoding/json` for `[]byte` -/

/-- The standard base64 alphabet. -/
def b64Alphabet : List Char :=
  "ABCDEFGHIJKLMNOPQRSTUVWXYZabcdefghijklmnopqrstuvwxyz0123456789+/".toList

/-- The character that encodes the 6-bit value `i`. -/
def b64Char (i : Nat) : Char := b64Alphabet.getD i 'A'

/-- The 6-bit value a character encodes, if it is in the alphabet. -/
def b64Index (c : Char) : Option Nat :=
  let i := b64Alphabet.indexOf c
  if i < 64 then some i else none

/-- The octet with value `n % 256`. -/
def byteOf (n : Nat) : Byte := ⟨n % 256, Nat.mod_lt _ (by decide)⟩

/-- Encoding with padding: three octets become four characters. -/
def b64EncodeChars : List Byte → List Char
  | [] => []
  | [a] => [b64Char (a.val / 4), b64Char (a.val % 4 * 16), '=', '=']
  | [a, b] =>
    [b64Char (a.val / 4), b64Char (a.val % 4 * 16 + b.val / 16), b64Char (b.val % 16 * 4), '=']
  | a :: b :: c :: rest =>
    b64Char (a.val / 4) :: b64Char (a.val % 4 * 16 + b.val / 16) ::
      b64Char (b.val % 16 * 4 + c.val / 64) :: b64Char (c.val % 64) :: b64EncodeChars rest

/-- The base64 text of a byte sequence (`StdEncoding.EncodeToString`). -/
def b64Encode (bs : List Byte) : String := String.mk (b64EncodeChars bs)

/-- Decoding of the text once line breaks are removed: quartets of alphabet characters, the
last of which may be padded with one or two `=`.  Anything else is corrupt input. -/
def b64DecodeChars : List Char → Option (List Byte)
  | [] => some []
  | c0 :: c1 :: c2 :: c3 :: rest =>
    match b64Index c0, b64Index c1 with
    | some i0, some i1 =>
      if c2 = '=' then
        if c3 = '=' ∧ rest = [] then some [byteOf (i0 * 4 + i1 / 16)] else none
      else
        match b64Index c2 with
        | none => none
        | some i2 =>
          if c3 = '=' then
            if rest = [] then
              some [byteOf (i0 * 4 + i1 / 16), byteOf (i1 % 16 * 16 + i2 / 4)]
            else none
          else
            match b64Index c3 with
            | none => none
            | some i3 =>
              (b64DecodeChars rest).map fun tl =>
                byteOf (i0 * 4 + i1 / 16) :: byteOf (i1 % 16 * 16 + i2 / 4) ::
                  byteOf (i2 % 4 * 64 + i3) :: tl
    | _, _ => none
  | _ => none

/-- `StdEncoding.DecodeString`: carriage returns and line feeds are ignored. -/
def b64Decode (s : String) : Option (List Byte) :=
  b64DecodeChars (s.toList.filter fun c => c != '\r' && c != '\n')

/-! ## UTF-8 (`unicode/utf8`), as `encoding/json` applies it to strings -/

/-- Whether `b` is a UTF-8 continuation byte (`0x80` to `0xBF`). -/
def isCont (b : Byte) : Bool := decide (0x80 ≤ b.val ∧ b.val ≤ 0xBF)

/-- The least second byte `utf8.DecodeRune` accepts after the leading byte `b0` of a three- or
four-byte encoding (the `acceptRanges` table: no overlong forms). -/
def secondLo (b0 : Byte) : Nat :=
  if b0.val = 0xE0 then 0xA0 else if b0.val = 0xF0 then 0x90 else 0x80

/-- The greatest second byte `utf8.DecodeRune` accepts after the leading byte `b0` (no
surrogates, nothing past U+10FFFF). -/
def secondHi (b0 : Byte) : Nat :=
  if b0.val = 0xED then 0x9F else if b0.val = 0xF4 then 0x8F else 0xBF

/-- `utf8.DecodeRune` on a well-formed head: the code point of the encoding the bytes start
with and the bytes after it; `none` where `DecodeRune` answers `(RuneError, 1)` (or the input
is empty), that is, when the bytes do not start with the shortest-form encoding of a Unicode
scalar value. -/
def decodeRune : List Byte → Option (Nat × List Byte)
  | [] => none
  | b0 :: rest =>
    if b0.val < 0x80 then some (b0.val, rest)
    else if 0xC2 ≤ b0.val ∧ b0.val ≤ 0xDF then
      match rest with
      | b1 :: r1 =>
        if isCont b1 then some (b0.val % 32 * 64 + b1.val % 64, r1) else none
      | _ => none
    else if 0xE0 ≤ b0.val ∧ b0.val ≤ 0xEF then
      match rest with
      | b1 :: b2 :: r2 =>
        if secondLo b0 ≤ b1.val ∧ b1.val ≤ secondHi b0 ∧ isCont b2 then
          some (b0.val % 16 * 4096 + b1.val % 64 * 64 + b2.val % 64, r2)
        else none
      | _ => none
    else if 0xF0 ≤ b0.val ∧ b0.val ≤ 0xF4 then
      match rest with
      | b1 :: b2 :: b3 :: r3 =>
        if secondLo b0 ≤ b1.val ∧ b1.val ≤ secondHi b0 ∧ isCont b2 ∧ isCont b3 then
          some (b0.val % 8 * 262144 + b1.val % 64 * 4096 + b2.val % 64 * 64 + b3.val % 64, r3)
        else none
      | _ => none
    else none

/-- `utf8.EncodeRune` on a Unicode scalar value. -/
def encodeRune (n : Nat) : List Byte :=
  if n < 0x80 then [byteOf n]
  else if n < 0x800 then [byteOf (0xC0 + n / 64), byteOf (0x80 + n % 64)]
  else if n < 0x10000 then
    [byteOf (0xE0 + n / 4096), byteOf (0x80 + n / 64 % 64), byteOf (0x80 + n % 64)]
  else
    [byteOf (0xF0 + n / 262144), byteOf (0x80 + n / 4096 % 64), byteOf (0x80 + n / 64 % 64),
      byteOf (0x80 + n % 64)]

/-- The Go string holding a text: its UTF-8 bytes. -/
def utf8Encode (s : String) : GoString := s.toList.flatMap fun c => encodeRune c.toNat

/-- The runes `encoding/json` writes for the bytes of a Go string: each well-formed encoding
is its rune, each other byte is U+FFFD.  `fuel` bounds the number of runes. -/
def utf8LossyAux : Nat → List Byte → List Char
  | 0, _ => []
  | _ + 1, [] => []
  | fuel + 1, b :: rest =>
    match decodeRune (b :: rest) with
    | some (cp, rest1) => Char.ofNat cp :: utf8LossyAux fuel rest1
    | none => Char.ofNat 0xFFFD :: utf8LossyAux fuel rest

/-- The text of the JSON string `encoding/json` writes for a Go string: invalid UTF-8 is
coerced to valid UTF-8, each offending byte becoming U+FFFD. -/
def utf8Lossy (s : GoString) : String := String.mk (utf8LossyAux s.length s)

/-- `utf8.Valid` on a list of bytes, with `fuel` bounding the number of runes. -/
def validUTF8Aux : Nat → List Byte → Bool
  | _, [] => true
  | 0, _ :: _ => false
  | fuel + 1, b :: rest =>
    match decodeRune (b :: rest) with
    | some (_, rest1) => validUTF8Aux fuel rest1
    | none => false

/-- The Go string is valid UTF-8 (`utf8.ValidString`). -/
def ValidUTF8 (s : GoString) : Prop := validUTF8Aux s.length s = true

instance (s : GoString) : Decidable (ValidUTF8 s) := by unfold ValidUTF8; infer_instance

/-! ## JSON values and the fragment of `encoding/json` the record uses -/

/-- A JSON value.  Number literals in integer syntax carry their value, except the literal
`-0`, which an `int` accepts as zero and a `uint8` refuses and so is kept apart; every other
number literal (fraction or exponent) carries its text. -/
inductive JVal where
  | null
  | bool (b : Bool)
  | num (n : Int)
  | negZero
  | float (text : String)
  | str (s : String)
  | arr (elems : List JVal)
  | obj (members : List (String × JVal))

/-- The bytes handed to `json.Unmarshal`, as the library's scanner sees them. -/
inductive Data where
  | malformed (syntaxError : Error)
  | value (v : JVal)

/-- Case folding of one rune as `encoding/json` applies it to object keys: ASCII letters
fold to upper case, and the only two non-ASCII runes whose fold orbit contains an ASCII
letter (U+017F LATIN SMALL LETTER LONG S, U+212A KELVIN SIGN) fold to `S` and `K`. -/
def foldRune (c : Char) : Char :=
  if c = Char.ofNat 0x17F then 'S'
  else if c = Char.ofNat 0x212A then 'K'
  else c.toUpper

/-- Whether the object key `key` selects the struct field whose JSON name is `name`: an
exact match or a case-insensitive one. -/
def matchesField (name key : String) : Bool :=
  key == name || key.toList.map foldRune == name.toList.map foldRune

/-- No member of the object selects the field named `name`. -/
def Absent (name : String) (members : List (String × JVal)) : Prop :=
  ∀ m ∈ members, matchesField name m.1 = false

/-- The value carried by the last member of the object that selects the field named `name`
and satisfies `p`. -/
def lastMember (p : JVal → Bool) (name : String) (members : List (String × JVal)) :
    Option JVal :=
  (members.reverse.find? fun m => matchesField name m.1 && p m.2).map Prod.snd

/-- Whether a value is the literal `null`. -/
def JVal.isNull : JVal → Bool
  | .null => true
  | _ => false

/-- Values a string field accepts: `null` or a string literal. -/
def fitsString : JVal → Bool
  | .null => true
  | .str _ => true
  | _ => false

/-- Values an `int` field accepts: `null` or an integer literal in range. -/
def fitsInt : JVal → Bool
  | .null => true
  | .num n => decide (IsGoInt n)
  | .negZero => true
  | _ => false

/-- Array elements a `[]byte` field accepts: `null` or an integer literal from 0 to 255
(`strconv.ParseUint` refuses a sign, `-0` included). -/
def fitsByte : JVal → Bool
  | .null => true
  | .num n => decide (0 ≤ n ∧ n ≤ 255)
  | _ => false

/-- Values a `[]byte` field accepts: `null`, base64 text, or an array of byte values. -/
def fitsBytes : JVal → Bool
  | .null => true
  | .str s => (b64Decode s).isSome
  | .arr elems => elems.all fitsByte
  | _ => false

/-- Every member of the object that selects one of the nine fields of the record carries a
value the field accepts. -/
def WellTyped (members : List (String × JVal)) : Prop :=
  ∀ m ∈ members,
    ((matchesField "id" m.1 ∨ matchesField "appServiceKey" m.1 ∨ matchesField "version" m.1 ∨
        matchesField "correlationID" m.1 ∨ matchesField "eventID" m.1 ∨
        matchesField "eventChecksum" m.1) → fitsString m.2) ∧
    (matchesField "payload" m.1 → fitsBytes m.2) ∧
    ((matchesField "retryCount" m.1 ∨ matchesField "pipelinePosition" m.1) → fitsInt m.2)

/-- `json.Unmarshal` of one value into a `*string` field: `null` sets the pointer to nil, a
string literal sets it to a fresh string holding the literal's text, anything else is a type
error. -/
def decodeStringPtr : JVal → Except Error (Option GoString)
  | .null => .ok none
  | .str s => .ok (some (utf8Encode s))
  | _ => .error "json: cannot unmarshal value into Go struct field of type string"

/-- `json.Unmarshal` of one value into an `int` field holding `cur`: `null` has no effect, a
number literal must be in integer syntax and in range, anything else is a type error. -/
def decodeInt (cur : Int) : JVal → Except Error Int
  | .null => .ok cur
  | .num n =>
    if IsGoInt n then .ok n
    else .error "json: cannot unmarshal number into Go struct field of type int"
  | .negZero => .ok 0
  | _ => .error "json: cannot unmarshal value into Go struct field of type int"

/-- `json.Unmarshal` of one array element into the `uint8` that holds `cur`: `null` has no
effect, a number literal must be in integer syntax, unsigned and from 0 to 255, anything else
is a type error. -/
def decodeByteElem (cur : Byte) : JVal → Except Error Byte
  | .null => .ok cur
  | .num n =>
    if 0 ≤ n ∧ n ≤ 255 then .ok (byteOf n.toNat)
    else .error "json: cannot unmarshal number into Go value of type uint8"
  | _ => .error "json: cannot unmarshal value into Go value of type uint8"

/-- The loop of `json.Unmarshal` over the elements of an array stored into a `[]byte` whose
backing array holds `backing`: the slice is extended over its backing array one element at a
time (growing it with zeroed memory once it is used up), and element `i` of the array is
decoded into element `i` of the slice, which holds what the backing array holds there. -/
def decodeByteElems : List Byte → List JVal → Except Error (List Byte)
  | _, [] => .ok []
  | backing, e :: es =>
    match decodeByteElem (backing.headD 0) e with
    | .error err => .error err
    | .ok b => (decodeByteElems backing.tail es).map fun bs => b :: bs

/-- `json.Unmarshal` of one value into a `[]byte` field holding `cur`, whose backing array
continues with `spare` past the length of `cur`; the result is the slice and what its backing
array holds past its length.  `null` sets the slice to nil; a string literal is base64 text,
decoded into a fresh slice; an empty array sets a fresh empty slice; any other array is decoded
element by element into the existing slice, which is then cut to the number of elements. -/
def decodeBytes (cur : Bytes) (spare : List Byte) : JVal → Except Error (Bytes × List Byte)
  | .null => .ok (none, [])
  | .str s =>
    match b64Decode s with
    | some bs => .ok (some bs, [])
    | none => .error "illegal base64 data"
  | .arr elems =>
    if elems.isEmpty then .ok (some [], [])
    else
      (decodeByteElems (cur.content ++ spare) elems).map fun bs =>
        (some bs, (cur.content ++ spare).drop elems.length)
  | _ => .error "json: cannot unmarshal value into Go struct field of type []uint8"

/-! ## `contracts.StoredObject` and `models.StoredObject` -/

/-- The contract type `contracts.StoredObject` (same nine fields as the model). -/
structure contracts.StoredObject where
  ID : GoString
  AppServiceKey : GoString
  Payload : Bytes
  RetryCount : Int
  PipelinePosition : Int
  Version : GoString
  CorrelationID : GoString
  EventID : GoString
  EventChecksum : GoString

/-- The Redis model `models.StoredObject`. -/
structure StoredObject where
  ID : GoString
  AppServiceKey : GoString
  Payload : Bytes
  RetryCount : Int
  PipelinePosition : Int
  Version : GoString
  CorrelationID : GoString
  EventID : GoString
  EventChecksum : GoString

/-- The zero value of `StoredObject`. -/
def StoredObject.zero : StoredObject :=
  { ID := [], AppServiceKey := [], Payload := none, RetryCount := 0, PipelinePosition := 0,
    Version := [], CorrelationID := [], EventID := [], EventChecksum := [] }

/-- `ToContract` builds a contract out of the supplied model. -/
def StoredObject.ToContract (o : StoredObject) : contracts.StoredObject :=
  { ID := o.ID
    AppServiceKey := o.AppServiceKey
    Payload := o.Payload
    RetryCount := o.RetryCount
    PipelinePosition := o.PipelinePosition
    Version := o.Version
    CorrelationID := o.CorrelationID
    EventID := o.EventID
    EventChecksum := o.EventChecksum }

/-- `FromContract` overwrites the receiver `o` from the supplied contract; the result is the
receiver after the call. -/
def StoredObject.FromContract (o : StoredObject) (c : contracts.StoredObject) : StoredObject :=
  let o := { o with ID := c.ID }
  let o := { o with AppServiceKey := c.AppServiceKey }
  let o := { o with Payload := c.Payload }
  let o := { o with RetryCount := c.RetryCount }
  let o := { o with PipelinePosition := c.PipelinePosition }
  let o := { o with Version := c.Version }
  let o := { o with CorrelationID := c.CorrelationID }
  let o := { o with EventID := c.EventID }
  { o with EventChecksum := c.EventChecksum }

/-- The anonymous struct both `MarshalJSON` (as `test`) and `UnmarshalJSON` (as `alias`) go
through: the six strings are pointers, `none` being nil.  `payloadSpare` is not a field of the
Go struct: it is what the backing array of `Payload` holds past the length of `Payload`. -/
structure WireStruct where
  ID : Option GoString
  AppServiceKey : Option GoString
  Payload : Bytes
  RetryCount : Int
  PipelinePosition : Int
  Version : Option GoString
  CorrelationID : Option GoString
  EventID : Option GoString
  EventChecksum : Option GoString
  payloadSpare : List Byte

/-- The zero value of the anonymous struct (`new(struct ...)`). -/
def WireStruct.zero : WireStruct :=
  { ID := none, AppServiceKey := none, Payload := none, RetryCount := 0, PipelinePosition := 0,
    Version := none, CorrelationID := none, EventID := none, EventChecksum := none,
    payloadSpare := [] }

/-- One member of the encoded object for a `*string` field tagged `omitempty`: the string is
written as JSON text, invalid UTF-8 coerced to valid UTF-8. -/
def encodeStringPtr (name : String) : Option GoString → List (String × JVal)
  | none => []
  | some s => [(name, .str (utf8Lossy s))]

/-- One member of the encoded object for a `[]byte` field tagged `omitempty`: omitted when
the length is zero, base64 text otherwise. -/
def encodeBytes (name : String) (b : Bytes) : List (String × JVal) :=
  match b with
  | none => []
  | some bs => if bs.length = 0 then [] else [(name, .str (b64Encode bs))]

/-- One member of the encoded object for an `int` field tagged `omitempty`. -/
def encodeInt (name : String) (n : Int) : List (String × JVal) :=
  if n = 0 then [] else [(name, .num n)]

/-- `json.Marshal(test)`: the members in declaration order, with the `omitempty` rule of each
field's tag. -/
def jsonMarshal (t : WireStruct) : JVal :=
  .obj (encodeStringPtr "id" t.ID ++ encodeStringPtr "appServiceKey" t.AppServiceKey ++
    encodeBytes "payload" t.Payload ++ encodeInt "retryCount" t.RetryCount ++
    encodeInt "pipelinePosition" t.PipelinePosition ++ encodeStringPtr "version" t.Version ++
    encodeStringPtr "correlationID" t.CorrelationID ++ encodeStringPtr "eventID" t.EventID ++
    encodeStringPtr "eventChecksum" t.EventChecksum)

/-- `MarshalJSON` returns the object as a JSON encoded byte array. -/
def StoredObject.MarshalJSON (o : StoredObject) : Data × Option Error :=
  let test : WireStruct :=
    { WireStruct.zero with
      Payload := o.Payload
      RetryCount := o.RetryCount
      PipelinePosition := o.PipelinePosition }
  -- Empty strings are null
  let test := if o.ID ≠ [] then { test with ID := some o.ID } else test
  let test :=
    if o.AppServiceKey ≠ [] then { test with AppServiceKey := some o.AppServiceKey } else test
  let test := if o.Version ≠ [] then { test with Version := some o.Version } else test
  let test :=
    if o.CorrelationID ≠ [] then { test with CorrelationID := some o.CorrelationID } else test
  let test := if o.EventID ≠ [] then { test with EventID := some o.EventID } else test
  let test :=
    if o.EventChecksum ≠ [] then { test with EventChecksum := some o.EventChecksum } else test
  (.value (jsonMarshal test), none)

/-- The effect of one object member on the struct being filled: the member is stored into
the field its key selects, which holds what earlier members left there, and ignored when the
key selects none. -/
def decodeMember (a : WireStruct) (m : String × JVal) : Except Error WireStruct :=
  if matchesField "id" m.1 then (decodeStringPtr m.2).map fun p => { a with ID := p }
  else if matchesField "appServiceKey" m.1 then
    (decodeStringPtr m.2).map fun p => { a with AppServiceKey := p }
  else if matchesField "payload" m.1 then
    (decodeBytes a.Payload a.payloadSpare m.2).map fun b =>
      { a with Payload := b.1, payloadSpare := b.2 }
  else if matchesField "retryCount" m.1 then
    (decodeInt a.RetryCount m.2).map fun n => { a with RetryCount := n }
  else if matchesField "pipelinePosition" m.1 then
    (decodeInt a.PipelinePosition m.2).map fun n => { a with PipelinePosition := n }
  else if matchesField "version" m.1 then
    (decodeStringPtr m.2).map fun p => { a with Version := p }
  else if matchesField "correlationID" m.1 then
    (decodeStringPtr m.2).map fun p => { a with CorrelationID := p }
  else if matchesField "eventID" m.1 then
    (decodeStringPtr m.2).map fun p => { a with EventID := p }
  else if matchesField "eventChecksum" m.1 then
    (decodeStringPtr m.2).map fun p => { a with EventChecksum := p }
  else .ok a

/-- `json.Unmarshal(data, alias)` for a freshly allocated `alias`: a syntax error is returned
as is; `null` leaves the struct untouched; an object is stored member by member, in order;
any other value is a type error. -/
def jsonUnmarshal : Data → Except Error WireStruct
  | .malformed e => .error e
  | .value .null => .ok WireStruct.zero
  | .value (.obj members) => members.foldlM decodeMember WireStruct.zero
  | .value _ => .error "json: cannot unmarshal value into Go value of type struct"

/-- `UnmarshalJSON` returns an object from JSON: the result is the error, or the receiver
after the call. -/
def StoredObject.UnmarshalJSON (o : StoredObject) (data : Data) : Except Error StoredObject :=
  -- Error with unmarshaling
  match jsonUnmarshal data with
  | .error err => .error err
  | .ok aliasStruct =>
    -- Check nil fields
    let o := match aliasStruct.ID with
      | some s => { o with ID := s }
      | none => o
    let o := match aliasStruct.AppServiceKey with
      | some s => { o with AppServiceKey := s }
      | none => o
    let o := match aliasStruct.Version with
      | some s => { o with Version := s }
      | none => o
    let o := match aliasStruct.CorrelationID with
      | some s => { o with CorrelationID := s }
      | none => o
    let o := match aliasStruct.EventID with
      | some s => { o with EventID := s }
      | none => o
    let o := match aliasStruct.EventChecksum with
      | some s => { o with EventChecksum := s }
      | none => o
    let o := { o with Payload := aliasStruct.Payload }
    let o := { o with RetryCount := aliasStruct.RetryCount }
    let o := { o with PipelinePosition := aliasStruct.PipelinePosition }
    .ok o

/-! ## Pipeline values, the execution context and recorded effects -/

/-- Go `map[string]string` contents: a finite map with unique keys. -/
abbrev StringMap := AList fun _ : String => String

/-- Go `map[string]string`: `none` is the nil map. -/
abbrev TagMap := Option StringMap

/-- Go `len` on a map. -/
def TagMap.len : TagMap → Nat
  | none => 0
  | some m => m.entries.length

/-- The entries a `range` loop over the map visits; a nil map has none. -/
def TagMap.entries : TagMap → List (Sigma fun _ : String => String)
  | none => []
  | some m => m.entries

/-- Reading a key of a map; a nil map has no keys. -/
def TagMap.get (m : TagMap) (k : String) : Option String :=
  match m with
  | none => none
  | some m => m.lookup k

/-- `models.Reading` of go-mod-core-contracts, reduced to its identifying fields. -/
structure Reading where
  Id : String
  Device : String
  Name : String
  Value : String
  Origin : Int

/-- `models.Event` of go-mod-core-contracts. -/
structure Event where
  ID : String
  Pushed : Int
  Device : String
  Created : Int
  Modified : Int
  Origin : Int
  Readings : List Reading
  Tags : TagMap

/-- A Go `interface{}` as the pipeline passes it from one function to the next. -/
inductive Value where
  | nil
  | error (err : Error)
  | event (e : Event)
  | bytes (b : Bytes)
  | string (s : String)
  | other (description : String)

/-- An instant (`time.Time`), as a count of nanoseconds; `Before` is `<`. -/
abbrev Time := Int

/-- The part of `security.SecretProvider` the export stage consults. -/
structure SecretProvider where
  SecretsLastUpdated : Time

/-- `appcontext.Context`, reduced to the fields the two transforms touch. -/
structure Context where
  CorrelationID : String
  SecretProvider : SecretProvider
  RetryData : Bytes

/-- `MQTT.ClientOptions`, reduced to what `NewMQTTSecretSender` sets.  `Brokers` is the list
of addresses handed to `AddBroker`, in order; the client library derives its `Servers` from
them (it completes and parses each address), which is outside these files. -/
structure ClientOptions where
  Brokers : List String
  ClientID : String
  AutoReconnect : Bool

/-- `AddBroker`, as a recorded call. -/
def ClientOptions.AddBroker (o : ClientOptions) (server : String) : ClientOptions :=
  { o with Brokers := o.Brokers ++ [server] }

/-- `SetClientID`. -/
def ClientOptions.SetClientID (o : ClientOptions) (id : String) : ClientOptions :=
  { o with ClientID := id }

/-- `SetAutoReconnect`. -/
def ClientOptions.SetAutoReconnect (o : ClientOptions) (a : Bool) : ClientOptions :=
  { o with AutoReconnect := a }

/-- A handle to an `MQTT.Client`. -/
abbrev Client := Nat

/-- A completed `MQTT.Token`: what `Wait()` returned and what `Error()` returns. -/
structure Token where
  Wait : Bool
  Error : Option Error

/-- The calls the code makes on its collaborators, in the order it makes them. -/
inductive Effect where
  | log (level : String) (msg : String) (args : List String)
  | logTags (level : String) (format : String) (tags : TagMap)
  | create (authMode secretPath : String) (skipCertVerify : Bool) (opts : ClientOptions)
  | connect (client : Client)
  | publish (client : Client) (topic : String) (qos : Byte) (retained : Bool) (payload : Bytes)

/-- How the collaborators outside the embedded files answer during one call:
`util.CoerceType`, `secure.NewMqttFactory(...).Create`, `time.Now`, and the three methods of
`MQTT.Client` the export stage uses; and the constant `clients.CorrelationHeader` of
go-mod-core-contracts, declared outside the embedded files. -/
structure World where
  CorrelationHeader : String
  CoerceType : Value → Except Error Bytes
  Create : String → String → Bool → ClientOptions → Except Error Client
  Now : Time
  IsConnected : Client → Bool
  Connect : Client → Token
  Publish : Client → String → Byte → Bool → Bytes → Token

/-! ## `pkg/transforms/mqttsecret.go` -/

/-- `MQTTSecretConfig`. -/
structure MQTTSecretConfig where
  BrokerAddress : String
  ClientId : String
  SecretPath : String
  AutoReconnect : Bool
  Topic : String
  QoS : Byte
  Retain : Bool
  SkipCertVerify : Bool
  AuthMode : String

/-- `MQTTSecretSender` (the mutex has no state in a sequential embedding). -/
structure MQTTSecretSender where
  client : Option Client
  mqttConfig : MQTTSecretConfig
  persistOnError : Bool
  opts : ClientOptions
  secretsLastRetrieved : Time

/-- `MQTT.NewClientOptions()`, for the fields of `ClientOptions`. -/
def NewClientOptions : ClientOptions :=
  { Brokers := [], ClientID := "", AutoReconnect := true }

/-- `NewMQTTSecretSender`; `ToLower` stands for `strings.ToLower`. -/
def NewMQTTSecretSender (ToLower : String → String) (mqttConfig : MQTTSecretConfig)
    (persistOnError : Bool) : MQTTSecretSender :=
  let opts := NewClientOptions
  let opts := opts.AddBroker mqttConfig.BrokerAddress
  let opts := opts.SetClientID mqttConfig.ClientId
  let opts := opts.SetAutoReconnect mqttConfig.AutoReconnect
  -- avoid casing issues
  let mqttConfig := { mqttConfig with AuthMode := ToLower mqttConfig.AuthMode }
  { client := none
    mqttConfig := mqttConfig
    persistOnError := persistOnError
    opts := opts
    secretsLastRetrieved := 0 }

/-- The mutable state a call of the export stage works on: the receiver, the context and
the effects performed so far. -/
structure MQTTState where
  sender : MQTTSecretSender
  ctx : Context
  trace : List Effect

/-- Appending one effect to the trace. -/
def MQTTState.emit (s : MQTTState) (e : Effect) : MQTTState :=
  { s with trace := s.trace ++ [e] }

/-- `setRetryData`. -/
def setRetryData (s : MQTTState) (exportData : Bytes) : MQTTState :=
  if s.sender.persistOnError then { s with ctx := { s.ctx with RetryData := exportData } }
  else s

/-- `initializeMQTTClient`: the returned option is the Go `error` (`none` is nil). -/
def initializeMQTTClient (w : World) (s : MQTTState) : Option Error × MQTTState :=
  -- If the conditions changed while waiting for the lock then skip doing anything
  if s.sender.client ≠ none ∧
      ¬ s.sender.secretsLastRetrieved < s.ctx.SecretProvider.SecretsLastUpdated then
    (none, s)
  else
    let s := s.emit (.create s.sender.mqttConfig.AuthMode s.sender.mqttConfig.SecretPath
      s.sender.mqttConfig.SkipCertVerify s.sender.opts)
    match w.Create s.sender.mqttConfig.AuthMode s.sender.mqttConfig.SecretPath
        s.sender.mqttConfig.SkipCertVerify s.sender.opts with
    | .error err => (some err, s)
    | .ok client =>
      let s := { s with sender := { s.sender with client := some client } }
      let s := { s with sender := { s.sender with secretsLastRetrieved := w.Now } }
      (none, s)

/-- `connectToBroker`; the outer `none` is the nil-pointer panic of calling a method on a nil
`sender.client`. -/
def connectToBroker (w : World) (s : MQTTState) (exportData : Bytes) :
    Option (Option Error × MQTTState) :=
  match s.sender.client with
  | none => none
  | some client =>
    -- If other thread made the connection while this one was waiting for the lock
    -- then skip trying to connect
    if w.IsConnected client then some (none, s)
    else
      let s := s.emit (.log "INFO" "Connecting to mqtt server for export" [])
      let s := s.emit (.connect client)
      let token := w.Connect client
      if token.Wait ∧ token.Error ≠ none then
        let s := setRetryData s exportData
        let subMessage :=
          if s.sender.persistOnError then "persisting Event for later retry" else "dropping event"
        some (some ("Could not connect to mqtt server for export, " ++ subMessage ++
          ". Error: " ++ token.Error.getD ""), s)
      else
        let s := s.emit (.log "INFO" "Connected to mqtt server for export" [])
        some (none, s)

/-- The first step of `MQTTSend` after the coercion: if we havent initialized the client yet
OR the cache has been invalidated (due to new/updated secrets) we need to (re)initialize the
client. -/
def clientStep (w : World) (s : MQTTState) : Option Error × MQTTState :=
  if s.sender.client = none ∨
      s.sender.secretsLastRetrieved < s.ctx.SecretProvider.SecretsLastUpdated then
    initializeMQTTClient w s
  else (none, s)

/-- The part of `MQTTSend` from the publish on. -/
def publishStep (w : World) (s : MQTTState) (client : Client) (exportData : Bytes) :
    (Bool × Value) × MQTTState :=
  let s := s.emit (.publish client s.sender.mqttConfig.Topic s.sender.mqttConfig.QoS
    s.sender.mqttConfig.Retain exportData)
  let token := w.Publish client s.sender.mqttConfig.Topic s.sender.mqttConfig.QoS
    s.sender.mqttConfig.Retain exportData
  match token.Error with
  | some err =>
    let s := setRetryData s exportData
    ((false, .error err), s)
  | none =>
    let s := s.emit (.log "DEBUG" "Sent data to MQTT Broker" [])
    let s := s.emit (.log "TRACE" "Data exported"
      ["Transport", "MQTT", w.CorrelationHeader, s.ctx.CorrelationID])
    ((true, .nil), s)

/-- `MQTTSend` sends data from the previous function to the specified MQTT broker.  The
result is the returned pair together with the receiver, the context and the effects after
the call; the outer `none` is a nil-pointer panic. -/
def MQTTSend (w : World) (sender : MQTTSecretSender) (edgexcontext : Context)
    (params : List Value) : Option ((Bool × Value) × MQTTState) :=
  let s : MQTTState := { sender := sender, ctx := edgexcontext, trace := [] }
  match params with
  | [] =>
    -- We didn't receive a result
    some ((false, .error "No Data Received"), s)
  | p :: _ =>
    match w.CoerceType p with
    | .error err => some ((false, .error err), s)
    | .ok exportData =>
      match clientStep w s with
      | (some err, s) => some ((false, .error err), s)
      | (none, s) =>
        match s.sender.client with
        | none => none
        | some client =>
          if ¬ w.IsConnected client then
            match connectToBroker w s exportData with
            | none => none
            | some (some err, s) => some ((false, .error err), s)
            | some (none, s) =>
              match s.sender.client with
              | none => none
              | some client => some (publishStep w s client exportData)
          else some (publishStep w s client exportData)

/-- Whether an effect is a client construction. -/
def Effect.isCreate : Effect → Bool
  | .create _ _ _ _ => true
  | _ => false

/-- Whether an effect is a publish. -/
def Effect.isPublish : Effect → Bool
  | .publish _ _ _ _ _ => true
  | _ => false

/-- Whether an effect is a connect attempt. -/
def Effect.isConnect : Effect → Bool
  | .connect _ => true
  | _ => false

/-- The text of the error `connectToBroker` returns when the connect attempt fails with
`err`. -/
def connectError (persistOnError : Bool) (err : Error) : Error :=
  "Could not connect to mqtt server for export, " ++
    (if persistOnError then "persisting Event for later retry" else "dropping event") ++
    ". Error: " ++ err

/-- The rest of `MQTTSend` once the client step has left `client` in place, in closed form:
connect if the client reports not connected, then publish. -/
def sendWithClient (w : World) (s : MQTTState) (client : Client) (exportData : Bytes) :
    (Bool × Value) × MQTTState :=
  if w.IsConnected client then publishStep w s client exportData
  else if (w.Connect client).Wait = true ∧ (w.Connect client).Error ≠ none then
    ((false, .error (connectError s.sender.persistOnError ((w.Connect client).Error.getD ""))),
      setRetryData ((s.emit (.log "INFO" "Connecting to mqtt server for export" [])).emit
        (.connect client)) exportData)
  else
    publishStep w (((s.emit (.log "INFO" "Connecting to mqtt server for export" [])).emit
      (.connect client)).emit (.log "INFO" "Connected to mqtt server for export" []))
      client exportData

/-- A world for the examples: a byte slice coerces to itself, a string to its bytes, and every
other value is refused (the examples pass no event); the factory answers `create`, every
client reports `connected`, and connect and publish attempts complete with the given
errors. -/
def sampleWorld (create : Except Error Client) (connected : Bool)
    (connect publish : Option Error) : World :=
  { CorrelationHeader := "X-Correlation-ID"
    CoerceType := fun v =>
      match v with
      | .bytes b => .ok b
      | .string s => .ok (some (utf8Encode s))
      | _ => .error "passed in data must be of type []byte, string or implement json.Marshaler"
    Create := fun _ _ _ _ => create
    Now := 1000
    IsConnected := fun _ => connected
    Connect := fun _ => { Wait := true, Error := connect }
    Publish := fun _ _ _ _ _ => { Wait := true, Error := publish } }

/-- A sender for the examples, as `NewMQTTSecretSender` builds it. -/
def sampleSender (persistOnError : Bool) : MQTTSecretSender :=
  NewMQTTSecretSender String.toLower
    { BrokerAddress := "tcps://broker:8883", ClientId := "edge-1", SecretPath := "mqtt",
      AutoReconnect := false, Topic := "export", QoS := 1, Retain := false,
      SkipCertVerify := false, AuthMode := "ClientCert" } persistOnError

/-- A context for the examples: secrets last updated at instant 5, no retry data. -/
def sampleContext : Context :=
  { CorrelationID := "corr-1", SecretProvider := { SecretsLastUpdated := 5 }, RetryData := none }

/-! ## `pkg/transforms/tags.go` -/

/-- `Tags` contains the list of Tag key/values. -/
structure Tags where
  tags : TagMap

/-- `NewTags` creates, initializes and returns a new instance of Tags. -/
def NewTags (tags : TagMap) : Tags := { tags := tags }

/-- The body of `AddTags` once the event's map exists (`make` has replaced a nil map): the
`range` loop stores every configured entry into it. -/
def addAll (entries : List (Sigma fun _ : String => String)) (m : StringMap) : StringMap :=
  entries.foldl (fun acc e => acc.insert e.1 e.2) m

/-- `AddTags` adds the pre-configured list of tags to the Event's tags collection. -/
def Tags.AddTags (t : Tags) (params : List Value) : (Bool × Value) × List Effect :=
  let trace := [Effect.log "DEBUG" "Adding tags to Event" []]
  match params with
  | [] => ((false, .error "no Event Received"), trace)
  | .event event :: _ =>
    if t.tags.len > 0 then
      let m : StringMap :=
        match event.Tags with
        | none => ∅
        | some m => m
      let event := { event with Tags := some (addAll t.tags.entries m) }
      ((true, .event event),
        trace ++ [.logTags "DEBUG" "Tags added to Event. Event tags=%v" event.Tags])
    else
      ((true, .event event),
        trace ++ [.log "DEBUG" "No tags added to Event. Add tags list is empty." []])
  | _ :: _ => ((false, .error "type received is not an Event"), trace)

/-- The map `tagsToAdd` of `tags_test.go`. -/
def tagsToAdd : TagMap :=
  some (((∅ : StringMap).insert "GatewayId" "HoustonStore000123").insert "Latitude"
    "29.630771" |>.insert "Longitude" "-95.377603")

/-- The event `eventWithExistingTags` of `tags_test.go`. -/
def eventWithExistingTags : Event :=
  { ID := "", Pushed := 0, Device := "", Created := 0, Modified := 0, Origin := 0,
    Readings := [],
    Tags := some (((∅ : StringMap).insert "Tag1" "Value1").insert "Tag2" "Value2") }

/-! ## `internal/store/factory.go` -/

/-- Modelled from the spec: `db.DatabaseInfo` is declared outside the embedded files; the spec
describes it as a discriminated configuration value naming the backend engine plus
connection parameters (host, port, credentials).  `DBType` is the Go field `Type`. -/
structure DatabaseInfo where
  DBType : String
  Host : String
  Port : Int
  Username : String
  Password : String

/-- The names `factory.go` takes from package `db`, declared outside the embedded files. -/
structure DbPackage where
  MongoDB : String
  RedisDB : String
  ErrUnsupportedDatabase : Error

/-- A handle to an `interfaces.StoreClient`. -/
abbrev StoreClient := Nat

/-- A Go result pair `(interfaces.StoreClient, error)`; `none` is nil. -/
abbrev StoreResult := Option StoreClient × Option Error

/-- The backend constructors `NewStoreClient` can call. -/
inductive StoreCall where
  | mongoNewClient (config : DatabaseInfo)
  | redisNewClient (config : DatabaseInfo)

/-- `NewStoreClient`: the returned pair and the constructor calls made, `mongoNewClient` and
`redisNewClient` standing for `mongo.NewClient` and `redis.NewClient`. -/
def NewStoreClient (db : DbPackage) (mongoNewClient redisNewClient : DatabaseInfo → StoreResult)
    (config : DatabaseInfo) : StoreResult × List StoreCall :=
  if config.DBType = db.MongoDB then (mongoNewClient config, [.mongoNewClient config])
  else if config.DBType = db.RedisDB then (redisNewClient config, [.redisNewClient config])
  else ((none, some db.ErrUnsupportedDatabase), [])

/-- The struct `MarshalJSON` hands to `json.Marshal`, in closed form: a string field is
pointed to exactly when it is not empty. -/
def StoredObject.wire (o : StoredObject) : WireStruct :=
  { ID := if o.ID ≠ [] then some o.ID else none
    AppServiceKey := if o.AppServiceKey ≠ [] then some o.AppServiceKey else none
    Payload := o.Payload
    RetryCount := o.RetryCount
    PipelinePosition := o.PipelinePosition
    Version := if o.Version ≠ [] then some o.Version else none
    CorrelationID := if o.CorrelationID ≠ [] then some o.CorrelationID else none
    EventID := if o.EventID ≠ [] then some o.EventID else none
    EventChecksum := if o.EventChecksum ≠ [] then some o.EventChecksum else none
    payloadSpare := [] }

/-- The pointer a `*string` field of the anonymous struct holds after decoding the member
value `v` (`none`: no member). -/
def ptrOf : Option JVal → Option GoString
  | some (.str s) => some (utf8Encode s)
  | _ => none

/-- The string a string field holds after decoding the member value `v` (`none`: no member). -/
def stringOf : Option JVal → GoString
  | some (.str s) => utf8Encode s
  | _ => []

/-- The number an `int` field holds after decoding the member value `v` (`none`: no member). -/
def intOf : Option JVal → Int
  | some (.num n) => n
  | _ => 0

/-- The octet a JSON number from 0 to 255 stands for in an array of byte values; for any
other element, zero. -/
def byteValue : JVal → Byte
  | .num n => byteOf n.toNat
  | _ => 0

/-- The members of the object that select the field named `name`. -/
def membersFor (name : String) (members : List (String × JVal)) : List (String × JVal) :=
  members.filter fun m => matchesField name m.1

/-- The JSON value `v` carries the Go string `s` verbatim: `v` is a string, and the UTF-8
bytes of its text are the bytes of `s`. -/
def JVal.isStringOf (v : JVal) (s : GoString) : Prop :=
  ∃ text, v = .str text ∧ utf8Encode text = s

/-- What becomes of a Go string that is written as a JSON string and read back: the bytes of
the text `encoding/json` wrote for it. -/
def jsonCoerce (s : GoString) : GoString := utf8Encode (utf8Lossy s)

/-- What the members of the object `d` that select `payload` say about the slice `p` the
object is decoded to.  If the last of them is `null`, `p` is nil; if it is a string, `p` is
the base64 decoding of its text; if it is an array, `p` has one octet for each element, and
these are the numbers listed (zero for a `null` element) provided the array has no `null`
element or no other member of `d` selects `payload`.  A `null` element of an array that
follows an earlier payload member leaves in place what the slice held there. -/
def PayloadDecoded (d : List (String × JVal)) (p : Bytes) : Prop :=
  (lastMember (fun _ => true) "payload" d = some .null → p = none) ∧
  (∀ s, lastMember (fun _ => true) "payload" d = some (.str s) → p = b64Decode s) ∧
  (∀ elems, lastMember (fun _ => true) "payload" d = some (.arr elems) →
    p.len = elems.length ∧
    ((elems.all (fun e => !e.isNull) = true ∨ (membersFor "payload" d).length = 1) →
      p = some (elems.map byteValue)))

/-- The names of package `db` for the examples. -/
def sampleDb : DbPackage :=
  { MongoDB := "mongodb", RedisDB := "redisdb",
    ErrUnsupportedDatabase := "unsupported database type" }

/-- A store configuration for the examples, by backend name. -/
def sampleConfig (backend : String) : DatabaseInfo :=
  { DBType := backend, Host := "localhost", Port := 6379, Username := "", Password := "" }

/-- `UnmarshalJSON` with the receiver threaded through the call: the Go `error` returned
(`none` is nil) and the receiver `*o` as the call leaves it.  On an error of `json.Unmarshal`
the function returns before any assignment to the receiver. -/
def StoredObject.unmarshalJSONInto (o : StoredObject) (data : Data) :
    Option Error × StoredObject :=
  -- Error with unmarshaling
  match jsonUnmarshal data with
  | .error err => (some err, o)
  | .ok aliasStruct =>
    -- Check nil fields
    let o := match aliasStruct.ID with
      | some s => { o with ID := s }
      | none => o
    let o := match aliasStruct.AppServiceKey with
      | some s => { o with AppServiceKey := s }
      | none => o
    let o := match aliasStruct.Version with
      | some s => { o with Version := s }
      | none => o
    let o := match aliasStruct.CorrelationID with
      | some s => { o with CorrelationID := s }
      | none => o
    let o := match aliasStruct.EventID with
      | some s => { o with EventID := s }
      | none => o
    let o := match aliasStruct.EventChecksum with
      | some s => { o with EventChecksum := s }
      | none => o
    let o := { o with Payload := aliasStruct.Payload }
    let o := { o with RetryCount := aliasStruct.RetryCount }
    let o := { o with PipelinePosition := aliasStruct.PipelinePosition }
    (none, o)

/-- A populated record for the examples. -/
def sampleStoredObject : StoredObject :=
  { ID := utf8Encode "7", AppServiceKey := utf8Encode "svc", Payload := some [9],
    RetryCount := 2, PipelinePosition := 1, Version := utf8Encode "v",
    CorrelationID := utf8Encode "c", EventID := utf8Encode "e",
    EventChecksum := utf8Encode "k" }

/-- Whether a pipeline value is a `models.Event` (the type assertion of `AddTags`). -/
def Value.isEvent : Value → Bool
  | .event _ => true
  | _ => false

/-- Whether a pipeline value is an error whose message contains `needle`. -/
def Value.errorContains (v : Value) (needle : String) : Prop :=
  match v with
  | .error msg => needle.toList <:+: msg.toList
  | _ => False

/-- Lower-casing of the ASCII letters of a string, on which `strings.ToLower` agrees for
ASCII text; used in the examples. -/
def asciiToLower (s : String) : String := String.mk (s.toList.map Char.toLower)

/-- A sink configuration for the examples, with a mixed-case auth mode. -/
def sampleMQTTConfig : MQTTSecretConfig :=
  { BrokerAddress := "tcps://broker:8883", ClientId := "edge-1", SecretPath := "mqtt",
    AutoReconnect := false, Topic := "export", QoS := 1, Retain := false,
    SkipCertVerify := false, AuthMode := "ClientCert" }

/-- A state for the examples: a sender holding client 3, fetched at instant 5, the instant
at which `sampleContext` says the secrets were last updated. -/
def sampleCachedState : MQTTState :=
  { sender := { sampleSender true with client := some 3, secretsLastRetrieved := 5 }
    ctx := sampleContext
    trace := [] }

/-! ## Facts about base64 -/

theorem b64Index_b64Char_fin : ∀ i : Fin 64, b64Index (b64Char i.val) = some i.val := by
  decide

theorem b64Char_ne_special_fin :
    ∀ i : Fin 64, b64Char i.val ≠ '=' ∧ b64Char i.val ≠ '\r' ∧ b64Char i.val ≠ '\n' := by
  decide

theorem b64Index_b64Char {i : Nat} (h : i < 64) : b64Index (b64Char i) = some i :=
  b64Index_b64Char_fin ⟨i, h⟩

theorem b64Char_ne_pad {i : Nat} (h : i < 64) : b64Char i ≠ '=' :=
  (b64Char_ne_special_fin ⟨i, h⟩).1

theorem b64Char_keep {i : Nat} (h : i < 64) :
    (b64Char i != '\r' && b64Char i != '\n') = true := by
  have h2 := (b64Char_ne_special_fin ⟨i, h⟩).2
  simp [h2.1, h2.2]

theorem byteOf_val (a : Byte) : byteOf a.val = a := by
  apply Fin.ext
  simp [byteOf, Nat.mod_eq_of_lt a.isLt]

theorem b64DecodeChars_encode (bs : List Byte) :
    b64DecodeChars (b64EncodeChars bs) = some bs := by
  induction bs using b64EncodeChars.induct with
  | case1 => rfl
  | case2 a =>
    have ha := a.isLt
    have h0 : a.val / 4 < 64 := by omega
    have h1 : a.val % 4 * 16 < 64 := by omega
    simp only [b64EncodeChars, b64DecodeChars, b64Index_b64Char h0, b64Index_b64Char h1]
    have e : a.val / 4 * 4 + a.val % 4 * 16 / 16 = a.val := by omega
    simp only [e, byteOf_val]
    simp
  | case3 a b =>
    have ha := a.isLt
    have hb := b.isLt
    have h0 : a.val / 4 < 64 := by omega
    have h1 : a.val % 4 * 16 + b.val / 16 < 64 := by omega
    have h2 : b.val % 16 * 4 < 64 := by omega
    simp only [b64EncodeChars, b64DecodeChars, b64Index_b64Char h0, b64Index_b64Char h1,
      b64Index_b64Char h2, if_neg (b64Char_ne_pad h2)]
    have e1 : a.val / 4 * 4 + (a.val % 4 * 16 + b.val / 16) / 16 = a.val := by omega
    have e2 : (a.val % 4 * 16 + b.val / 16) % 16 * 16 + b.val % 16 * 4 / 4 = b.val := by omega
    simp only [e1, e2, byteOf_val]
    simp
  | case4 a b c rest ih =>
    have ha := a.isLt
    have hb := b.isLt
    have hc := c.isLt
    have h0 : a.val / 4 < 64 := by omega
    have h1 : a.val % 4 * 16 + b.val / 16 < 64 := by omega
    have h2 : b.val % 16 * 4 + c.val / 64 < 64 := by omega
    have h3 : c.val % 64 < 64 := by omega
    simp only [b64EncodeChars, b64DecodeChars, b64Index_b64Char h0, b64Index_b64Char h1,
      b64Index_b64Char h2, b64Index_b64Char h3, if_neg (b64Char_ne_pad h2),
      if_neg (b64Char_ne_pad h3), ih]
    have e1 : a.val / 4 * 4 + (a.val % 4 * 16 + b.val / 16) / 16 = a.val := by omega
    have e2 : (a.val % 4 * 16 + b.val / 16) % 16 * 16 + (b.val % 16 * 4 + c.val / 64) / 4
        = b.val := by omega
    have e3 : (b.val % 16 * 4 + c.val / 64) % 4 * 64 + c.val % 64 = c.val := by omega
    simp only [e1, e2, e3, byteOf_val]
    simp

theorem b64EncodeChars_keep (bs : List Byte) :
    ∀ c ∈ b64EncodeChars bs, (c != '\r' && c != '\n') = true := by
  induction bs using b64EncodeChars.induct with
  | case1 => simp [b64EncodeChars]
  | case2 a =>
    have ha := a.isLt
    have h0 : a.val / 4 < 64 := by omega
    have h1 : a.val % 4 * 16 < 64 := by omega
    intro c hc
    simp only [b64EncodeChars, List.mem_cons, List.mem_singleton] at hc
    rcases hc with rfl | rfl | rfl | rfl | hc
    · exact b64Char_keep h0
    · exact b64Char_keep h1
    · decide
    · decide
    · simp at hc
  | case3 a b =>
    have ha := a.isLt
    have hb := b.isLt
    have h0 : a.val / 4 < 64 := by omega
    have h1 : a.val % 4 * 16 + b.val / 16 < 64 := by omega
    have h2 : b.val % 16 * 4 < 64 := by omega
    intro c hc
    simp only [b64EncodeChars, List.mem_cons, List.mem_singleton] at hc
    rcases hc with rfl | rfl | rfl | rfl | hc
    · exact b64Char_keep h0
    · exact b64Char_keep h1
    · exact b64Char_keep h2
    · decide
    · simp at hc
  | case4 a b c rest ih =>
    have ha := a.isLt
    have hb := b.isLt
    have hc := c.isLt
    have h0 : a.val / 4 < 64 := by omega
    have h1 : a.val % 4 * 16 + b.val / 16 < 64 := by omega
    have h2 : b.val % 16 * 4 + c.val / 64 < 64 := by omega
    have h3 : c.val % 64 < 64 := by omega
    intro x hx
    simp only [b64EncodeChars, List.mem_cons] at hx
    rcases hx with rfl | rfl | rfl | rfl | hx
    · exact b64Char_keep h0
    · exact b64Char_keep h1
    · exact b64Char_keep h2
    · exact b64Char_keep h3
    · exact ih x hx

/-- Decoding the base64 text of a byte sequence gives the sequence back. -/
theorem b64Decode_b64Encode (bs : List Byte) : b64Decode (b64Encode bs) = some bs := by
  unfold b64Decode b64Encode
  have h : (String.mk (b64EncodeChars bs)).toList = b64EncodeChars bs := rfl
  rw [h, List.filter_eq_self.mpr (b64EncodeChars_keep bs)]
  exact b64DecodeChars_encode bs

/-- The base64 text of a non-empty byte sequence is not the empty string. -/
theorem b64Encode_ne_empty {bs : List Byte} (h : bs ≠ []) : b64Encode bs ≠ "" := by
  intro he
  have h2 : b64EncodeChars bs = [] := by
    have := congrArg String.toList he
    simpa [b64Encode] using this
  cases bs with
  | nil => exact h rfl
  | cons a t =>
    cases t with
    | nil => simp [b64EncodeChars] at h2
    | cons b t =>
      cases t with
      | nil => simp [b64EncodeChars] at h2
      | cons c t => simp [b64EncodeChars] at h2

/-! ## Facts about UTF-8 -/

theorem isCont_iff (b : Byte) : isCont b = true ↔ 0x80 ≤ b.val ∧ b.val ≤ 0xBF := by
  simp [isCont]

theorem byte_eq_byteOf (b : Byte) (n : Nat) (h : b.val = n) : b = byteOf n := by
  apply Fin.ext
  have := b.isLt
  simp only [byteOf]
  omega

/-- What `decodeRune` accepts is the encoding of the scalar value it returns. -/
theorem decodeRune_spec (bs rest1 : List Byte) (cp : Nat)
    (h : decodeRune bs = some (cp, rest1)) :
    bs = encodeRune cp ++ rest1 ∧ (cp < 0xD800 ∨ (0xDFFF < cp ∧ cp < 0x110000)) := by
  cases bs with
  | nil => simp [decodeRune] at h
  | cons b0 rest =>
    have hb0 := b0.isLt
    unfold decodeRune at h
    simp only at h
    split_ifs at h with h1 h2 h3 h4
    · simp only [Option.some.injEq, Prod.mk.injEq] at h
      obtain ⟨rfl, rfl⟩ := h
      refine ⟨?_, by omega⟩
      simp only [encodeRune, if_pos h1, List.singleton_append, List.cons.injEq, and_true]
      exact byte_eq_byteOf _ _ rfl
    · cases rest with
      | nil => simp at h
      | cons b1 r1 =>
        have hb1 := b1.isLt
        simp only at h
        split_ifs at h with hc
        rw [isCont_iff] at hc
        simp only [Option.some.injEq, Prod.mk.injEq] at h
        obtain ⟨rfl, rfl⟩ := h
        refine ⟨?_, by omega⟩
        have e1 : ¬ (b0.val % 32 * 64 + b1.val % 64 < 0x80) := by omega
        have e2 : b0.val % 32 * 64 + b1.val % 64 < 0x800 := by omega
        simp only [encodeRune, if_neg e1, if_pos e2, List.cons_append, List.nil_append,
          List.cons.injEq, and_true]
        exact ⟨byte_eq_byteOf _ _ (by omega), byte_eq_byteOf _ _ (by omega)⟩
    · cases rest with
      | nil => simp at h
      | cons b1 r1 =>
        cases r1 with
        | nil => simp at h
        | cons b2 r2 =>
          have hb1 := b1.isLt
          have hb2 := b2.isLt
          simp only at h
          split_ifs at h with hc
          obtain ⟨hlo, hhi, hc2⟩ := hc
          rw [isCont_iff] at hc2
          simp only [Option.some.injEq, Prod.mk.injEq] at h
          obtain ⟨rfl, rfl⟩ := h
          have hlo1 : (b0.val = 0xE0 → 0xA0 ≤ b1.val) ∧ 0x80 ≤ b1.val := by
            unfold secondLo at hlo; split_ifs at hlo <;> omega
          have hhi1 : (b0.val = 0xED → b1.val ≤ 0x9F) ∧ b1.val ≤ 0xBF := by
            unfold secondHi at hhi; split_ifs at hhi <;> omega
          refine ⟨?_, by omega⟩
          have e1 : ¬ (b0.val % 16 * 4096 + b1.val % 64 * 64 + b2.val % 64 < 0x80) := by omega
          have e2 : ¬ (b0.val % 16 * 4096 + b1.val % 64 * 64 + b2.val % 64 < 0x800) := by
            omega
          have e3 : b0.val % 16 * 4096 + b1.val % 64 * 64 + b2.val % 64 < 0x10000 := by omega
          simp only [encodeRune, if_neg e1, if_neg e2, if_pos e3, List.cons_append,
            List.nil_append, List.cons.injEq, and_true]
          exact ⟨byte_eq_byteOf _ _ (by omega), byte_eq_byteOf _ _ (by omega),
            byte_eq_byteOf _ _ (by omega)⟩
    · cases rest with
      | nil => simp at h
      | cons b1 r1 =>
        cases r1 with
        | nil => simp at h
        | cons b2 r2 =>
          cases r2 with
          | nil => simp at h
          | cons b3 r3 =>
            have hb1 := b1.isLt
            have hb2 := b2.isLt
            have hb3 := b3.isLt
            simp only at h
            split_ifs at h with hc
            obtain ⟨hlo, hhi, hc2, hc3⟩ := hc
            rw [isCont_iff] at hc2 hc3
            simp only [Option.some.injEq, Prod.mk.injEq] at h
            obtain ⟨rfl, rfl⟩ := h
            have hlo1 : (b0.val = 0xF0 → 0x90 ≤ b1.val) ∧ 0x80 ≤ b1.val := by
              unfold secondLo at hlo; split_ifs at hlo <;> omega
            have hhi1 : (b0.val = 0xF4 → b1.val ≤ 0x8F) ∧ b1.val ≤ 0xBF := by
              unfold secondHi at hhi; split_ifs at hhi <;> omega
            refine ⟨?_, by omega⟩
            have e1 : ¬ (b0.val % 8 * 262144 + b1.val % 64 * 4096 + b2.val % 64 * 64 +
                b3.val % 64 < 0x80) := by omega
            have e2 : ¬ (b0.val % 8 * 262144 + b1.val % 64 * 4096 + b2.val % 64 * 64 +
                b3.val % 64 < 0x800) := by omega
            have e3 : ¬ (b0.val % 8 * 262144 + b1.val % 64 * 4096 + b2.val % 64 * 64 +
                b3.val % 64 < 0x10000) := by omega
            simp only [encodeRune, if_neg e1, if_neg e2, if_neg e3, List.cons_append,
              List.nil_append, List.cons.injEq, and_true]
            exact ⟨byte_eq_byteOf _ _ (by omega), byte_eq_byteOf _ _ (by omega),
              byte_eq_byteOf _ _ (by omega), byte_eq_byteOf _ _ (by omega)⟩

theorem char_toNat_ofNat (cp : Nat) (h : cp < 0xD800 ∨ (0xDFFF < cp ∧ cp < 0x110000)) :
    (Char.ofNat cp).toNat = cp := by
  have hv : cp.isValidChar := h
  simp only [Char.ofNat, dif_pos hv, Char.ofNatAux, Char.toNat]
  rfl

theorem encodeRune_ne_nil (n : Nat) : encodeRune n ≠ [] := by
  unfold encodeRune
  split_ifs <;> simp

theorem decodeRune_length (bs rest1 : List Byte) (cp : Nat)
    (h : decodeRune bs = some (cp, rest1)) : rest1.length < bs.length := by
  have h1 := (decodeRune_spec bs rest1 cp h).1
  have h2 := encodeRune_ne_nil cp
  have h3 : 0 < (encodeRune cp).length := List.length_pos.mpr h2
  rw [h1, List.length_append]
  omega

theorem utf8LossyAux_roundtrip (fuel : Nat) :
    ∀ bs : List Byte, bs.length ≤ fuel → validUTF8Aux fuel bs = true →
      (utf8LossyAux fuel bs).flatMap (fun c => encodeRune c.toNat) = bs := by
  induction fuel with
  | zero =>
    intro bs hlen _
    cases bs with
    | nil => rfl
    | cons b rest => simp at hlen
  | succ fuel ih =>
    intro bs hlen hv
    cases bs with
    | nil => rfl
    | cons b rest =>
      simp only [validUTF8Aux] at hv
      simp only [utf8LossyAux]
      cases hd : decodeRune (b :: rest) with
      | none => simp [hd] at hv
      | some p =>
        obtain ⟨cp, rest1⟩ := p
        simp only [hd] at hv
        obtain ⟨hbs, hsc⟩ := decodeRune_spec _ _ _ hd
        have hl := decodeRune_length _ _ _ hd
        simp only [List.length_cons] at hlen hl
        simp only [List.flatMap_cons, char_toNat_ofNat cp hsc]
        rw [ih rest1 (by omega) hv]
        exact hbs.symm

/-- The bound on the number of runes is never reached: any fuel that covers the length of the
input gives the same text. -/
theorem utf8LossyAux_fuel (fuel1 : Nat) :
    ∀ (fuel2 : Nat) (bs : List Byte), bs.length ≤ fuel1 → bs.length ≤ fuel2 →
      utf8LossyAux fuel1 bs = utf8LossyAux fuel2 bs := by
  induction fuel1 with
  | zero =>
    intro fuel2 bs h1 _
    cases bs with
    | nil => cases fuel2 <;> rfl
    | cons b rest => simp at h1
  | succ fuel1 ih =>
    intro fuel2 bs h1 h2
    cases bs with
    | nil => cases fuel2 <;> rfl
    | cons b rest =>
      cases fuel2 with
      | zero => simp at h2
      | succ fuel2 =>
        simp only [utf8LossyAux]
        simp only [List.length_cons] at h1 h2
        cases hd : decodeRune (b :: rest) with
        | none =>
          simp only
          rw [ih fuel2 rest (by omega) (by omega)]
        | some p =>
          obtain ⟨cp, rest1⟩ := p
          have hl := decodeRune_length _ _ _ hd
          simp only [List.length_cons] at hl
          simp only
          rw [ih fuel2 rest1 (by omega) (by omega)]

/-- The validity check does not depend on the fuel either, once it covers the input. -/
theorem validUTF8Aux_fuel (fuel1 : Nat) :
    ∀ (fuel2 : Nat) (bs : List Byte), bs.length ≤ fuel1 → bs.length ≤ fuel2 →
      validUTF8Aux fuel1 bs = validUTF8Aux fuel2 bs := by
  induction fuel1 with
  | zero =>
    intro fuel2 bs h1 _
    cases bs with
    | nil => cases fuel2 <;> rfl
    | cons b rest => simp at h1
  | succ fuel1 ih =>
    intro fuel2 bs h1 h2
    cases bs with
    | nil => cases fuel2 <;> rfl
    | cons b rest =>
      cases fuel2 with
      | zero => simp at h2
      | succ fuel2 =>
        simp only [validUTF8Aux]
        simp only [List.length_cons] at h1 h2
        cases hd : decodeRune (b :: rest) with
        | none => rfl
        | some p =>
          obtain ⟨cp, rest1⟩ := p
          have hl := decodeRune_length _ _ _ hd
          simp only [List.length_cons] at hl
          simp only
          rw [ih fuel2 rest1 (by omega) (by omega)]

/-- Valid UTF-8 survives the coercion `encoding/json` applies when writing a string. -/
theorem utf8Encode_utf8Lossy (s : GoString) (h : ValidUTF8 s) : utf8Encode (utf8Lossy s) = s :=
  utf8LossyAux_roundtrip s.length s (Nat.le_refl _) h

theorem utf8Lossy_ne_empty (s : GoString) (h : s ≠ []) : utf8Lossy s ≠ "" := by
  cases s with
  | nil => exact absurd rfl h
  | cons b rest =>
    intro he
    have : (utf8Lossy (b :: rest)).data = [] := by rw [he]
    simp only [utf8Lossy, List.length_cons, utf8LossyAux] at this
    cases hd : decodeRune (b :: rest) <;> simp [hd] at this

theorem jsonCoerce_nil : jsonCoerce [] = [] := rfl

/-- A JSON round trip leaves a valid UTF-8 string as it is. -/
theorem jsonCoerce_of_valid (s : GoString) (h : ValidUTF8 s) : jsonCoerce s = s :=
  utf8Encode_utf8Lossy s h

/-! ## Facts about the JSON form of `StoredObject` -/

theorem foldlM_encode_id (a : WireStruct) (p : Option GoString) :
    (encodeStringPtr "id" p).foldlM decodeMember a = .ok { a with ID := (p.map jsonCoerce).or a.ID } := by
  cases p <;> rfl

theorem foldlM_encode_appServiceKey (a : WireStruct) (p : Option GoString) :
    (encodeStringPtr "appServiceKey" p).foldlM decodeMember a
      = .ok { a with AppServiceKey := (p.map jsonCoerce).or a.AppServiceKey } := by
  cases p <;> rfl

theorem foldlM_encode_version (a : WireStruct) (p : Option GoString) :
    (encodeStringPtr "version" p).foldlM decodeMember a
      = .ok { a with Version := (p.map jsonCoerce).or a.Version } := by
  cases p <;> rfl

theorem foldlM_encode_correlationID (a : WireStruct) (p : Option GoString) :
    (encodeStringPtr "correlationID" p).foldlM decodeMember a
      = .ok { a with CorrelationID := (p.map jsonCoerce).or a.CorrelationID } := by
  cases p <;> rfl

theorem foldlM_encode_eventID (a : WireStruct) (p : Option GoString) :
    (encodeStringPtr "eventID" p).foldlM decodeMember a
      = .ok { a with EventID := (p.map jsonCoerce).or a.EventID } := by
  cases p <;> rfl

theorem foldlM_encode_eventChecksum (a : WireStruct) (p : Option GoString) :
    (encodeStringPtr "eventChecksum" p).foldlM decodeMember a
      = .ok { a with EventChecksum := (p.map jsonCoerce).or a.EventChecksum } := by
  cases p <;> rfl

theorem decodeMember_payload (a : WireStruct) (v : JVal) :
    decodeMember a ("payload", v)
      = (decodeBytes a.Payload a.payloadSpare v).map fun b =>
          { a with Payload := b.1, payloadSpare := b.2 } := rfl

theorem decodeMember_retryCount (a : WireStruct) (v : JVal) :
    decodeMember a ("retryCount", v)
      = (decodeInt a.RetryCount v).map fun n => { a with RetryCount := n } := rfl

theorem decodeMember_pipelinePosition (a : WireStruct) (v : JVal) :
    decodeMember a ("pipelinePosition", v)
      = (decodeInt a.PipelinePosition v).map fun n => { a with PipelinePosition := n } := rfl

theorem foldlM_encode_payload (a : WireStruct) (b : Bytes) :
    (encodeBytes "payload" b).foldlM decodeMember a
      = .ok { a with
          Payload := if b.len = 0 then a.Payload else b
          payloadSpare := if b.len = 0 then a.payloadSpare else [] } := by
  cases b with
  | none => rfl
  | some bs =>
    by_cases h : bs.length = 0
    · simp [encodeBytes, Bytes.len, h]
      rfl
    · simp [encodeBytes, Bytes.len, h, decodeMember_payload, decodeBytes, b64Decode_b64Encode]
      rfl

theorem foldlM_encode_retryCount (a : WireStruct) (n : Int) (hn : IsGoInt n) :
    (encodeInt "retryCount" n).foldlM decodeMember a
      = .ok { a with RetryCount := if n = 0 then a.RetryCount else n } := by
  by_cases h : n = 0
  · simp [encodeInt, h]
    rfl
  · simp [encodeInt, h, decodeMember_retryCount, decodeInt, hn]
    rfl

theorem foldlM_encode_pipelinePosition (a : WireStruct) (n : Int) (hn : IsGoInt n) :
    (encodeInt "pipelinePosition" n).foldlM decodeMember a
      = .ok { a with PipelinePosition := if n = 0 then a.PipelinePosition else n } := by
  by_cases h : n = 0
  · simp [encodeInt, h]
    rfl
  · simp [encodeInt, h, decodeMember_pipelinePosition, decodeInt, hn]
    rfl

/-- Decoding what `json.Marshal` wrote for the anonymous struct gives the struct back, with
each string as the JSON text stands for it and a zero-length payload as the nil slice. -/
theorem jsonUnmarshal_jsonMarshal (t : WireStruct) (h1 : IsGoInt t.RetryCount)
    (h2 : IsGoInt t.PipelinePosition) :
    jsonUnmarshal (.value (jsonMarshal t))
      = .ok { ID := t.ID.map jsonCoerce
              AppServiceKey := t.AppServiceKey.map jsonCoerce
              Payload := if t.Payload.len = 0 then none else t.Payload
              RetryCount := t.RetryCount
              PipelinePosition := t.PipelinePosition
              Version := t.Version.map jsonCoerce
              CorrelationID := t.CorrelationID.map jsonCoerce
              EventID := t.EventID.map jsonCoerce
              EventChecksum := t.EventChecksum.map jsonCoerce
              payloadSpare := [] } := by
  simp only [jsonUnmarshal, jsonMarshal, List.foldlM_append, foldlM_encode_id,
    foldlM_encode_appServiceKey, foldlM_encode_payload, foldlM_encode_retryCount _ _ h1,
    foldlM_encode_pipelinePosition _ _ h2, foldlM_encode_version, foldlM_encode_correlationID,
    foldlM_encode_eventID, foldlM_encode_eventChecksum]
  have e1 : (if t.RetryCount = 0 then 0 else t.RetryCount) = t.RetryCount := by
    split <;> simp_all
  have e2 : (if t.PipelinePosition = 0 then 0 else t.PipelinePosition) = t.PipelinePosition := by
    split <;> simp_all
  simp only [bind, Except.bind, WireStruct.zero, Option.or_none, e1, e2, ite_self]

theorem MarshalJSON_eq (o : StoredObject) :
    o.MarshalJSON = (.value (jsonMarshal o.wire), none) := by
  unfold StoredObject.MarshalJSON StoredObject.wire
  by_cases h1 : o.ID = [] <;> by_cases h2 : o.AppServiceKey = [] <;>
    by_cases h3 : o.Version = [] <;> by_cases h4 : o.CorrelationID = [] <;>
    by_cases h5 : o.EventID = [] <;> by_cases h6 : o.EventChecksum = [] <;>
    simp [h1, h2, h3, h4, h5, h6, WireStruct.zero]

/-- Decoding the encoding of `o` into a zero-valued receiver: every field comes back, each
string as the JSON text stands for it, a zero-length payload as the nil slice. -/
theorem UnmarshalJSON_MarshalJSON (o : StoredObject) (hr : IsGoInt o.RetryCount)
    (hp : IsGoInt o.PipelinePosition) :
    StoredObject.zero.UnmarshalJSON o.MarshalJSON.1
      = .ok { ID := jsonCoerce o.ID
              AppServiceKey := jsonCoerce o.AppServiceKey
              Payload := if o.Payload.len = 0 then none else o.Payload
              RetryCount := o.RetryCount
              PipelinePosition := o.PipelinePosition
              Version := jsonCoerce o.Version
              CorrelationID := jsonCoerce o.CorrelationID
              EventID := jsonCoerce o.EventID
              EventChecksum := jsonCoerce o.EventChecksum } := by
  rw [MarshalJSON_eq]
  have h := jsonUnmarshal_jsonMarshal o.wire hr hp
  simp only [StoredObject.UnmarshalJSON, h]
  unfold StoredObject.wire StoredObject.zero
  by_cases h1 : o.ID = [] <;> by_cases h2 : o.AppServiceKey = [] <;>
    by_cases h3 : o.Version = [] <;> by_cases h4 : o.CorrelationID = [] <;>
    by_cases h5 : o.EventID = [] <;> by_cases h6 : o.EventChecksum = [] <;>
    simp [h1, h2, h3, h4, h5, h6, jsonCoerce_nil]

/-- C1 (as stated, refuted). The object whose `ID` is the single byte `0xFF`, which is not
valid UTF-8, and whose other fields are zero: `MarshalJSON` returns no error and writes the
`id` as the text U+FFFD; decoding that into a zero-valued `StoredObject` returns no error and
yields an `ID` of the three bytes `EF BF BD`, which is not the `ID` that was encoded. -/
theorem StoredObject.json_round_trip_counterexample :
    ¬ ValidUTF8 [0xFF] ∧
    StoredObject.MarshalJSON { StoredObject.zero with ID := [0xFF] }
      = (.value (.obj [("id", .str "\uFFFD")]), none) ∧
    ∃ r, StoredObject.zero.UnmarshalJSON
        (StoredObject.MarshalJSON { StoredObject.zero with ID := [0xFF] }).1 = .ok r ∧
      r.ID = [0xEF, 0xBF, 0xBD] ∧ r.ID ≠ [0xFF] :=
  ⟨by decide, rfl, _, rfl, rfl, by decide⟩

/-- C1 (amended). JSON round trip: for every `StoredObject` `o` whose six string fields are
valid UTF-8, decoding, into a zero-valued `StoredObject`, the bytes that `MarshalJSON`
produced for `o` returns no error and yields an object equal to `o` field by field, a nil
payload and an empty one counting as equal; the zero-valued object comes back as the
zero-valued object. -/
theorem StoredObject.json_round_trip (o : StoredObject) (hr : IsGoInt o.RetryCount)
    (hp : IsGoInt o.PipelinePosition) (h1 : ValidUTF8 o.ID) (h2 : ValidUTF8 o.AppServiceKey)
    (h3 : ValidUTF8 o.Version) (h4 : ValidUTF8 o.CorrelationID) (h5 : ValidUTF8 o.EventID)
    (h6 : ValidUTF8 o.EventChecksum) :
    o.MarshalJSON.2 = none ∧
    (∃ r, StoredObject.zero.UnmarshalJSON o.MarshalJSON.1 = .ok r ∧
      r.ID = o.ID ∧ r.AppServiceKey = o.AppServiceKey ∧
      r.Payload.content = o.Payload.content ∧ r.RetryCount = o.RetryCount ∧
      r.PipelinePosition = o.PipelinePosition ∧ r.Version = o.Version ∧
      r.CorrelationID = o.CorrelationID ∧ r.EventID = o.EventID ∧
      r.EventChecksum = o.EventChecksum) ∧
    StoredObject.zero.UnmarshalJSON StoredObject.zero.MarshalJSON.1
      = .ok StoredObject.zero := by
  refine ⟨by rw [MarshalJSON_eq], ⟨_, UnmarshalJSON_MarshalJSON o hr hp, ?_⟩, ?_⟩
  · refine ⟨jsonCoerce_of_valid _ h1, jsonCoerce_of_valid _ h2, ?_, rfl, rfl,
      jsonCoerce_of_valid _ h3, jsonCoerce_of_valid _ h4, jsonCoerce_of_valid _ h5,
      jsonCoerce_of_valid _ h6⟩
    cases hpay : o.Payload with
    | none => rfl
    | some bs =>
      cases bs with
      | nil => rfl
      | cons b t => rfl
  · rfl

/-- C1 (amended) at an object with every field set, one string holding a two-byte and a
three-byte rune, and at one with an empty, non-nil payload. -/
theorem StoredObject.json_round_trip_witness :
    (∃ r, StoredObject.zero.UnmarshalJSON
        (StoredObject.MarshalJSON
          { ID := utf8Encode "7", AppServiceKey := utf8Encode "svc-é€",
            Payload := some [1, 2, 3, 255], RetryCount := 2, PipelinePosition := -1,
            Version := utf8Encode "v", CorrelationID := utf8Encode "c",
            EventID := utf8Encode "e", EventChecksum := utf8Encode "k" }).1 = .ok r ∧
      r.ID = utf8Encode "7" ∧ r.AppServiceKey = utf8Encode "svc-é€" ∧
      r.Payload.content = [1, 2, 3, 255]) ∧
    (∃ r, StoredObject.zero.UnmarshalJSON
        (StoredObject.MarshalJSON { StoredObject.zero with Payload := some [] }).1 = .ok r ∧
      r.Payload.content = []) := by
  constructor
  · obtain ⟨_, ⟨r, h, h1, h2, h3, _⟩, _⟩ := StoredObject.json_round_trip
      { ID := utf8Encode "7", AppServiceKey := utf8Encode "svc-é€",
        Payload := some [1, 2, 3, 255], RetryCount := 2, PipelinePosition := -1,
        Version := utf8Encode "v", CorrelationID := utf8Encode "c",
        EventID := utf8Encode "e", EventChecksum := utf8Encode "k" }
      (by decide) (by decide) (by decide) (by decide) (by decide) (by decide) (by decide)
      (by decide)
    exact ⟨r, h, h1, h2, h3⟩
  · obtain ⟨_, ⟨r, h, _, _, h3, _⟩, _⟩ := StoredObject.json_round_trip
      { StoredObject.zero with Payload := some [] } (by decide) (by decide) (by decide)
      (by decide) (by decide) (by decide) (by decide) (by decide)
    exact ⟨r, h, h3⟩

theorem mem_encodeStringPtr (name : String) (p : Option GoString) (m : String × JVal) :
    m ∈ encodeStringPtr name p ↔ ∃ s, p = some s ∧ m = (name, .str (utf8Lossy s)) := by
  cases p <;> simp [encodeStringPtr]

theorem mem_encodeBytes (name : String) (b : Bytes) (m : String × JVal) :
    m ∈ encodeBytes name b ↔ ∃ bs, b = some bs ∧ bs ≠ [] ∧ m = (name, .str (b64Encode bs)) := by
  cases b with
  | none => simp [encodeBytes]
  | some bs =>
    by_cases h : bs = []
    · simp [encodeBytes, h]
    · simp [encodeBytes, h]

theorem mem_encodeInt (name : String) (n : Int) (m : String × JVal) :
    m ∈ encodeInt name n ↔ n ≠ 0 ∧ m = (name, .num n) := by
  by_cases h : n = 0 <;> simp [encodeInt, h]

/-- The members of the object `MarshalJSON` produces. -/
theorem mem_MarshalJSON (o : StoredObject) (m : String × JVal) :
    m ∈ (encodeStringPtr "id" o.wire.ID ++ encodeStringPtr "appServiceKey" o.wire.AppServiceKey ++
        encodeBytes "payload" o.wire.Payload ++ encodeInt "retryCount" o.wire.RetryCount ++
        encodeInt "pipelinePosition" o.wire.PipelinePosition ++
        encodeStringPtr "version" o.wire.Version ++
        encodeStringPtr "correlationID" o.wire.CorrelationID ++
        encodeStringPtr "eventID" o.wire.EventID ++
        encodeStringPtr "eventChecksum" o.wire.EventChecksum) ↔
      (o.ID ≠ [] ∧ m = ("id", .str (utf8Lossy o.ID))) ∨
      (o.AppServiceKey ≠ [] ∧ m = ("appServiceKey", .str (utf8Lossy o.AppServiceKey))) ∨
      (∃ bs, o.Payload = some bs ∧ bs ≠ [] ∧ m = ("payload", .str (b64Encode bs))) ∨
      (o.RetryCount ≠ 0 ∧ m = ("retryCount", .num o.RetryCount)) ∨
      (o.PipelinePosition ≠ 0 ∧ m = ("pipelinePosition", .num o.PipelinePosition)) ∨
      (o.Version ≠ [] ∧ m = ("version", .str (utf8Lossy o.Version))) ∨
      (o.CorrelationID ≠ [] ∧ m = ("correlationID", .str (utf8Lossy o.CorrelationID))) ∨
      (o.EventID ≠ [] ∧ m = ("eventID", .str (utf8Lossy o.EventID))) ∨
      (o.EventChecksum ≠ [] ∧ m = ("eventChecksum", .str (utf8Lossy o.EventChecksum))) := by
  have hs : ∀ (name : String) (s : GoString),
      (∃ x, (if s ≠ [] then some s else none) = some x ∧ m = (name, JVal.str (utf8Lossy x))) ↔
        (s ≠ [] ∧ m = (name, .str (utf8Lossy s))) := by
    intro name s
    by_cases h : s = []
    · simp [h]
    · simp only [ne_eq, h, not_false_eq_true, if_true, Option.some.injEq, true_and]
      constructor
      · rintro ⟨x, rfl, hx⟩
        exact hx
      · intro hx
        exact ⟨s, rfl, hx⟩
  simp only [List.mem_append, mem_encodeStringPtr, mem_encodeBytes, mem_encodeInt,
    StoredObject.wire, hs, or_assoc]

/-- C2. Omit-when-empty on encode: the object `MarshalJSON` produces has the key of each of
the six string fields exactly when that field is a non-empty string, and no member of the
object has the empty string as its value. -/
theorem StoredObject.marshal_omits_empty (o : StoredObject) :
    ∃ members, o.MarshalJSON = (.value (.obj members), none) ∧
      ("id" ∈ members.map Prod.fst ↔ o.ID ≠ []) ∧
      ("appServiceKey" ∈ members.map Prod.fst ↔ o.AppServiceKey ≠ []) ∧
      ("version" ∈ members.map Prod.fst ↔ o.Version ≠ []) ∧
      ("correlationID" ∈ members.map Prod.fst ↔ o.CorrelationID ≠ []) ∧
      ("eventID" ∈ members.map Prod.fst ↔ o.EventID ≠ []) ∧
      ("eventChecksum" ∈ members.map Prod.fst ↔ o.EventChecksum ≠ []) ∧
      ∀ m ∈ members, m.2 ≠ .str "" := by
  refine ⟨_, MarshalJSON_eq o, ?_, ?_, ?_, ?_, ?_, ?_, ?_⟩
  · constructor
    · intro hk
      obtain ⟨m, hm, hk⟩ := List.mem_map.1 hk
      rcases (mem_MarshalJSON o m).1 hm with ⟨h, rfl⟩ | ⟨h, rfl⟩ | ⟨bs, _, _, rfl⟩ | ⟨h, rfl⟩ |
        ⟨h, rfl⟩ | ⟨h, rfl⟩ | ⟨h, rfl⟩ | ⟨h, rfl⟩ | ⟨h, rfl⟩ <;>
        first | exact h | exact absurd hk (by simp)
    · intro h
      exact List.mem_map.2 ⟨("id", .str (utf8Lossy o.ID)), (mem_MarshalJSON o _).2 (Or.inl ⟨h, rfl⟩), rfl⟩
  · constructor
    · intro hk
      obtain ⟨m, hm, hk⟩ := List.mem_map.1 hk
      rcases (mem_MarshalJSON o m).1 hm with ⟨h, rfl⟩ | ⟨h, rfl⟩ | ⟨bs, _, _, rfl⟩ | ⟨h, rfl⟩ |
        ⟨h, rfl⟩ | ⟨h, rfl⟩ | ⟨h, rfl⟩ | ⟨h, rfl⟩ | ⟨h, rfl⟩ <;>
        first | exact h | exact absurd hk (by simp)
    · intro h
      exact List.mem_map.2 ⟨("appServiceKey", .str (utf8Lossy o.AppServiceKey)),
        (mem_MarshalJSON o _).2 (Or.inr (Or.inl ⟨h, rfl⟩)), rfl⟩
  · constructor
    · intro hk
      obtain ⟨m, hm, hk⟩ := List.mem_map.1 hk
      rcases (mem_MarshalJSON o m).1 hm with ⟨h, rfl⟩ | ⟨h, rfl⟩ | ⟨bs, _, _, rfl⟩ | ⟨h, rfl⟩ |
        ⟨h, rfl⟩ | ⟨h, rfl⟩ | ⟨h, rfl⟩ | ⟨h, rfl⟩ | ⟨h, rfl⟩ <;>
        first | exact h | exact absurd hk (by simp)
    · intro h
      exact List.mem_map.2 ⟨("version", .str (utf8Lossy o.Version)),
        (mem_MarshalJSON o _).2 (by simp [h]), rfl⟩
  · constructor
    · intro hk
      obtain ⟨m, hm, hk⟩ := List.mem_map.1 hk
      rcases (mem_MarshalJSON o m).1 hm with ⟨h, rfl⟩ | ⟨h, rfl⟩ | ⟨bs, _, _, rfl⟩ | ⟨h, rfl⟩ |
        ⟨h, rfl⟩ | ⟨h, rfl⟩ | ⟨h, rfl⟩ | ⟨h, rfl⟩ | ⟨h, rfl⟩ <;>
        first | exact h | exact absurd hk (by simp)
    · intro h
      exact List.mem_map.2 ⟨("correlationID", .str (utf8Lossy o.CorrelationID)),
        (mem_MarshalJSON o _).2 (by simp [h]), rfl⟩
  · constructor
    · intro hk
      obtain ⟨m, hm, hk⟩ := List.mem_map.1 hk
      rcases (mem_MarshalJSON o m).1 hm with ⟨h, rfl⟩ | ⟨h, rfl⟩ | ⟨bs, _, _, rfl⟩ | ⟨h, rfl⟩ |
        ⟨h, rfl⟩ | ⟨h, rfl⟩ | ⟨h, rfl⟩ | ⟨h, rfl⟩ | ⟨h, rfl⟩ <;>
        first | exact h | exact absurd hk (by simp)
    · intro h
      exact List.mem_map.2 ⟨("eventID", .str (utf8Lossy o.EventID)),
        (mem_MarshalJSON o _).2 (by simp [h]), rfl⟩
  · constructor
    · intro hk
      obtain ⟨m, hm, hk⟩ := List.mem_map.1 hk
      rcases (mem_MarshalJSON o m).1 hm with ⟨h, rfl⟩ | ⟨h, rfl⟩ | ⟨bs, _, _, rfl⟩ | ⟨h, rfl⟩ |
        ⟨h, rfl⟩ | ⟨h, rfl⟩ | ⟨h, rfl⟩ | ⟨h, rfl⟩ | ⟨h, rfl⟩ <;>
        first | exact h | exact absurd hk (by simp)
    · intro h
      exact List.mem_map.2 ⟨("eventChecksum", .str (utf8Lossy o.EventChecksum)),
        (mem_MarshalJSON o _).2 (by simp [h]), rfl⟩
  · intro m hm he
    rcases (mem_MarshalJSON o m).1 hm with ⟨h, rfl⟩ | ⟨h, rfl⟩ | ⟨bs, _, hb, rfl⟩ | ⟨h, rfl⟩ |
      ⟨h, rfl⟩ | ⟨h, rfl⟩ | ⟨h, rfl⟩ | ⟨h, rfl⟩ | ⟨h, rfl⟩
    · exact utf8Lossy_ne_empty _ h (JVal.str.inj he)
    · exact utf8Lossy_ne_empty _ h (JVal.str.inj he)
    · exact b64Encode_ne_empty hb (JVal.str.inj he)
    · exact JVal.noConfusion he
    · exact JVal.noConfusion he
    · exact utf8Lossy_ne_empty _ h (JVal.str.inj he)
    · exact utf8Lossy_ne_empty _ h (JVal.str.inj he)
    · exact utf8Lossy_ne_empty _ h (JVal.str.inj he)
    · exact utf8Lossy_ne_empty _ h (JVal.str.inj he)

/-! ## Decoding an arbitrary object -/

theorem matchesField_eq (name key : String) :
    matchesField name key
      = decide (key.toList.map foldRune = name.toList.map foldRune) := by
  unfold matchesField
  by_cases h : key = name
  · subst h
    simp
  · by_cases h2 : key.toList.map foldRune = name.toList.map foldRune
    · rw [h2]
      simp
    · rw [decide_eq_false h2]
      simp only [Bool.or_eq_false_iff, beq_eq_false_iff_ne, ne_eq]
      exact ⟨h, h2⟩

theorem foldKey_id : "id".toList.map foldRune = ['I', 'D'] := by decide

theorem foldKey_appServiceKey :
    "appServiceKey".toList.map foldRune
      = ['A', 'P', 'P', 'S', 'E', 'R', 'V', 'I', 'C', 'E', 'K', 'E', 'Y'] := by decide

theorem foldKey_payload :
    "payload".toList.map foldRune = ['P', 'A', 'Y', 'L', 'O', 'A', 'D'] := by decide

theorem foldKey_retryCount :
    "retryCount".toList.map foldRune
      = ['R', 'E', 'T', 'R', 'Y', 'C', 'O', 'U', 'N', 'T'] := by decide

theorem foldKey_pipelinePosition :
    "pipelinePosition".toList.map foldRune
      = ['P', 'I', 'P', 'E', 'L', 'I', 'N', 'E', 'P', 'O', 'S', 'I', 'T', 'I', 'O', 'N'] := by
  decide

theorem foldKey_version :
    "version".toList.map foldRune = ['V', 'E', 'R', 'S', 'I', 'O', 'N'] := by decide

theorem foldKey_correlationID :
    "correlationID".toList.map foldRune
      = ['C', 'O', 'R', 'R', 'E', 'L', 'A', 'T', 'I', 'O', 'N', 'I', 'D'] := by decide

theorem foldKey_eventID :
    "eventID".toList.map foldRune = ['E', 'V', 'E', 'N', 'T', 'I', 'D'] := by decide

theorem foldKey_eventChecksum :
    "eventChecksum".toList.map foldRune
      = ['E', 'V', 'E', 'N', 'T', 'C', 'H', 'E', 'C', 'K', 'S', 'U', 'M'] := by decide

theorem decodeMember_cases (a : WireStruct) (k : String) (v : JVal) :
    decodeMember a (k, v) =
      if matchesField "id" k then (decodeStringPtr v).map fun p => { a with ID := p }
      else if matchesField "appServiceKey" k then
        (decodeStringPtr v).map fun p => { a with AppServiceKey := p }
      else if matchesField "payload" k then
        (decodeBytes a.Payload a.payloadSpare v).map fun b =>
          { a with Payload := b.1, payloadSpare := b.2 }
      else if matchesField "retryCount" k then
        (decodeInt a.RetryCount v).map fun n => { a with RetryCount := n }
      else if matchesField "pipelinePosition" k then
        (decodeInt a.PipelinePosition v).map fun n => { a with PipelinePosition := n }
      else if matchesField "version" k then
        (decodeStringPtr v).map fun p => { a with Version := p }
      else if matchesField "correlationID" k then
        (decodeStringPtr v).map fun p => { a with CorrelationID := p }
      else if matchesField "eventID" k then
        (decodeStringPtr v).map fun p => { a with EventID := p }
      else if matchesField "eventChecksum" k then
        (decodeStringPtr v).map fun p => { a with EventChecksum := p }
      else .ok a := rfl

theorem decodeStringPtr_of_fits {v : JVal} (h : fitsString v = true) :
    decodeStringPtr v = .ok (match v with | .str s => some (utf8Encode s) | _ => none) := by
  cases v <;> first | rfl | exact absurd h Bool.false_ne_true

theorem decodeInt_of_fits (cur : Int) {v : JVal} (h : fitsInt v = true) :
    decodeInt cur v = .ok (if v.isNull then cur else intOf (some v)) := by
  cases v with
  | null => rfl
  | num n =>
    have hn : IsGoInt n := of_decide_eq_true h
    simp [decodeInt, hn, JVal.isNull, intOf]
  | bool b => exact absurd h Bool.false_ne_true
  | float t => exact absurd h Bool.false_ne_true
  | negZero => rfl
  | str s => exact absurd h Bool.false_ne_true
  | arr es => exact absurd h Bool.false_ne_true
  | obj ms => exact absurd h Bool.false_ne_true

theorem decodeByteElem_of_fits (cur : Byte) {e : JVal} (h : fitsByte e = true) :
    decodeByteElem cur e = .ok (if e.isNull then cur else byteValue e) := by
  cases e with
  | null => rfl
  | num n =>
    have hn : 0 ≤ n ∧ n ≤ 255 := of_decide_eq_true h
    simp [decodeByteElem, hn, JVal.isNull, byteValue]
  | bool b => exact absurd h Bool.false_ne_true
  | float t => exact absurd h Bool.false_ne_true
  | negZero => exact absurd h Bool.false_ne_true
  | str s => exact absurd h Bool.false_ne_true
  | arr es => exact absurd h Bool.false_ne_true
  | obj ms => exact absurd h Bool.false_ne_true

/-- Decoding the elements of a well-typed array into a slice: one octet for each element;
the numbers listed when no element is `null`, or when the backing array holds nothing. -/
theorem decodeByteElems_of_fits (elems : List JVal) (h : elems.all fitsByte = true) :
    ∀ backing : List Byte, ∃ bs, decodeByteElems backing elems = .ok bs ∧
      bs.length = elems.length ∧
      ((elems.all (fun e => !e.isNull) = true ∨ backing = []) → bs = elems.map byteValue) := by
  induction elems with
  | nil =>
    intro backing
    exact ⟨[], rfl, rfl, fun _ => rfl⟩
  | cons e es ih =>
    intro backing
    simp only [List.all_cons, Bool.and_eq_true] at h
    obtain ⟨bs, hbs, hlen, hval⟩ := ih h.2 backing.tail
    refine ⟨(if e.isNull then backing.headD 0 else byteValue e) :: bs, ?_, ?_, ?_⟩
    · simp [decodeByteElems, decodeByteElem_of_fits _ h.1, hbs, Except.map]
    · simp [hlen]
    · intro hc
      have htl : bs = es.map byteValue := by
        apply hval
        rcases hc with hc | hc
        · simp only [List.all_cons, Bool.and_eq_true] at hc
          exact Or.inl hc.2
        · exact Or.inr (by rw [hc]; rfl)
      rw [htl, List.map_cons]
      congr 1
      rcases hc with hc | hc
      · simp only [List.all_cons, Bool.and_eq_true, Bool.not_eq_true'] at hc
        simp [hc.1]
      · subst hc
        cases e <;> simp [JVal.isNull, byteValue]

/-- What a well-typed value does to a `[]byte` field. -/
theorem decodeBytes_of_fits (cur : Bytes) (spare : List Byte) {v : JVal}
    (h : fitsBytes v = true) :
    ∃ r, decodeBytes cur spare v = .ok r ∧
      (v = .null → r = (none, [])) ∧
      (∀ s, v = .str s → r.1 = b64Decode s) ∧
      (∀ elems, v = .arr elems → r.1.len = elems.length ∧
        ((elems.all (fun e => !e.isNull) = true ∨ (cur = none ∧ spare = [])) →
          r.1 = some (elems.map byteValue))) := by
  cases v with
  | null =>
    exact ⟨(none, []), rfl, fun _ => rfl, fun s hs => JVal.noConfusion hs,
      fun es hes => JVal.noConfusion hes⟩
  | str s =>
    simp only [fitsBytes, Option.isSome_iff_exists] at h
    obtain ⟨bs, hbs⟩ := h
    refine ⟨(some bs, []), by simp [decodeBytes, hbs], fun hn => JVal.noConfusion hn, ?_,
      fun es hes => JVal.noConfusion hes⟩
    intro s2 hs2
    cases hs2
    exact hbs.symm
  | arr elems =>
    by_cases hemp : elems = []
    · subst hemp
      refine ⟨(some [], []), rfl, fun hn => JVal.noConfusion hn, fun s hs => JVal.noConfusion hs,
        ?_⟩
      intro es hes
      cases hes
      exact ⟨rfl, fun _ => rfl⟩
    · obtain ⟨bs, hbs, hlen, hval⟩ := decodeByteElems_of_fits elems h (cur.content ++ spare)
      have hne : elems.isEmpty = false := by
        cases elems with
        | nil => exact absurd rfl hemp
        | cons e es => rfl
      refine ⟨(some bs, (cur.content ++ spare).drop elems.length), ?_,
        fun hn => JVal.noConfusion hn, fun s hs => JVal.noConfusion hs, ?_⟩
      · simp [decodeBytes, hne, hbs, Except.map]
      · intro es hes
        cases hes
        refine ⟨hlen, fun hc => ?_⟩
        have : bs = elems.map byteValue := by
          apply hval
          rcases hc with hc | ⟨hc1, hc2⟩
          · exact Or.inl hc
          · exact Or.inr (by rw [hc1, hc2]; rfl)
        rw [this]
  | bool b => exact absurd h Bool.false_ne_true
  | num n => exact absurd h Bool.false_ne_true
  | float t => exact absurd h Bool.false_ne_true
  | negZero => exact absurd h Bool.false_ne_true
  | obj ms => exact absurd h Bool.false_ne_true

/-- What one well-typed member does to the struct being filled. -/
theorem decodeMember_step (a : WireStruct) (k : String) (v : JVal)
    (hs : (matchesField "id" k ∨ matchesField "appServiceKey" k ∨ matchesField "version" k ∨
        matchesField "correlationID" k ∨ matchesField "eventID" k ∨
        matchesField "eventChecksum" k) → fitsString v)
    (hb : matchesField "payload" k → fitsBytes v)
    (hi : (matchesField "retryCount" k ∨ matchesField "pipelinePosition" k) → fitsInt v) :
    ∃ r, decodeMember a (k, v) = .ok r ∧
      r.ID = (if matchesField "id" k then ptrOf (some v) else a.ID) ∧
      r.AppServiceKey = (if matchesField "appServiceKey" k then ptrOf (some v)
        else a.AppServiceKey) ∧
      (matchesField "payload" k = false →
        r.Payload = a.Payload ∧ r.payloadSpare = a.payloadSpare) ∧
      (matchesField "payload" k = true →
        ∃ b, decodeBytes a.Payload a.payloadSpare v = .ok b ∧ r.Payload = b.1 ∧
          r.payloadSpare = b.2) ∧
      r.RetryCount = (if matchesField "retryCount" k && !v.isNull then intOf (some v)
        else a.RetryCount) ∧
      r.PipelinePosition = (if matchesField "pipelinePosition" k && !v.isNull then intOf (some v)
        else a.PipelinePosition) ∧
      r.Version = (if matchesField "version" k then ptrOf (some v) else a.Version) ∧
      r.CorrelationID = (if matchesField "correlationID" k then ptrOf (some v)
        else a.CorrelationID) ∧
      r.EventID = (if matchesField "eventID" k then ptrOf (some v) else a.EventID) ∧
      r.EventChecksum = (if matchesField "eventChecksum" k then ptrOf (some v)
        else a.EventChecksum) := by
  rw [decodeMember_cases]
  simp only [matchesField_eq, foldKey_id, foldKey_appServiceKey, foldKey_payload,
    foldKey_retryCount, foldKey_pipelinePosition, foldKey_version, foldKey_correlationID,
    foldKey_eventID, foldKey_eventChecksum] at hs hb hi ⊢
  generalize k.toList.map foldRune = K at hs hb hi ⊢
  have hptr : ∀ w : JVal, fitsString w = true →
      decodeStringPtr w = .ok (ptrOf (some w)) := by
    intro w hw
    rw [decodeStringPtr_of_fits hw]
    cases w <;> rfl
  by_cases h1 : K = ['I', 'D']
  · subst h1
    simp [hptr v (hs (by simp)), Except.map]
  by_cases h2 : K = ['A', 'P', 'P', 'S', 'E', 'R', 'V', 'I', 'C', 'E', 'K', 'E', 'Y']
  · subst h2
    simp [hptr v (hs (by simp)), Except.map]
  by_cases h3 : K = ['P', 'A', 'Y', 'L', 'O', 'A', 'D']
  · subst h3
    obtain ⟨b, hbd, _⟩ := decodeBytes_of_fits a.Payload a.payloadSpare (hb (by simp))
    simp [hbd, Except.map]
  by_cases h4 : K = ['R', 'E', 'T', 'R', 'Y', 'C', 'O', 'U', 'N', 'T']
  · subst h4
    simp [decodeInt_of_fits _ (hi (by simp)), Except.map]
    cases v.isNull <;> simp
  by_cases h5 : K = ['P', 'I', 'P', 'E', 'L', 'I', 'N', 'E', 'P', 'O', 'S', 'I', 'T', 'I', 'O', 'N']
  · subst h5
    simp [decodeInt_of_fits _ (hi (by simp)), Except.map]
    cases v.isNull <;> simp
  by_cases h6 : K = ['V', 'E', 'R', 'S', 'I', 'O', 'N']
  · subst h6
    simp [hptr v (hs (by simp)), Except.map]
  by_cases h7 : K = ['C', 'O', 'R', 'R', 'E', 'L', 'A', 'T', 'I', 'O', 'N', 'I', 'D']
  · subst h7
    simp [hptr v (hs (by simp)), Except.map]
  by_cases h8 : K = ['E', 'V', 'E', 'N', 'T', 'I', 'D']
  · subst h8
    simp [hptr v (hs (by simp)), Except.map]
  by_cases h9 : K = ['E', 'V', 'E', 'N', 'T', 'C', 'H', 'E', 'C', 'K', 'S', 'U', 'M']
  · subst h9
    simp [hptr v (hs (by simp)), Except.map]
  simp [h1, h2, h3, h4, h5, h6, h7, h8, h9]

theorem lastMember_append_singleton (p : JVal → Bool) (name : String)
    (d : List (String × JVal)) (k : String) (v : JVal) :
    lastMember p name (d ++ [(k, v)])
      = if matchesField name k && p v then some v else lastMember p name d := by
  unfold lastMember
  rw [List.reverse_append, List.reverse_singleton, List.singleton_append, List.find?_cons]
  cases h : (matchesField name k && p v) <;> simp

theorem lastMember_of_absent (p : JVal → Bool) (name : String) (d : List (String × JVal))
    (h : Absent name d) : lastMember p name d = none := by
  unfold lastMember
  rw [Option.map_eq_none', List.find?_eq_none]
  intro m hm
  have := h m (List.mem_reverse.1 hm)
  simp [this]

theorem membersFor_append_singleton (name : String) (d : List (String × JVal)) (k : String)
    (v : JVal) :
    membersFor name (d ++ [(k, v)])
      = membersFor name d ++ (if matchesField name k then [(k, v)] else []) := by
  unfold membersFor
  rw [List.filter_append]
  cases h : matchesField name k <;> simp [List.filter, h]

theorem membersFor_of_absent (name : String) (d : List (String × JVal)) (h : Absent name d) :
    membersFor name d = [] := by
  unfold membersFor
  rw [List.filter_eq_nil_iff]
  intro m hm
  simp [h m hm]

/-- The struct `json.Unmarshal` fills from a well-typed object: each string and `int` field
is decided by the last member selecting it (for an `int` field, the last one that is not
`null`); the payload is nil, with nothing behind it, when no member selects it, and otherwise
as `PayloadDecoded` says. -/
theorem foldlM_decodeMember (d : List (String × JVal)) (h : WellTyped d) :
    ∃ a, d.foldlM decodeMember WireStruct.zero = .ok a ∧
      a.ID = ptrOf (lastMember (fun _ => true) "id" d) ∧
      a.AppServiceKey = ptrOf (lastMember (fun _ => true) "appServiceKey" d) ∧
      (membersFor "payload" d = [] → a.Payload = none ∧ a.payloadSpare = []) ∧
      PayloadDecoded d a.Payload ∧
      a.RetryCount = intOf (lastMember (fun v => !v.isNull) "retryCount" d) ∧
      a.PipelinePosition = intOf (lastMember (fun v => !v.isNull) "pipelinePosition" d) ∧
      a.Version = ptrOf (lastMember (fun _ => true) "version" d) ∧
      a.CorrelationID = ptrOf (lastMember (fun _ => true) "correlationID" d) ∧
      a.EventID = ptrOf (lastMember (fun _ => true) "eventID" d) ∧
      a.EventChecksum = ptrOf (lastMember (fun _ => true) "eventChecksum" d) := by
  induction d using List.reverseRecOn with
  | nil =>
    refine ⟨WireStruct.zero, rfl, rfl, rfl, fun _ => ⟨rfl, rfl⟩, ?_, rfl, rfl, rfl, rfl, rfl,
      rfl⟩
    exact ⟨fun hn => Option.noConfusion hn, fun s hs => Option.noConfusion hs,
      fun es hes => Option.noConfusion hes⟩
  | append_singleton d m ih =>
    obtain ⟨k, v⟩ := m
    have hd : WellTyped d := fun m hm => h m (List.mem_append_left _ hm)
    obtain ⟨hs, hb, hi⟩ := h (k, v) (List.mem_append_right _ (List.mem_singleton_self _))
    obtain ⟨a, ha, i1, i2, i3, ip, i4, i5, i6, i7, i8, i9⟩ := ih hd
    obtain ⟨r, hr, r1, r2, r3, rp, r4, r5, r6, r7, r8, r9⟩ := decodeMember_step a k v hs hb hi
    refine ⟨r, ?_, ?_, ?_, ?_, ?_, ?_, ?_, ?_, ?_, ?_, ?_⟩
    · rw [List.foldlM_append, ha]
      simp only [bind, Except.bind, List.foldlM_cons, List.foldlM_nil]
      rw [hr]
      rfl
    · rw [r1, lastMember_append_singleton, i1]
      cases matchesField "id" k <;> simp
    · rw [r2, lastMember_append_singleton, i2]
      cases matchesField "appServiceKey" k <;> simp
    · intro hnil
      rw [membersFor_append_singleton] at hnil
      cases hm : matchesField "payload" k with
      | false =>
        rw [hm] at hnil
        simp only [Bool.false_eq_true, if_false, List.append_nil] at hnil
        obtain ⟨e1, e2⟩ := r3 hm
        rw [e1, e2]
        exact i3 hnil
      | true =>
        rw [hm] at hnil
        simp at hnil
    · cases hm : matchesField "payload" k with
      | false =>
        obtain ⟨e1, _⟩ := r3 hm
        unfold PayloadDecoded
        rw [e1, lastMember_append_singleton, membersFor_append_singleton, hm]
        simp only [Bool.false_and, Bool.false_eq_true, if_false, List.append_nil]
        exact ip
      | true =>
        obtain ⟨b, hbd, e1, _⟩ := rp hm
        obtain ⟨b2, hbd2, hnull, hstr, harr⟩ :=
          decodeBytes_of_fits a.Payload a.payloadSpare (hb hm)
        have hbb : b2 = b := Except.ok.inj (hbd2.symm.trans hbd)
        subst hbb
        unfold PayloadDecoded
        rw [e1, lastMember_append_singleton, membersFor_append_singleton, hm]
        simp only [Bool.and_self, if_true, Option.some.injEq, List.length_append,
          List.length_singleton]
        refine ⟨fun hv => ?_, fun s hv => hstr s hv, fun es hv => ?_⟩
        · rw [hnull hv]
        · obtain ⟨hlen, hval⟩ := harr es hv
          refine ⟨hlen, fun hc => hval ?_⟩
          rcases hc with hc | hc
          · exact Or.inl hc
          · have h0 : membersFor "payload" d = [] := List.length_eq_zero.mp (by omega)
            exact Or.inr (i3 h0)
    · rw [r4, lastMember_append_singleton, i4]
      cases matchesField "retryCount" k <;> cases v.isNull <;> simp
    · rw [r5, lastMember_append_singleton, i5]
      cases matchesField "pipelinePosition" k <;> cases v.isNull <;> simp
    · rw [r6, lastMember_append_singleton, i6]
      cases matchesField "version" k <;> simp
    · rw [r7, lastMember_append_singleton, i7]
      cases matchesField "correlationID" k <;> simp
    · rw [r8, lastMember_append_singleton, i8]
      cases matchesField "eventID" k <;> simp
    · rw [r9, lastMember_append_singleton, i9]
      cases matchesField "eventChecksum" k <;> simp

theorem stringOf_eq (x : Option JVal) : (ptrOf x).getD [] = stringOf x := by
  cases x with
  | none => rfl
  | some v => cases v <;> rfl

/-- `UnmarshalJSON` in closed form, once `json.Unmarshal` has filled the anonymous struct: a
string field is overwritten exactly when its pointer is not nil, the other three fields
always. -/
theorem UnmarshalJSON_of_jsonUnmarshal (o : StoredObject) (data : Data) (a : WireStruct)
    (h : jsonUnmarshal data = .ok a) :
    o.UnmarshalJSON data = .ok
      { ID := a.ID.getD o.ID
        AppServiceKey := a.AppServiceKey.getD o.AppServiceKey
        Payload := a.Payload
        RetryCount := a.RetryCount
        PipelinePosition := a.PipelinePosition
        Version := a.Version.getD o.Version
        CorrelationID := a.CorrelationID.getD o.CorrelationID
        EventID := a.EventID.getD o.EventID
        EventChecksum := a.EventChecksum.getD o.EventChecksum } := by
  simp only [StoredObject.UnmarshalJSON, h]
  obtain ⟨i, k, p, r, q, v, c, e, s, _⟩ := a
  cases i <;> cases k <;> cases v <;> cases c <;> cases e <;> cases s <;> rfl

/-- C3 (as stated, refuted). A well-formed JSON object that lacks eight of the nine keys and
carries a string under `retryCount` is rejected: `UnmarshalJSON` on a zero-valued
`StoredObject` returns an error.  And an object without the key `id` whose only key is `ID`
is decoded with the `ID` field set, not at its zero value. -/
theorem StoredObject.unmarshal_absent_keys_counterexample :
    (¬ ∃ r, StoredObject.zero.UnmarshalJSON (.value (.obj [("retryCount", .str "x")]))
        = .ok r) ∧
    (∃ r, StoredObject.zero.UnmarshalJSON (.value (.obj [("ID", .str "x")])) = .ok r ∧
      "id" ∉ [("ID", JVal.str "x")].map Prod.fst ∧ r.ID = utf8Encode "x" ∧ r.ID ≠ []) := by
  constructor
  · rintro ⟨r, h⟩
    exact Except.noConfusion h
  · exact ⟨_, rfl, by decide, rfl, by decide⟩

/-- C3 (amended). For every JSON object whose members, where they select one of the nine
fields, carry `null` or a value of the field's type, `UnmarshalJSON` applied to a zero-valued
`StoredObject` returns no error; every field that no member selects is at its zero value; and
every field holds the value decoded from the last member selecting it (for the two `int`
fields, the last such member that is not `null`; for the payload, nil for `null`, the base64
decoding for a string, and for an array one octet for each element, which are the numbers
listed, zero for `null`, when the array has no `null` element or is the only member selecting
the payload). -/
theorem StoredObject.unmarshal_tolerates_absent (d : List (String × JVal)) (h : WellTyped d) :
    ∃ r, StoredObject.zero.UnmarshalJSON (.value (.obj d)) = .ok r ∧
      (Absent "id" d → r.ID = []) ∧
      (Absent "appServiceKey" d → r.AppServiceKey = []) ∧
      (Absent "payload" d → r.Payload = none) ∧
      (Absent "retryCount" d → r.RetryCount = 0) ∧
      (Absent "pipelinePosition" d → r.PipelinePosition = 0) ∧
      (Absent "version" d → r.Version = []) ∧
      (Absent "correlationID" d → r.CorrelationID = []) ∧
      (Absent "eventID" d → r.EventID = []) ∧
      (Absent "eventChecksum" d → r.EventChecksum = []) ∧
      r.ID = stringOf (lastMember (fun _ => true) "id" d) ∧
      r.AppServiceKey = stringOf (lastMember (fun _ => true) "appServiceKey" d) ∧
      PayloadDecoded d r.Payload ∧
      r.RetryCount = intOf (lastMember (fun v => !v.isNull) "retryCount" d) ∧
      r.PipelinePosition = intOf (lastMember (fun v => !v.isNull) "pipelinePosition" d) ∧
      r.Version = stringOf (lastMember (fun _ => true) "version" d) ∧
      r.CorrelationID = stringOf (lastMember (fun _ => true) "correlationID" d) ∧
      r.EventID = stringOf (lastMember (fun _ => true) "eventID" d) ∧
      r.EventChecksum = stringOf (lastMember (fun _ => true) "eventChecksum" d) := by
  obtain ⟨a, ha, i1, i2, i3, ip, i4, i5, i6, i7, i8, i9⟩ := foldlM_decodeMember d h
  have hres := UnmarshalJSON_of_jsonUnmarshal StoredObject.zero (.value (.obj d)) a ha
  rw [i1, i2, i4, i5, i6, i7, i8, i9] at hres
  simp only [StoredObject.zero, stringOf_eq] at hres
  refine ⟨_, hres, ?_, ?_, ?_, ?_, ?_, ?_, ?_, ?_, ?_, rfl, rfl, ip, rfl, rfl, rfl, rfl, rfl,
    rfl⟩
  · intro hab
    simp only [lastMember_of_absent _ _ _ hab]
    rfl
  · intro hab
    simp only [lastMember_of_absent _ _ _ hab]
    rfl
  · intro hab
    exact (i3 (membersFor_of_absent _ _ hab)).1
  all_goals
    intro hab
    simp only [lastMember_of_absent _ _ _ hab]
    rfl

/-- Decoding `{"payload":[1,2,3],"payload":[null,null]}`: the second array is decoded into
the slice the first one left, whose first two octets the `null` elements leave in place. -/
theorem UnmarshalJSON_payload_twice :
    StoredObject.zero.UnmarshalJSON (.value (.obj [("payload", .arr [.num 1, .num 2, .num 3]),
        ("payload", .arr [.null, .null])]))
      = .ok { StoredObject.zero with Payload := some [1, 2] } ∧
    StoredObject.zero.UnmarshalJSON (.value (.obj [("payload", .arr [.num 1, .num 2, .num 3]),
        ("payload", .arr [.null, .null]), ("payload", .arr [.null, .null, .null, .null])]))
      = .ok { StoredObject.zero with Payload := some [1, 2, 3, 0] } ∧
    StoredObject.zero.UnmarshalJSON (.value (.obj [("payload", .arr [.num 1, .num 2, .num 3]),
        ("payload", .null), ("payload", .arr [.null, .null])]))
      = .ok { StoredObject.zero with Payload := some [0, 0] } :=
  ⟨rfl, rfl, rfl⟩

/-- C3 (amended) at an object with a key in another letter case, a `null`, an unknown key and
five keys missing, and at an object whose payload is an array with a `null` element. -/
theorem StoredObject.unmarshal_tolerates_absent_witness :
    (WellTyped [("ID", .str "a"), ("retryCount", .num 3), ("payload", .null),
      ("note", .bool true), ("version", .str "v1")] ∧
    ∃ r, StoredObject.zero.UnmarshalJSON (.value (.obj [("ID", .str "a"),
        ("retryCount", .num 3), ("payload", .null), ("note", .bool true),
        ("version", .str "v1")])) = .ok r ∧
      r.ID = utf8Encode "a" ∧ r.RetryCount = 3 ∧ r.Payload = none ∧
      r.Version = utf8Encode "v1" ∧ r.CorrelationID = [] ∧ r.PipelinePosition = 0) ∧
    (WellTyped [("payload", .arr [.num 7, .null, .num 255])] ∧
    ∃ r, StoredObject.zero.UnmarshalJSON
        (.value (.obj [("payload", .arr [.num 7, .null, .num 255])])) = .ok r ∧
      r.Payload = some [7, 0, 255]) := by
  have hw : WellTyped [("ID", .str "a"), ("retryCount", .num 3), ("payload", .null),
      ("note", .bool true), ("version", .str "v1")] := by
    unfold WellTyped
    decide
  have hw2 : WellTyped [("payload", .arr [.num 7, .null, .num 255])] := by
    unfold WellTyped
    decide
  obtain ⟨r, hr, _, _, _, _, _, _, _, _, _, h1, _, h3, h4, h5, h6, h7, _, _⟩ :=
    StoredObject.unmarshal_tolerates_absent _ hw
  obtain ⟨r2, hr2, _, _, _, _, _, _, _, _, _, _, _, p3, _⟩ :=
    StoredObject.unmarshal_tolerates_absent _ hw2
  exact ⟨⟨hw, r, hr, h1, h4, h3.1 rfl, h6, h7, h5⟩, hw2, r2, hr2,
    ((p3.2.2 _ rfl).2 (Or.inr rfl)).trans rfl⟩

/-! ## The record: wire format, contract conversion, decoding into a populated receiver -/

/-- C15 (as stated, refuted). The object whose `ID` is the single byte `0xFF` is encoded
with the key `id` present, and the value under that key is the text U+FFFD, whose bytes are
`EF BF BD`: the key does not carry the field verbatim. -/
theorem StoredObject.wire_format_counterexample :
    ∃ members, StoredObject.MarshalJSON { StoredObject.zero with ID := [0xFF] }
        = (.value (.obj members), none) ∧
      ("id", JVal.str "\uFFFD") ∈ members ∧
      utf8Encode "\uFFFD" = [0xEF, 0xBF, 0xBD] ∧
      ¬ (JVal.str "\uFFFD").isStringOf [0xFF] := by
  refine ⟨[("id", .str "\uFFFD")], rfl, List.mem_singleton.mpr rfl, by decide, ?_⟩
  rintro ⟨text, ht, he⟩
  cases ht
  exact absurd he (by decide)

/-- C15 (amended). Checkpoint wire format: `MarshalJSON` produces a JSON object whose keys are
drawn only from the nine names; a key that is present carries the value of its field
(`RetryCount` and `PipelinePosition` as numbers, `Payload` as the base64 text of its bytes, a
string as the text its bytes encode, every byte that is not part of a well-formed UTF-8
encoding replaced by U+FFFD, hence verbatim when the string is valid UTF-8); and an object
whose nine fields are all non-empty / non-zero is encoded with exactly the nine members, in
declaration order. -/
theorem StoredObject.wire_format (o : StoredObject) :
    ∃ members, o.MarshalJSON = (.value (.obj members), none) ∧
      (∀ m ∈ members, m.1 ∈ ["id", "appServiceKey", "payload", "retryCount",
        "pipelinePosition", "version", "correlationID", "eventID", "eventChecksum"]) ∧
      (∀ v, ("id", v) ∈ members →
        v = .str (utf8Lossy o.ID) ∧ (ValidUTF8 o.ID → v.isStringOf o.ID)) ∧
      (∀ v, ("appServiceKey", v) ∈ members →
        v = .str (utf8Lossy o.AppServiceKey) ∧
        (ValidUTF8 o.AppServiceKey → v.isStringOf o.AppServiceKey)) ∧
      (∀ v, ("payload", v) ∈ members → ∃ bs, o.Payload = some bs ∧ v = .str (b64Encode bs)) ∧
      (∀ v, ("retryCount", v) ∈ members → v = .num o.RetryCount) ∧
      (∀ v, ("pipelinePosition", v) ∈ members → v = .num o.PipelinePosition) ∧
      (∀ v, ("version", v) ∈ members →
        v = .str (utf8Lossy o.Version) ∧ (ValidUTF8 o.Version → v.isStringOf o.Version)) ∧
      (∀ v, ("correlationID", v) ∈ members →
        v = .str (utf8Lossy o.CorrelationID) ∧
        (ValidUTF8 o.CorrelationID → v.isStringOf o.CorrelationID)) ∧
      (∀ v, ("eventID", v) ∈ members →
        v = .str (utf8Lossy o.EventID) ∧ (ValidUTF8 o.EventID → v.isStringOf o.EventID)) ∧
      (∀ v, ("eventChecksum", v) ∈ members →
        v = .str (utf8Lossy o.EventChecksum) ∧
        (ValidUTF8 o.EventChecksum → v.isStringOf o.EventChecksum)) ∧
      (o.ID ≠ [] → o.AppServiceKey ≠ [] → o.Payload.len ≠ 0 → o.RetryCount ≠ 0 →
        o.PipelinePosition ≠ 0 → o.Version ≠ [] → o.CorrelationID ≠ [] → o.EventID ≠ [] →
        o.EventChecksum ≠ [] →
        members = [("id", .str (utf8Lossy o.ID)),
          ("appServiceKey", .str (utf8Lossy o.AppServiceKey)),
          ("payload", .str (b64Encode o.Payload.content)), ("retryCount", .num o.RetryCount),
          ("pipelinePosition", .num o.PipelinePosition), ("version", .str (utf8Lossy o.Version)),
          ("correlationID", .str (utf8Lossy o.CorrelationID)),
          ("eventID", .str (utf8Lossy o.EventID)),
          ("eventChecksum", .str (utf8Lossy o.EventChecksum))]) := by
  have hstr : ∀ (v : JVal) (s : GoString), v = .str (utf8Lossy s) →
      v = .str (utf8Lossy s) ∧ (ValidUTF8 s → v.isStringOf s) :=
    fun v s hv => ⟨hv, fun hs => ⟨_, hv, utf8Encode_utf8Lossy s hs⟩⟩
  refine ⟨_, MarshalJSON_eq o, ?_, ?_, ?_, ?_, ?_, ?_, ?_, ?_, ?_, ?_, ?_⟩
  · intro m hm
    rcases (mem_MarshalJSON o m).1 hm with ⟨_, rfl⟩ | ⟨_, rfl⟩ | ⟨bs, _, _, rfl⟩ | ⟨_, rfl⟩ |
      ⟨_, rfl⟩ | ⟨_, rfl⟩ | ⟨_, rfl⟩ | ⟨_, rfl⟩ | ⟨_, rfl⟩ <;> simp
  · intro v hm
    rcases (mem_MarshalJSON o _).1 hm with ⟨_, h⟩ | ⟨_, h⟩ | ⟨bs, _, _, h⟩ | ⟨_, h⟩ |
      ⟨_, h⟩ | ⟨_, h⟩ | ⟨_, h⟩ | ⟨_, h⟩ | ⟨_, h⟩ <;>
      first
        | exact (Prod.mk.inj h).2
        | exact hstr _ _ (Prod.mk.inj h).2
        | exact absurd (Prod.mk.inj h).1 (by decide)
  · intro v hm
    rcases (mem_MarshalJSON o _).1 hm with ⟨_, h⟩ | ⟨_, h⟩ | ⟨bs, _, _, h⟩ | ⟨_, h⟩ |
      ⟨_, h⟩ | ⟨_, h⟩ | ⟨_, h⟩ | ⟨_, h⟩ | ⟨_, h⟩ <;>
      first
        | exact (Prod.mk.inj h).2
        | exact hstr _ _ (Prod.mk.inj h).2
        | exact absurd (Prod.mk.inj h).1 (by decide)
  · intro v hm
    rcases (mem_MarshalJSON o _).1 hm with ⟨_, h⟩ | ⟨_, h⟩ | ⟨bs, hb, _, h⟩ | ⟨_, h⟩ |
      ⟨_, h⟩ | ⟨_, h⟩ | ⟨_, h⟩ | ⟨_, h⟩ | ⟨_, h⟩ <;>
      first | exact ⟨bs, hb, (Prod.mk.inj h).2⟩ | exact absurd (Prod.mk.inj h).1 (by decide)
  · intro v hm
    rcases (mem_MarshalJSON o _).1 hm with ⟨_, h⟩ | ⟨_, h⟩ | ⟨bs, _, _, h⟩ | ⟨_, h⟩ |
      ⟨_, h⟩ | ⟨_, h⟩ | ⟨_, h⟩ | ⟨_, h⟩ | ⟨_, h⟩ <;>
      first
        | exact (Prod.mk.inj h).2
        | exact hstr _ _ (Prod.mk.inj h).2
        | exact absurd (Prod.mk.inj h).1 (by decide)
  · intro v hm
    rcases (mem_MarshalJSON o _).1 hm with ⟨_, h⟩ | ⟨_, h⟩ | ⟨bs, _, _, h⟩ | ⟨_, h⟩ |
      ⟨_, h⟩ | ⟨_, h⟩ | ⟨_, h⟩ | ⟨_, h⟩ | ⟨_, h⟩ <;>
      first
        | exact (Prod.mk.inj h).2
        | exact hstr _ _ (Prod.mk.inj h).2
        | exact absurd (Prod.mk.inj h).1 (by decide)
  · intro v hm
    rcases (mem_MarshalJSON o _).1 hm with ⟨_, h⟩ | ⟨_, h⟩ | ⟨bs, _, _, h⟩ | ⟨_, h⟩ |
      ⟨_, h⟩ | ⟨_, h⟩ | ⟨_, h⟩ | ⟨_, h⟩ | ⟨_, h⟩ <;>
      first
        | exact (Prod.mk.inj h).2
        | exact hstr _ _ (Prod.mk.inj h).2
        | exact absurd (Prod.mk.inj h).1 (by decide)
  · intro v hm
    rcases (mem_MarshalJSON o _).1 hm with ⟨_, h⟩ | ⟨_, h⟩ | ⟨bs, _, _, h⟩ | ⟨_, h⟩ |
      ⟨_, h⟩ | ⟨_, h⟩ | ⟨_, h⟩ | ⟨_, h⟩ | ⟨_, h⟩ <;>
      first
        | exact (Prod.mk.inj h).2
        | exact hstr _ _ (Prod.mk.inj h).2
        | exact absurd (Prod.mk.inj h).1 (by decide)
  · intro v hm
    rcases (mem_MarshalJSON o _).1 hm with ⟨_, h⟩ | ⟨_, h⟩ | ⟨bs, _, _, h⟩ | ⟨_, h⟩ |
      ⟨_, h⟩ | ⟨_, h⟩ | ⟨_, h⟩ | ⟨_, h⟩ | ⟨_, h⟩ <;>
      first
        | exact (Prod.mk.inj h).2
        | exact hstr _ _ (Prod.mk.inj h).2
        | exact absurd (Prod.mk.inj h).1 (by decide)
  · intro v hm
    rcases (mem_MarshalJSON o _).1 hm with ⟨_, h⟩ | ⟨_, h⟩ | ⟨bs, _, _, h⟩ | ⟨_, h⟩ |
      ⟨_, h⟩ | ⟨_, h⟩ | ⟨_, h⟩ | ⟨_, h⟩ | ⟨_, h⟩ <;>
      first
        | exact (Prod.mk.inj h).2
        | exact hstr _ _ (Prod.mk.inj h).2
        | exact absurd (Prod.mk.inj h).1 (by decide)
  · intro h1 h2 h3 h4 h5 h6 h7 h8 h9
    cases hp : o.Payload with
    | none => rw [hp] at h3; exact absurd rfl h3
    | some bs =>
      have hb : ¬ bs.length = 0 := by rw [hp] at h3; exact h3
      simp [StoredObject.wire, encodeStringPtr, encodeBytes, encodeInt, h1, h2, h4, h5, h6, h7,
        h8, h9, hp, hb, Bytes.content]

/-- C15 (amended) at an object with all nine fields set, the strings valid UTF-8. -/
theorem StoredObject.wire_format_witness :
    (StoredObject.MarshalJSON
      { ID := utf8Encode "7", AppServiceKey := utf8Encode "svc-é",
        Payload := some [1, 2, 3, 255], RetryCount := 2, PipelinePosition := 1,
        Version := utf8Encode "v", CorrelationID := utf8Encode "c", EventID := utf8Encode "e",
        EventChecksum := utf8Encode "k" }).1
      = .value (.obj [("id", .str "7"), ("appServiceKey", .str "svc-é"),
          ("payload", .str "AQID/w=="), ("retryCount", .num 2), ("pipelinePosition", .num 1),
          ("version", .str "v"), ("correlationID", .str "c"), ("eventID", .str "e"),
          ("eventChecksum", .str "k")]) ∧
    (JVal.str "svc-é").isStringOf (utf8Encode "svc-é") := by
  obtain ⟨members, h, _, _, h2, _, _, _, _, _, _, _, hall⟩ := StoredObject.wire_format
    { ID := utf8Encode "7", AppServiceKey := utf8Encode "svc-é",
      Payload := some [1, 2, 3, 255], RetryCount := 2, PipelinePosition := 1,
      Version := utf8Encode "v", CorrelationID := utf8Encode "c", EventID := utf8Encode "e",
      EventChecksum := utf8Encode "k" }
  have hm := hall (by decide) (by decide) (by decide) (by decide) (by decide) (by decide)
    (by decide) (by decide) (by decide)
  refine ⟨?_, ?_⟩
  · rw [h, hm]
    rfl
  · have := (h2 (.str "svc-é") (by rw [hm]; simp; rfl)).2 (by decide)
    exact this

/-- C19. Model/contract conversion is lossless in both directions: after `m.FromContract(c)`
the call `m.ToContract()` equals `c`, for every prior state of the receiver `m` (of which
nothing survives: any two receivers end up equal); and `FromContract(m.ToContract())` into a
fresh model, or into any other, gives `m`. -/
theorem StoredObject.contract_round_trip (c : contracts.StoredObject) (m : StoredObject) :
    (m.FromContract c).ToContract = c ∧
    (∀ n : StoredObject, n.FromContract c = m.FromContract c) ∧
    StoredObject.zero.FromContract m.ToContract = m ∧
    (∀ n : StoredObject, n.FromContract m.ToContract = m) :=
  ⟨rfl, fun _ => rfl, rfl, fun _ => rfl⟩

theorem except_map_ok {α β : Type} {f : α → β} {x : Except Error α} {y : β}
    (h : x.map f = .ok y) : ∃ z, x = .ok z := by
  cases x with
  | error e => exact Except.noConfusion h
  | ok z => exact ⟨z, rfl⟩

theorem fitsString_of_decode {v : JVal} {p : Option GoString}
    (h : decodeStringPtr v = .ok p) :
    fitsString v = true := by
  cases v <;> first | rfl | exact Except.noConfusion h

theorem fitsInt_of_decode {cur : Int} {v : JVal} {n : Int} (h : decodeInt cur v = .ok n) :
    fitsInt v = true := by
  cases v with
  | null => rfl
  | num k =>
    by_cases hk : IsGoInt k
    · simp [fitsInt, hk]
    · simp [decodeInt, hk] at h
  | bool b => exact Except.noConfusion h
  | float t => exact Except.noConfusion h
  | negZero => rfl
  | str s => exact Except.noConfusion h
  | arr es => exact Except.noConfusion h
  | obj ms => exact Except.noConfusion h

theorem fitsByte_of_decode {cur : Byte} {v : JVal} {b : Byte}
    (h : decodeByteElem cur v = .ok b) : fitsByte v = true := by
  cases v with
  | null => rfl
  | num k =>
    by_cases hk : 0 ≤ k ∧ k ≤ 255
    · simp [fitsByte, hk]
    · simp [decodeByteElem, hk] at h
  | bool b => exact Except.noConfusion h
  | float t => exact Except.noConfusion h
  | negZero => exact Except.noConfusion h
  | str s => exact Except.noConfusion h
  | arr es => exact Except.noConfusion h
  | obj ms => exact Except.noConfusion h

theorem fitsByte_of_decodeByteElems (elems : List JVal) :
    ∀ backing bs, decodeByteElems backing elems = .ok bs → elems.all fitsByte = true := by
  induction elems with
  | nil => intro _ _ _; rfl
  | cons e es ih =>
    intro backing bs h
    unfold decodeByteElems at h
    cases he : decodeByteElem (backing.headD 0) e with
    | error err =>
      rw [he] at h
      exact Except.noConfusion h
    | ok b =>
      rw [he] at h
      obtain ⟨z, hz⟩ := except_map_ok h
      simp only [List.all_cons, Bool.and_eq_true]
      exact ⟨fitsByte_of_decode he, ih _ z hz⟩

theorem fitsBytes_of_decode {cur : Bytes} {spare : List Byte} {v : JVal}
    {b : Bytes × List Byte} (h : decodeBytes cur spare v = .ok b) : fitsBytes v = true := by
  cases v with
  | null => rfl
  | str s =>
    cases hs : b64Decode s with
    | none => simp [decodeBytes, hs] at h
    | some bs => simp [fitsBytes, hs]
  | arr es =>
    cases es with
    | nil => rfl
    | cons e rest =>
      simp only [decodeBytes, List.isEmpty_cons, Bool.false_eq_true, if_false] at h
      obtain ⟨z, hz⟩ := except_map_ok h
      exact fitsByte_of_decodeByteElems _ _ z hz
  | bool b => exact Except.noConfusion h
  | num n => exact Except.noConfusion h
  | float t => exact Except.noConfusion h
  | negZero => exact Except.noConfusion h
  | obj ms => exact Except.noConfusion h

/-- A member that `json.Unmarshal` accepts carries a value its field accepts. -/
theorem fits_of_decodeMember (a r : WireStruct) (k : String) (v : JVal)
    (h : decodeMember a (k, v) = .ok r) :
    ((matchesField "id" k ∨ matchesField "appServiceKey" k ∨ matchesField "version" k ∨
        matchesField "correlationID" k ∨ matchesField "eventID" k ∨
        matchesField "eventChecksum" k) → fitsString v) ∧
    (matchesField "payload" k → fitsBytes v) ∧
    ((matchesField "retryCount" k ∨ matchesField "pipelinePosition" k) → fitsInt v) := by
  rw [decodeMember_cases] at h
  simp only [matchesField_eq, foldKey_id, foldKey_appServiceKey, foldKey_payload,
    foldKey_retryCount, foldKey_pipelinePosition, foldKey_version, foldKey_correlationID,
    foldKey_eventID, foldKey_eventChecksum] at h ⊢
  generalize k.toList.map foldRune = K at h ⊢
  by_cases h1 : K = ['I', 'D']
  · subst h1
    simp only [decide_True, if_true] at h
    obtain ⟨z, hz⟩ := except_map_ok h
    simp [fitsString_of_decode hz]
  by_cases h2 : K = ['A', 'P', 'P', 'S', 'E', 'R', 'V', 'I', 'C', 'E', 'K', 'E', 'Y']
  · subst h2
    simp only [decide_True, if_true] at h
    obtain ⟨z, hz⟩ := except_map_ok h
    simp [fitsString_of_decode hz]
  by_cases h3 : K = ['P', 'A', 'Y', 'L', 'O', 'A', 'D']
  · subst h3
    simp only [decide_True, if_true] at h
    obtain ⟨z, hz⟩ := except_map_ok h
    simp [fitsBytes_of_decode hz]
  by_cases h4 : K = ['R', 'E', 'T', 'R', 'Y', 'C', 'O', 'U', 'N', 'T']
  · subst h4
    simp only [decide_True, if_true] at h
    obtain ⟨z, hz⟩ := except_map_ok h
    simp [fitsInt_of_decode hz]
  by_cases h5 : K = ['P', 'I', 'P', 'E', 'L', 'I', 'N', 'E', 'P', 'O', 'S', 'I', 'T', 'I', 'O', 'N']
  · subst h5
    simp only [decide_True, if_true] at h
    obtain ⟨z, hz⟩ := except_map_ok h
    simp [fitsInt_of_decode hz]
  by_cases h6 : K = ['V', 'E', 'R', 'S', 'I', 'O', 'N']
  · subst h6
    simp only [decide_True, if_true] at h
    obtain ⟨z, hz⟩ := except_map_ok h
    simp [fitsString_of_decode hz]
  by_cases h7 : K = ['C', 'O', 'R', 'R', 'E', 'L', 'A', 'T', 'I', 'O', 'N', 'I', 'D']
  · subst h7
    simp only [decide_True, if_true] at h
    obtain ⟨z, hz⟩ := except_map_ok h
    simp [fitsString_of_decode hz]
  by_cases h8 : K = ['E', 'V', 'E', 'N', 'T', 'I', 'D']
  · subst h8
    simp only [decide_True, if_true] at h
    obtain ⟨z, hz⟩ := except_map_ok h
    simp [fitsString_of_decode hz]
  by_cases h9 : K = ['E', 'V', 'E', 'N', 'T', 'C', 'H', 'E', 'C', 'K', 'S', 'U', 'M']
  · subst h9
    simp only [decide_True, if_true] at h
    obtain ⟨z, hz⟩ := except_map_ok h
    simp [fitsString_of_decode hz]
  simp [h1, h2, h3, h4, h5, h6, h7, h8, h9]

/-- An object that `json.Unmarshal` accepts is well typed, whatever the struct it is stored
into held. -/
theorem wellTyped_of_foldlM (d : List (String × JVal)) :
    ∀ a r : WireStruct, d.foldlM decodeMember a = .ok r → WellTyped d := by
  induction d with
  | nil =>
    intro _ _ _ m hm
    cases hm
  | cons x rest ih =>
    intro a r h
    rw [List.foldlM_cons] at h
    cases hx : decodeMember a x with
    | error e =>
      rw [hx] at h
      exact Except.noConfusion h
    | ok b =>
      rw [hx] at h
      intro m hm
      rcases List.mem_cons.1 hm with rfl | hm
      · exact fits_of_decodeMember a b m.1 m.2 hx
      · exact ih b r h m hm

/-- The closed form of a successful `UnmarshalJSON` of an object into any receiver; the
payload is that of the struct `json.Unmarshal` filled, which the receiver has no part in. -/
theorem UnmarshalJSON_obj_ok (o r : StoredObject) (d : List (String × JVal))
    (h : o.UnmarshalJSON (.value (.obj d)) = .ok r) :
    ∃ a, jsonUnmarshal (.value (.obj d)) = .ok a ∧
      (membersFor "payload" d = [] → a.Payload = none) ∧
      PayloadDecoded d a.Payload ∧
      r = { ID := (ptrOf (lastMember (fun _ => true) "id" d)).getD o.ID
            AppServiceKey :=
              (ptrOf (lastMember (fun _ => true) "appServiceKey" d)).getD o.AppServiceKey
            Payload := a.Payload
            RetryCount := intOf (lastMember (fun v => !v.isNull) "retryCount" d)
            PipelinePosition := intOf (lastMember (fun v => !v.isNull) "pipelinePosition" d)
            Version := (ptrOf (lastMember (fun _ => true) "version" d)).getD o.Version
            CorrelationID :=
              (ptrOf (lastMember (fun _ => true) "correlationID" d)).getD o.CorrelationID
            EventID := (ptrOf (lastMember (fun _ => true) "eventID" d)).getD o.EventID
            EventChecksum :=
              (ptrOf (lastMember (fun _ => true) "eventChecksum" d)).getD
                o.EventChecksum } := by
  cases hj : jsonUnmarshal (.value (.obj d)) with
  | error e =>
    simp only [StoredObject.UnmarshalJSON, hj] at h
    exact Except.noConfusion h
  | ok a =>
    have hw : WellTyped d := wellTyped_of_foldlM d WireStruct.zero a hj
    obtain ⟨b, hb, i1, i2, i3, ip, i4, i5, i6, i7, i8, i9⟩ := foldlM_decodeMember d hw
    have hab : a = b := Except.ok.inj (hj.symm.trans hb)
    subst hab
    have hres := UnmarshalJSON_of_jsonUnmarshal o (.value (.obj d)) a hj
    rw [h] at hres
    refine ⟨a, rfl, fun hn => (i3 hn).1, ip, ?_⟩
    rw [Except.ok.inj hres, i1, i2, i4, i5, i6, i7, i8, i9]

/-- C20 (as stated, refuted). Decoding the object whose only key is `ID` into a receiver
with `ID = "old"` overwrites `ID`, although the key `id` is absent from the object; and
decoding the object whose only key is `RETRYCOUNT` leaves `RetryCount` at the decoded 5, not
at zero, although the key `retryCount` is absent. -/
theorem StoredObject.unmarshal_populated_counterexample :
    (∃ r, StoredObject.UnmarshalJSON { StoredObject.zero with ID := utf8Encode "old" }
        (.value (.obj [("ID", .str "x")])) = .ok r ∧
      "id" ∉ [("ID", JVal.str "x")].map Prod.fst ∧ r.ID = utf8Encode "x" ∧
      r.ID ≠ utf8Encode "old") ∧
    (∃ r, StoredObject.UnmarshalJSON { StoredObject.zero with ID := utf8Encode "old" }
        (.value (.obj [("RETRYCOUNT", .num 5)])) = .ok r ∧
      "retryCount" ∉ [("RETRYCOUNT", JVal.num 5)].map Prod.fst ∧ r.RetryCount = 5 ∧
      r.RetryCount ≠ 0) :=
  ⟨⟨_, rfl, by decide, rfl, by decide⟩, ⟨_, rfl, by decide, rfl, by decide⟩⟩

/-- C20 (amended). `UnmarshalJSON` into an already-populated `StoredObject` treats field kinds
differently: after a successful decode of an object `d` into a receiver `o`, each of the six
string fields that no member of `d` selects, or whose last selecting member is `null`, still
holds the receiver's prior value; `Payload`, `RetryCount` and `PipelinePosition` are always
overwritten, with a value that depends on `d` alone (any other receiver ends with the same
three values), and are nil / zero when no member of `d` selects them; the two `int` fields
hold the value of the last selecting member that is not `null`, and the payload is nil for
`null`, the base64 decoding for a string, and for an array one octet for each element, which
are the numbers listed, zero for `null`, when the array has no `null` element or is the only
member selecting the payload. -/
theorem StoredObject.unmarshal_into_populated (o r : StoredObject) (d : List (String × JVal))
    (h : o.UnmarshalJSON (.value (.obj d)) = .ok r) :
    ((Absent "id" d ∨ lastMember (fun _ => true) "id" d = some .null) → r.ID = o.ID) ∧
    ((Absent "appServiceKey" d ∨ lastMember (fun _ => true) "appServiceKey" d = some .null) →
      r.AppServiceKey = o.AppServiceKey) ∧
    ((Absent "version" d ∨ lastMember (fun _ => true) "version" d = some .null) →
      r.Version = o.Version) ∧
    ((Absent "correlationID" d ∨ lastMember (fun _ => true) "correlationID" d = some .null) →
      r.CorrelationID = o.CorrelationID) ∧
    ((Absent "eventID" d ∨ lastMember (fun _ => true) "eventID" d = some .null) →
      r.EventID = o.EventID) ∧
    ((Absent "eventChecksum" d ∨ lastMember (fun _ => true) "eventChecksum" d = some .null) →
      r.EventChecksum = o.EventChecksum) ∧
    PayloadDecoded d r.Payload ∧
    r.RetryCount = intOf (lastMember (fun v => !v.isNull) "retryCount" d) ∧
    r.PipelinePosition = intOf (lastMember (fun v => !v.isNull) "pipelinePosition" d) ∧
    (Absent "payload" d → r.Payload = none) ∧
    (Absent "retryCount" d → r.RetryCount = 0) ∧
    (Absent "pipelinePosition" d → r.PipelinePosition = 0) ∧
    (∀ o2 r2 : StoredObject, o2.UnmarshalJSON (.value (.obj d)) = .ok r2 →
      r2.Payload = r.Payload ∧ r2.RetryCount = r.RetryCount ∧
      r2.PipelinePosition = r.PipelinePosition) := by
  obtain ⟨a, ha, hnil, hp, hr⟩ := UnmarshalJSON_obj_ok o r d h
  have hkeep : ∀ (name : String) (prior : GoString),
      (Absent name d ∨ lastMember (fun _ => true) name d = some .null) →
      (ptrOf (lastMember (fun _ => true) name d)).getD prior = prior := by
    intro name prior hc
    rcases hc with hc | hc
    · rw [lastMember_of_absent _ _ _ hc]
      rfl
    · rw [hc]
      rfl
  subst hr
  refine ⟨hkeep _ _, hkeep _ _, hkeep _ _, hkeep _ _, hkeep _ _, hkeep _ _, hp, rfl, rfl,
    ?_, ?_, ?_, ?_⟩
  · intro hab
    exact hnil (membersFor_of_absent _ _ hab)
  · intro hab
    simp only [lastMember_of_absent _ _ _ hab]
    rfl
  · intro hab
    simp only [lastMember_of_absent _ _ _ hab]
    rfl
  · intro o2 r2 h2
    obtain ⟨a2, ha2, _, _, hr2⟩ := UnmarshalJSON_obj_ok o2 r2 d h2
    have haa : a2 = a := Except.ok.inj (ha2.symm.trans ha)
    subst hr2
    subst haa
    exact ⟨rfl, rfl, rfl⟩

/-- C20 (amended) at a populated receiver and an object with a `null` id, no version, and a
payload. -/
theorem StoredObject.unmarshal_into_populated_witness :
    ∃ r, StoredObject.UnmarshalJSON sampleStoredObject
        (.value (.obj [("id", .null), ("payload", .str "AQID"), ("eventID", .str "e2")]))
          = .ok r ∧
      r.ID = utf8Encode "7" ∧ r.Version = utf8Encode "v" ∧ r.Payload = some [1, 2, 3] ∧
      r.RetryCount = 0 ∧ r.PipelinePosition = 0 := by
  have h := StoredObject.unmarshal_into_populated sampleStoredObject _
    [("id", .null), ("payload", .str "AQID"), ("eventID", .str "e2")] rfl
  exact ⟨_, rfl, h.1 (Or.inr rfl), h.2.2.1 (Or.inl (by unfold Absent; decide)),
    (h.2.2.2.2.2.2.1.2.1 _ rfl).trans rfl, h.2.2.2.2.2.2.2.2.2.2.1 (by unfold Absent; decide),
    h.2.2.2.2.2.2.2.2.2.2.2.1 (by unfold Absent; decide)⟩

/-- The two renderings of `UnmarshalJSON` agree: the threaded one returns an error exactly
when the other does, and otherwise the same receiver. -/
theorem unmarshalJSONInto_eq (o : StoredObject) (data : Data) :
    o.UnmarshalJSON data =
      match o.unmarshalJSONInto data with
      | (some err, _) => .error err
      | (none, r) => .ok r := by
  unfold StoredObject.UnmarshalJSON StoredObject.unmarshalJSONInto
  cases jsonUnmarshal data <;> rfl

/-- An object with a member whose value its field does not accept is rejected by
`json.Unmarshal`. -/
theorem jsonUnmarshal_rejects_ill_typed (d : List (String × JVal)) (h : ¬ WellTyped d) :
    ∃ e, jsonUnmarshal (.value (.obj d)) = .error e := by
  cases hj : jsonUnmarshal (.value (.obj d)) with
  | error e => exact ⟨e, rfl⟩
  | ok a => exact absurd (wellTyped_of_foldlM d WireStruct.zero a hj) h

/-- C21. `UnmarshalJSON` is atomic on failure: for every receiver state `o` and every input
that `json.Unmarshal` rejects with an error `e`, `UnmarshalJSON` returns `e` and leaves the
receiver equal to `o`.  The rejected inputs include malformed JSON (the syntax error is the
error returned), every object with a member whose value the selected field does not accept,
and every value that is neither an object nor `null`. -/
theorem StoredObject.unmarshal_atomic_on_failure (o : StoredObject) :
    (∀ data e, jsonUnmarshal data = .error e →
      o.unmarshalJSONInto data = (some e, o) ∧ o.UnmarshalJSON data = .error e) ∧
    (∀ e, o.unmarshalJSONInto (.malformed e) = (some e, o)) ∧
    (∀ d, ¬ WellTyped d →
      ∃ e, jsonUnmarshal (.value (.obj d)) = .error e ∧
        o.unmarshalJSONInto (.value (.obj d)) = (some e, o)) ∧
    (∀ v, (∀ d, v ≠ .obj d) → v ≠ .null →
      ∃ e, jsonUnmarshal (.value v) = .error e ∧
        o.unmarshalJSONInto (.value v) = (some e, o)) := by
  have hgen : ∀ data e, jsonUnmarshal data = .error e →
      o.unmarshalJSONInto data = (some e, o) ∧ o.UnmarshalJSON data = .error e := by
    intro data e h
    constructor
    · simp only [StoredObject.unmarshalJSONInto, h]
    · simp only [StoredObject.UnmarshalJSON, h]
  refine ⟨hgen, fun e => (hgen (.malformed e) e rfl).1, fun d hd => ?_,
    fun v hobj hnull => ?_⟩
  · obtain ⟨e, he⟩ := jsonUnmarshal_rejects_ill_typed d hd
    exact ⟨e, he, (hgen _ e he).1⟩
  · cases v with
    | null => exact absurd rfl hnull
    | obj d => exact absurd rfl (hobj d)
    | bool b =>
      exact ⟨"json: cannot unmarshal value into Go value of type struct", rfl,
        (hgen (.value (.bool b)) _ rfl).1⟩
    | num n =>
      exact ⟨"json: cannot unmarshal value into Go value of type struct", rfl,
        (hgen (.value (.num n)) _ rfl).1⟩
    | float t =>
      exact ⟨"json: cannot unmarshal value into Go value of type struct", rfl,
        (hgen (.value (.float t)) _ rfl).1⟩
    | negZero =>
      exact ⟨"json: cannot unmarshal value into Go value of type struct", rfl,
        (hgen (.value .negZero) _ rfl).1⟩
    | str s =>
      exact ⟨"json: cannot unmarshal value into Go value of type struct", rfl,
        (hgen (.value (.str s)) _ rfl).1⟩
    | arr es =>
      exact ⟨"json: cannot unmarshal value into Go value of type struct", rfl,
        (hgen (.value (.arr es)) _ rfl).1⟩

/-- C21 at a populated receiver: malformed text, and an object with a string under
`retryCount` after a well-typed `id`. -/
theorem StoredObject.unmarshal_atomic_on_failure_witness :
    sampleStoredObject.unmarshalJSONInto (.malformed "unexpected end of JSON input")
      = (some "unexpected end of JSON input", sampleStoredObject) ∧
    ∃ e, sampleStoredObject.unmarshalJSONInto
        (.value (.obj [("id", .str "8"), ("retryCount", .str "x")]))
      = (some e, sampleStoredObject) := by
  obtain ⟨e, _, he⟩ := (StoredObject.unmarshal_atomic_on_failure sampleStoredObject).2.2.1
    [("id", .str "8"), ("retryCount", .str "x")] (by unfold WellTyped; decide)
  exact ⟨(StoredObject.unmarshal_atomic_on_failure sampleStoredObject).2.1 _, e, he⟩

/-! ## The export stage -/

/-- The effect `initializeMQTTClient` records when it calls the client factory. -/
theorem clientStep_eq (w : World) (s : MQTTState) :
    clientStep w s =
      if s.sender.client = none ∨
          s.sender.secretsLastRetrieved < s.ctx.SecretProvider.SecretsLastUpdated then
        match w.Create s.sender.mqttConfig.AuthMode s.sender.mqttConfig.SecretPath
            s.sender.mqttConfig.SkipCertVerify s.sender.opts with
        | .error err =>
          (some err, s.emit (.create s.sender.mqttConfig.AuthMode s.sender.mqttConfig.SecretPath
            s.sender.mqttConfig.SkipCertVerify s.sender.opts))
        | .ok client =>
          (none,
            { sender := { s.sender with client := some client, secretsLastRetrieved := w.Now }
              ctx := s.ctx
              trace := s.trace ++ [.create s.sender.mqttConfig.AuthMode
                s.sender.mqttConfig.SecretPath s.sender.mqttConfig.SkipCertVerify
                s.sender.opts] })
      else (none, s) := by
  unfold clientStep
  by_cases h : s.sender.client = none ∨
      s.sender.secretsLastRetrieved < s.ctx.SecretProvider.SecretsLastUpdated
  · have h2 : ¬ (s.sender.client ≠ none ∧
        ¬ s.sender.secretsLastRetrieved < s.ctx.SecretProvider.SecretsLastUpdated) := by
      rintro ⟨a, b⟩
      rcases h with h | h
      · exact a h
      · exact b h
    rw [if_pos h, if_pos h]
    unfold initializeMQTTClient
    rw [if_neg h2]
    simp only [MQTTState.emit]
  · rw [if_neg h, if_neg h]

/-- After the client step the context and the sender's configuration are as before, and a
step that reports no error leaves a client in place. -/
theorem clientStep_frame (w : World) (s : MQTTState) :
    (clientStep w s).2.ctx = s.ctx ∧
    (clientStep w s).2.sender.persistOnError = s.sender.persistOnError ∧
    (clientStep w s).2.sender.mqttConfig = s.sender.mqttConfig ∧
    ((clientStep w s).1 = none → (clientStep w s).2.sender.client ≠ none) := by
  rw [clientStep_eq]
  by_cases h : s.sender.client = none ∨
      s.sender.secretsLastRetrieved < s.ctx.SecretProvider.SecretsLastUpdated
  · rw [if_pos h]
    cases w.Create s.sender.mqttConfig.AuthMode s.sender.mqttConfig.SecretPath
      s.sender.mqttConfig.SkipCertVerify s.sender.opts <;> simp [MQTTState.emit]
  · rw [if_neg h]
    refine ⟨rfl, rfl, rfl, fun _ hc => h (Or.inl hc)⟩

/-- The client step records no publish. -/
theorem clientStep_trace (w : World) (s : MQTTState) :
    (clientStep w s).2.trace.filter Effect.isPublish = s.trace.filter Effect.isPublish := by
  rw [clientStep_eq]
  by_cases h : s.sender.client = none ∨
      s.sender.secretsLastRetrieved < s.ctx.SecretProvider.SecretsLastUpdated
  · rw [if_pos h]
    cases w.Create s.sender.mqttConfig.AuthMode s.sender.mqttConfig.SecretPath
      s.sender.mqttConfig.SkipCertVerify s.sender.opts <;>
      simp [MQTTState.emit, List.filter_append, Effect.isPublish]
  · rw [if_neg h]

/-- The retry slot after `setRetryData`. -/
theorem setRetryData_ctx (s : MQTTState) (P : Bytes) :
    (setRetryData s P).ctx.RetryData = (if s.sender.persistOnError then P else s.ctx.RetryData) ∧
    (setRetryData s P).sender = s.sender ∧ (setRetryData s P).trace = s.trace := by
  unfold setRetryData
  cases s.sender.persistOnError <;> simp

/-- The publish step when the publish fails. -/
theorem publishStep_fail (w : World) (s : MQTTState) (c : Client) (P : Bytes) (e : Error)
    (h : (w.Publish c s.sender.mqttConfig.Topic s.sender.mqttConfig.QoS
      s.sender.mqttConfig.Retain P).Error = some e) :
    publishStep w s c P = ((false, .error e),
      setRetryData (s.emit (.publish c s.sender.mqttConfig.Topic s.sender.mqttConfig.QoS
        s.sender.mqttConfig.Retain P)) P) := by
  unfold publishStep
  simp only [MQTTState.emit, h]

/-- The publish step when the publish succeeds. -/
theorem publishStep_ok (w : World) (s : MQTTState) (c : Client) (P : Bytes)
    (h : (w.Publish c s.sender.mqttConfig.Topic s.sender.mqttConfig.QoS
      s.sender.mqttConfig.Retain P).Error = none) :
    publishStep w s c P = ((true, .nil),
      { s with trace := s.trace ++ [.publish c s.sender.mqttConfig.Topic s.sender.mqttConfig.QoS
          s.sender.mqttConfig.Retain P, .log "DEBUG" "Sent data to MQTT Broker" [],
          .log "TRACE" "Data exported"
            ["Transport", "MQTT", w.CorrelationHeader, s.ctx.CorrelationID]] }) := by
  unfold publishStep
  simp [MQTTState.emit, h]

/-- What the publish step leaves behind: the sender is untouched, no client is constructed,
exactly one publish is recorded, and the retry slot changes only on a failed publish with
persistence enabled. -/
theorem publishStep_frame (w : World) (s : MQTTState) (c : Client) (P : Bytes) :
    (publishStep w s c P).2.sender = s.sender ∧
    (publishStep w s c P).2.trace.filter Effect.isCreate = s.trace.filter Effect.isCreate ∧
    (publishStep w s c P).2.trace.filter Effect.isPublish
      = s.trace.filter Effect.isPublish ++ [.publish c s.sender.mqttConfig.Topic
          s.sender.mqttConfig.QoS s.sender.mqttConfig.Retain P] ∧
    (publishStep w s c P).2.ctx.RetryData
      = (if (publishStep w s c P).1.1 = false ∧ s.sender.persistOnError = true then P
          else s.ctx.RetryData) ∧
    ((publishStep w s c P).1.1 = true → (publishStep w s c P).1.2 = .nil) := by
  cases h : (w.Publish c s.sender.mqttConfig.Topic s.sender.mqttConfig.QoS
      s.sender.mqttConfig.Retain P).Error with
  | some e =>
    rw [publishStep_fail w s c P e h]
    unfold setRetryData
    cases hp : s.sender.persistOnError <;>
      simp [MQTTState.emit, hp, List.filter_append, Effect.isCreate, Effect.isPublish]
  | none =>
    rw [publishStep_ok w s c P h]
    simp [List.filter_append, Effect.isCreate, Effect.isPublish, List.filter_cons]

/-- `MQTTSend` on a coercible input, branch by branch; in particular it never dereferences a
nil client. -/
theorem MQTTSend_eq (w : World) (sender : MQTTSecretSender) (ctx : Context) (p : Value)
    (ps : List Value) (P : Bytes) (hc : w.CoerceType p = .ok P) :
    MQTTSend w sender ctx (p :: ps) =
      match clientStep w { sender := sender, ctx := ctx, trace := [] } with
      | (some err, s) => some ((false, .error err), s)
      | (none, s) =>
        match s.sender.client with
        | none => none
        | some client =>
          if w.IsConnected client then some (publishStep w s client P)
          else if (w.Connect client).Wait = true ∧ (w.Connect client).Error ≠ none then
            some ((false, .error (connectError s.sender.persistOnError
                ((w.Connect client).Error.getD ""))),
              setRetryData ((s.emit (.log "INFO" "Connecting to mqtt server for export" [])).emit
                (.connect client)) P)
          else
            some (publishStep w (((s.emit (.log "INFO" "Connecting to mqtt server for export"
              [])).emit (.connect client)).emit
                (.log "INFO" "Connected to mqtt server for export" [])) client P) := by
  unfold MQTTSend
  simp only [hc]
  rcases hcs : clientStep w { sender := sender, ctx := ctx, trace := [] } with ⟨e, s⟩
  cases e with
  | some err => rfl
  | none =>
    simp only
    cases hcl : s.sender.client with
    | none => rfl
    | some client =>
      simp only
      by_cases hconn : w.IsConnected client = true
      · simp [hconn]
      · simp only [hconn, not_false_eq_true, if_true, Bool.false_eq_true, if_false]
        unfold connectToBroker
        simp only [hcl, hconn, Bool.false_eq_true, if_false]
        by_cases htok : (w.Connect client).Wait = true ∧ (w.Connect client).Error ≠ none
        · rw [if_pos htok, if_pos htok]
          simp [connectError, (setRetryData_ctx _ _).2.1, MQTTState.emit]
        · rw [if_neg htok, if_neg htok]
          simp [MQTTState.emit, hcl]

/-- `MQTTSend` on a coercible input through the closed form of its second half. -/
theorem MQTTSend_eq_sendWithClient (w : World) (sender : MQTTSecretSender) (ctx : Context)
    (p : Value) (ps : List Value) (P : Bytes) (hc : w.CoerceType p = .ok P) :
    MQTTSend w sender ctx (p :: ps) =
      match clientStep w { sender := sender, ctx := ctx, trace := [] } with
      | (some err, s) => some ((false, .error err), s)
      | (none, s) =>
        match s.sender.client with
        | none => none
        | some client => some (sendWithClient w s client P) := by
  rw [MQTTSend_eq w sender ctx p ps P hc]
  rcases clientStep w { sender := sender, ctx := ctx, trace := [] } with ⟨e, s⟩
  cases e with
  | some err => rfl
  | none =>
    simp only
    cases s.sender.client with
    | none => rfl
    | some client =>
      simp only [sendWithClient]
      by_cases h1 : w.IsConnected client = true
      · simp [h1]
      · by_cases h2 : (w.Connect client).Wait = true ∧ (w.Connect client).Error ≠ none
        · rw [if_neg h1, if_neg h1, if_pos h2, if_pos h2]
        · rw [if_neg h1, if_neg h1, if_neg h2, if_neg h2]

/-- What the second half of `MQTTSend` leaves behind: the sender is untouched; no client is
constructed; the retry slot is `exportData` if the half fails with persistence enabled and
is untouched otherwise; a failure carries an error; a success returns `nil` and has recorded
exactly one publish, of `exportData` under the configured topic, QoS and retain flag. -/
theorem sendWithClient_frame (w : World) (s : MQTTState) (c : Client) (P : Bytes) :
    (sendWithClient w s c P).2.sender = s.sender ∧
    (sendWithClient w s c P).2.trace.filter Effect.isCreate
      = s.trace.filter Effect.isCreate ∧
    (sendWithClient w s c P).2.ctx.RetryData
      = (if (sendWithClient w s c P).1.1 = false ∧ s.sender.persistOnError = true then P
          else s.ctx.RetryData) ∧
    ((sendWithClient w s c P).1.1 = true →
      (sendWithClient w s c P).1.2 = .nil ∧
      (sendWithClient w s c P).2.trace.filter Effect.isPublish
        = s.trace.filter Effect.isPublish ++ [.publish c s.sender.mqttConfig.Topic
            s.sender.mqttConfig.QoS s.sender.mqttConfig.Retain P]) := by
  unfold sendWithClient
  by_cases h1 : w.IsConnected c = true
  · rw [if_pos h1]
    obtain ⟨a, b, c1, d, e⟩ := publishStep_frame w s c P
    exact ⟨a, b, d, fun h => ⟨e h, c1⟩⟩
  · rw [if_neg h1]
    by_cases h2 : (w.Connect c).Wait = true ∧ (w.Connect c).Error ≠ none
    · rw [if_pos h2]
      refine ⟨?_, ?_, ?_, ?_⟩
      · rw [(setRetryData_ctx _ _).2.1]
        rfl
      · rw [(setRetryData_ctx _ _).2.2]
        simp [MQTTState.emit, List.filter_append, Effect.isCreate]
      · rw [(setRetryData_ctx _ _).1]
        simp [MQTTState.emit]
      · intro h
        exact absurd h (by simp)
    · rw [if_neg h2]
      obtain ⟨a, b, c1, d, e⟩ := publishStep_frame w (((s.emit (.log "INFO"
        "Connecting to mqtt server for export" [])).emit (.connect c)).emit
          (.log "INFO" "Connected to mqtt server for export" [])) c P
      refine ⟨a, ?_, ?_, fun h => ⟨e h, ?_⟩⟩
      · rw [b]
        simp [MQTTState.emit, List.filter_append, Effect.isCreate]
      · rw [d]
        simp [MQTTState.emit]
      · rw [c1]
        simp [MQTTState.emit, List.filter_append, Effect.isPublish]

/-- C4. With persistence enabled and a payload coerced to `P`, once the client step has left
a client `c` in place: if the connect attempt fails, or if the publish fails, `MQTTSend`
returns `continue = false` with the error, and the context's `RetryData` is exactly `P`
afterwards. -/
theorem MQTTSend_persists_on_connect_or_publish_failure (w : World)
    (sender : MQTTSecretSender) (ctx : Context) (p : Value) (ps : List Value) (P : Bytes)
    (s : MQTTState) (c : Client) (hpersist : sender.persistOnError = true)
    (hcoerce : w.CoerceType p = .ok P)
    (hstep : clientStep w { sender := sender, ctx := ctx, trace := [] } = (none, s))
    (hclient : s.sender.client = some c) :
    (w.IsConnected c = false → (w.Connect c).Wait = true →
      ∀ e, (w.Connect c).Error = some e →
        ∃ t, MQTTSend w sender ctx (p :: ps)
            = some ((false, .error (connectError true e)), t) ∧
          t.ctx.RetryData = P) ∧
    ((w.IsConnected c = true ∨ (w.Connect c).Wait = false ∨ (w.Connect c).Error = none) →
      ∀ e, (w.Publish c sender.mqttConfig.Topic sender.mqttConfig.QoS sender.mqttConfig.Retain
          P).Error = some e →
        ∃ t, MQTTSend w sender ctx (p :: ps) = some ((false, .error e), t) ∧
          t.ctx.RetryData = P) := by
  obtain ⟨_, f2, f3, _⟩ := clientStep_frame w { sender := sender, ctx := ctx, trace := [] }
  rw [hstep] at f2 f3
  simp only at f2 f3
  have hp : s.sender.persistOnError = true := by rw [f2, hpersist]
  rw [MQTTSend_eq w sender ctx p ps P hcoerce, hstep]
  simp only [hclient]
  constructor
  · intro hconn hwait e herr
    have htok : (w.Connect c).Wait = true ∧ (w.Connect c).Error ≠ none := ⟨hwait, by simp [herr]⟩
    rw [if_neg (by simp [hconn]), if_pos htok]
    refine ⟨_, by rw [hp, herr]; rfl, ?_⟩
    rw [(setRetryData_ctx _ _).1]
    simp [MQTTState.emit, hp]
  · intro hor e herr
    by_cases hconn : w.IsConnected c = true
    · rw [if_pos hconn]
      have hpub := publishStep_fail w s c P e (by rw [f3]; exact herr)
      refine ⟨(publishStep w s c P).2, by rw [hpub], ?_⟩
      rw [hpub, (setRetryData_ctx _ _).1]
      simp [MQTTState.emit, hp]
    · have htok : ¬ ((w.Connect c).Wait = true ∧ (w.Connect c).Error ≠ none) := by
        rintro ⟨a, b⟩
        rcases hor with h | h | h
        · exact hconn h
        · rw [a] at h
          exact Bool.noConfusion h
        · exact b h
      rw [if_neg hconn, if_neg htok]
      have hpub := publishStep_fail w (((s.emit (.log "INFO"
        "Connecting to mqtt server for export" [])).emit (.connect c)).emit
          (.log "INFO" "Connected to mqtt server for export" [])) c P e
        (by simp only [MQTTState.emit]; rw [f3]; exact herr)
      refine ⟨_, by rw [hpub], ?_⟩
      rw [(setRetryData_ctx _ _).1]
      simp [MQTTState.emit, hp]

/-- C4 at a sender without a client whose connect attempt is refused. -/
theorem MQTTSend_persists_on_connect_or_publish_failure_witness :
    ∃ t, MQTTSend (sampleWorld (.ok 7) false (some "refused") none) (sampleSender true)
        sampleContext [.bytes (some [1, 2])]
          = some ((false, .error (connectError true "refused")), t) ∧
      t.ctx.RetryData = some [1, 2] :=
  (MQTTSend_persists_on_connect_or_publish_failure
    (sampleWorld (.ok 7) false (some "refused") none) (sampleSender true) sampleContext
    (.bytes (some [1, 2])) [] (some [1, 2])
    (clientStep (sampleWorld (.ok 7) false (some "refused") none)
      { sender := sampleSender true, ctx := sampleContext, trace := [] }).2 7
    rfl rfl rfl rfl).1 rfl rfl "refused" rfl

/-- C5. With persistence disabled, whatever the input and whatever the outcome (input error,
client-construction failure, connect failure, publish failure or success), `MQTTSend` returns
and the context's `RetryData` is what it was before the call. -/
theorem MQTTSend_keeps_retry_data_without_persistence (w : World) (sender : MQTTSecretSender)
    (ctx : Context) (params : List Value) (h : sender.persistOnError = false) :
    ∃ r s, MQTTSend w sender ctx params = some (r, s) ∧ s.ctx.RetryData = ctx.RetryData := by
  cases params with
  | nil => exact ⟨_, _, rfl, rfl⟩
  | cons p ps =>
    cases hc : w.CoerceType p with
    | error err => exact ⟨(false, .error err), ⟨sender, ctx, []⟩, by simp [MQTTSend, hc], rfl⟩
    | ok P =>
      rw [MQTTSend_eq w sender ctx p ps P hc]
      obtain ⟨f1, f2, _, f4⟩ := clientStep_frame w { sender := sender, ctx := ctx, trace := [] }
      rcases hcs : clientStep w { sender := sender, ctx := ctx, trace := [] } with ⟨e, s⟩
      rw [hcs] at f1 f2 f4
      simp only at f1 f2 f4
      have hp : s.sender.persistOnError = false := by rw [f2, h]
      cases e with
      | some err => exact ⟨_, _, rfl, by rw [f1]⟩
      | none =>
        cases hcl : s.sender.client with
        | none => exact absurd hcl (f4 rfl)
        | some c =>
          simp only [hcl]
          by_cases hconn : w.IsConnected c = true
          · rw [if_pos hconn]
            refine ⟨(publishStep w s c P).1, (publishStep w s c P).2, rfl, ?_⟩
            rw [(publishStep_frame w s c P).2.2.2.1, hp, ← f1]
            simp
          · rw [if_neg hconn]
            by_cases htok : (w.Connect c).Wait = true ∧ (w.Connect c).Error ≠ none
            · rw [if_pos htok]
              refine ⟨_, _, rfl, ?_⟩
              rw [(setRetryData_ctx _ _).1]
              simp [MQTTState.emit, hp, f1]
            · rw [if_neg htok]
              refine ⟨(publishStep w _ c P).1, (publishStep w _ c P).2, rfl, ?_⟩
              rw [(publishStep_frame w _ c P).2.2.2.1]
              simp [MQTTState.emit, hp, f1]

/-- C5 at a sender whose publish fails with persistence disabled. -/
theorem MQTTSend_keeps_retry_data_without_persistence_witness :
    ∃ r s, MQTTSend (sampleWorld (.ok 7) true none (some "broker gone")) (sampleSender false)
        { sampleContext with RetryData := some [4] } [.bytes (some [9])] = some (r, s) ∧
      s.ctx.RetryData = some [4] :=
  MQTTSend_keeps_retry_data_without_persistence
    (sampleWorld (.ok 7) true none (some "broker gone")) (sampleSender false)
    { sampleContext with RetryData := some [4] } [.bytes (some [9])] rfl

/-- C8. Rotation check: in a call of `MQTTSend` with a coercible payload the client factory
is invoked exactly once (with the sender's auth mode, secret path, verification flag and
options) if the sender has no client or its `secretsLastRetrieved` is strictly before the
provider's `SecretsLastUpdated()`, and not at all otherwise, the sender then being left as it
was.  After a successful construction the cached client is the newly built one and
`secretsLastRetrieved` is the construction time. -/
theorem MQTTSend_rotation_check (w : World) (sender : MQTTSecretSender) (ctx : Context)
    (p : Value) (ps : List Value) (P : Bytes) (hcoerce : w.CoerceType p = .ok P) :
    ∃ r s, MQTTSend w sender ctx (p :: ps) = some (r, s) ∧
      s.trace.filter Effect.isCreate =
        (if sender.client = none ∨
            sender.secretsLastRetrieved < ctx.SecretProvider.SecretsLastUpdated then
          [.create sender.mqttConfig.AuthMode sender.mqttConfig.SecretPath
            sender.mqttConfig.SkipCertVerify sender.opts]
        else []) ∧
      ((sender.client = none ∨
          sender.secretsLastRetrieved < ctx.SecretProvider.SecretsLastUpdated) →
        ∀ c, w.Create sender.mqttConfig.AuthMode sender.mqttConfig.SecretPath
            sender.mqttConfig.SkipCertVerify sender.opts = .ok c →
          s.sender.client = some c ∧ s.sender.secretsLastRetrieved = w.Now) ∧
      (¬ (sender.client = none ∨
          sender.secretsLastRetrieved < ctx.SecretProvider.SecretsLastUpdated) →
        s.sender = sender) := by
  rw [MQTTSend_eq_sendWithClient w sender ctx p ps P hcoerce, clientStep_eq]
  by_cases hstale : sender.client = none ∨
      sender.secretsLastRetrieved < ctx.SecretProvider.SecretsLastUpdated
  · simp only [if_pos hstale]
    cases hcr : w.Create sender.mqttConfig.AuthMode sender.mqttConfig.SecretPath
        sender.mqttConfig.SkipCertVerify sender.opts with
    | error err =>
      refine ⟨_, _, rfl, ?_, ?_, fun h => absurd hstale h⟩
      · simp [MQTTState.emit, Effect.isCreate]
      · intro _ c hc
        cases hc
    | ok c =>
      simp only
      obtain ⟨f1, f2, _, _⟩ := sendWithClient_frame w
        { sender := { sender with client := some c, secretsLastRetrieved := w.Now }
          ctx := ctx
          trace := [] ++ [.create sender.mqttConfig.AuthMode sender.mqttConfig.SecretPath
            sender.mqttConfig.SkipCertVerify sender.opts] } c P
      refine ⟨(sendWithClient w _ c P).1, (sendWithClient w _ c P).2, rfl, ?_, ?_,
        fun h => absurd hstale h⟩
      · rw [f2]
        simp [Effect.isCreate]
      · intro _ c2 hc2
        have hcc : c = c2 := Except.ok.inj hc2
        subst hcc
        rw [f1]
        exact ⟨rfl, rfl⟩
  · simp only [if_neg hstale]
    cases hcl : sender.client with
    | none => exact absurd (Or.inl hcl) hstale
    | some c =>
      simp only
      obtain ⟨f1, f2, _, _⟩ := sendWithClient_frame w
        { sender := sender, ctx := ctx, trace := [] } c P
      refine ⟨(sendWithClient w _ c P).1, (sendWithClient w _ c P).2, rfl, ?_,
        fun h => absurd h (hcl ▸ hstale), fun _ => ?_⟩
      · rw [f2]
        rfl
      · rw [f1]

/-- C8 at a sender without a client (one construction, cached with the construction time)
and at a sender whose timestamp equals the provider's (no construction). -/
theorem MQTTSend_rotation_check_witness :
    (∃ r s, MQTTSend (sampleWorld (.ok 7) true none none) (sampleSender true) sampleContext
        [.bytes (some [1])] = some (r, s) ∧
      (s.trace.filter Effect.isCreate).length = 1 ∧ s.sender.client = some 7 ∧
      s.sender.secretsLastRetrieved = 1000) ∧
    (∃ r s, MQTTSend (sampleWorld (.ok 7) true none none)
        { sampleSender true with client := some 3, secretsLastRetrieved := 5 } sampleContext
        [.bytes (some [1])] = some (r, s) ∧
      (s.trace.filter Effect.isCreate).length = 0 ∧ s.sender.client = some 3 ∧
      s.sender.secretsLastRetrieved = 5) := by
  constructor
  · obtain ⟨r, s, h, hf, hc, _⟩ := MQTTSend_rotation_check (sampleWorld (.ok 7) true none none)
      (sampleSender true) sampleContext (.bytes (some [1])) [] (some [1]) rfl
    have hc2 := hc (Or.inl rfl) 7 rfl
    exact ⟨r, s, h, by rw [hf]; rfl, hc2.1, hc2.2⟩
  · obtain ⟨r, s, h, hf, _, hn⟩ := MQTTSend_rotation_check (sampleWorld (.ok 7) true none none)
      { sampleSender true with client := some 3, secretsLastRetrieved := 5 } sampleContext
      (.bytes (some [1])) [] (some [1]) rfl
    have hn2 := hn (by decide)
    exact ⟨r, s, h, by rw [hf]; rfl, by rw [hn2], by rw [hn2]⟩

/-- C9 (as stated, refuted). With persistence enabled and a coerced payload, a call that
returns `continue = false` because the client factory fails leaves `RetryData` as it was, not
equal to the payload. -/
theorem MQTTSend_construction_failure_not_persisted :
    ¬ ∀ (w : World) (sender : MQTTSecretSender) (ctx : Context) (p : Value) (ps : List Value)
        (P : Bytes) (r : Bool × Value) (s : MQTTState),
        sender.persistOnError = true → w.CoerceType p = .ok P →
        MQTTSend w sender ctx (p :: ps) = some (r, s) → r.1 = false → s.ctx.RetryData = P := by
  intro h
  have h2 := h (sampleWorld (.error "no secrets") false none none) (sampleSender true)
    sampleContext (.bytes (some [1, 2])) [] (some [1, 2]) (false, .error "no secrets")
    (clientStep (sampleWorld (.error "no secrets") false none none)
      { sender := sampleSender true, ctx := sampleContext, trace := [] }).2 rfl rfl rfl rfl
  exact Option.noConfusion h2

/-- C9 (amended). With persistence enabled and an input coerced to `P`, `MQTTSend` returns,
and: if a client construction was required and the factory failed with `err`, the call
returns `(false, err)` and `RetryData` is what it was before; in every other case a call that
returns `continue = false` (a connect failure or a publish failure) leaves `RetryData` equal
to `P`. -/
theorem MQTTSend_no_data_loss_once_client_exists (w : World) (sender : MQTTSecretSender)
    (ctx : Context) (p : Value) (ps : List Value) (P : Bytes)
    (hpersist : sender.persistOnError = true) (hcoerce : w.CoerceType p = .ok P) :
    ∃ r s, MQTTSend w sender ctx (p :: ps) = some (r, s) ∧
      (∀ err, (sender.client = none ∨
            sender.secretsLastRetrieved < ctx.SecretProvider.SecretsLastUpdated) →
          w.Create sender.mqttConfig.AuthMode sender.mqttConfig.SecretPath
            sender.mqttConfig.SkipCertVerify sender.opts = .error err →
          r = (false, .error err) ∧ s.ctx.RetryData = ctx.RetryData) ∧
      (¬ ((sender.client = none ∨
            sender.secretsLastRetrieved < ctx.SecretProvider.SecretsLastUpdated) ∧
          ∃ err, w.Create sender.mqttConfig.AuthMode sender.mqttConfig.SecretPath
            sender.mqttConfig.SkipCertVerify sender.opts = .error err) →
        r.1 = false → s.ctx.RetryData = P) := by
  rw [MQTTSend_eq_sendWithClient w sender ctx p ps P hcoerce, clientStep_eq]
  by_cases hstale : sender.client = none ∨
      sender.secretsLastRetrieved < ctx.SecretProvider.SecretsLastUpdated
  · simp only [if_pos hstale]
    cases hcr : w.Create sender.mqttConfig.AuthMode sender.mqttConfig.SecretPath
        sender.mqttConfig.SkipCertVerify sender.opts with
    | error err =>
      refine ⟨_, _, rfl, ?_, ?_⟩
      · intro e _ he
        cases he
        exact ⟨rfl, rfl⟩
      · intro hn
        exact absurd ⟨hstale, err, rfl⟩ hn
    | ok c =>
      simp only
      obtain ⟨_, _, f3, _⟩ := sendWithClient_frame w
        { sender := { sender with client := some c, secretsLastRetrieved := w.Now }
          ctx := ctx
          trace := [] ++ [.create sender.mqttConfig.AuthMode sender.mqttConfig.SecretPath
            sender.mqttConfig.SkipCertVerify sender.opts] } c P
      refine ⟨(sendWithClient w _ c P).1, (sendWithClient w _ c P).2, rfl, ?_, ?_⟩
      · intro e _ he
        cases he
      · intro _ hr
        rw [f3, if_pos ⟨hr, hpersist⟩]
  · simp only [if_neg hstale]
    cases hcl : sender.client with
    | none => exact absurd (Or.inl hcl) hstale
    | some c =>
      simp only
      obtain ⟨_, _, f3, _⟩ := sendWithClient_frame w
        { sender := sender, ctx := ctx, trace := [] } c P
      refine ⟨(sendWithClient w _ c P).1, (sendWithClient w _ c P).2, rfl, ?_, ?_⟩
      · intro e hs _
        exact absurd hs (hcl ▸ hstale)
      · intro _ hr
        rw [f3, if_pos ⟨hr, hpersist⟩]

/-- C9 (amended) at a sender whose publish fails and at one whose factory fails. -/
theorem MQTTSend_no_data_loss_once_client_exists_witness :
    (∃ s, MQTTSend (sampleWorld (.ok 7) true none (some "broker gone")) (sampleSender true)
        sampleContext [.bytes (some [9])] = some ((false, .error "broker gone"), s) ∧
      s.ctx.RetryData = some [9]) ∧
    (∃ s, MQTTSend (sampleWorld (.error "no secrets") true none none) (sampleSender true)
        sampleContext [.bytes (some [9])] = some ((false, .error "no secrets"), s) ∧
      s.ctx.RetryData = none) := by
  constructor
  · obtain ⟨r, s, h, _, h2⟩ := MQTTSend_no_data_loss_once_client_exists
      (sampleWorld (.ok 7) true none (some "broker gone")) (sampleSender true) sampleContext
      (.bytes (some [9])) [] (some [9]) rfl rfl
    have hr : r = (false, .error "broker gone") := by
      have := (Option.some.inj h).symm
      exact congrArg Prod.fst this
    subst hr
    exact ⟨s, h, h2 (by rintro ⟨_, e, he⟩; cases he) rfl⟩
  · obtain ⟨r, s, h, h1, _⟩ := MQTTSend_no_data_loss_once_client_exists
      (sampleWorld (.error "no secrets") true none none) (sampleSender true) sampleContext
      (.bytes (some [9])) [] (some [9]) rfl rfl
    obtain ⟨hr, hs⟩ := h1 "no secrets" (Or.inl rfl) rfl
    subst hr
    exact ⟨s, h, hs⟩

/-- C10. On publish success (the payload coerced to `P`, the client step leaving client `c`
in place, the client connected or the connect attempt not failing, and the publish completing
without error) `MQTTSend` returns exactly `(true, nil)`, has published `P` exactly once,
through `c` with the configured topic, QoS and retain flag, and leaves the context's
`RetryData` unchanged, whatever the persistence setting. -/
theorem MQTTSend_publish_success (w : World) (sender : MQTTSecretSender) (ctx : Context)
    (p : Value) (ps : List Value) (P : Bytes) (s : MQTTState) (c : Client)
    (hcoerce : w.CoerceType p = .ok P)
    (hstep : clientStep w { sender := sender, ctx := ctx, trace := [] } = (none, s))
    (hclient : s.sender.client = some c)
    (hconn : w.IsConnected c = true ∨ (w.Connect c).Wait = false ∨ (w.Connect c).Error = none)
    (hpub : (w.Publish c sender.mqttConfig.Topic sender.mqttConfig.QoS sender.mqttConfig.Retain
      P).Error = none) :
    ∃ t, MQTTSend w sender ctx (p :: ps) = some ((true, .nil), t) ∧
      t.ctx.RetryData = ctx.RetryData ∧
      t.trace.filter Effect.isPublish = [.publish c sender.mqttConfig.Topic
        sender.mqttConfig.QoS sender.mqttConfig.Retain P] := by
  obtain ⟨f1, _, f3, _⟩ := clientStep_frame w { sender := sender, ctx := ctx, trace := [] }
  have ft := clientStep_trace w { sender := sender, ctx := ctx, trace := [] }
  rw [hstep] at f1 f3 ft
  simp only at f1 f3 ft
  rw [MQTTSend_eq_sendWithClient w sender ctx p ps P hcoerce, hstep]
  simp only [hclient]
  obtain ⟨_, _, g3, g4⟩ := sendWithClient_frame w s c P
  have hres : (sendWithClient w s c P).1 = (true, .nil) := by
    unfold sendWithClient
    by_cases h1 : w.IsConnected c = true
    · rw [if_pos h1, publishStep_ok w s c P (by rw [f3]; exact hpub)]
    · have h2 : ¬ ((w.Connect c).Wait = true ∧ (w.Connect c).Error ≠ none) := by
        rintro ⟨a, b⟩
        rcases hconn with h | h | h
        · exact h1 h
        · rw [a] at h
          exact Bool.noConfusion h
        · exact b h
      rw [if_neg h1, if_neg h2, publishStep_ok w _ c P
        (by simp only [MQTTState.emit]; rw [f3]; exact hpub)]
  have h1 : (sendWithClient w s c P).1.1 = true := by rw [hres]
  refine ⟨(sendWithClient w s c P).2, ?_, ?_, ?_⟩
  · rw [← hres]
  · rw [g3, if_neg (by simp [h1]), f1]
  · rw [(g4 h1).2, ft, f3]
    rfl

/-- C10 at a sender without a client in a world where everything succeeds. -/
theorem MQTTSend_publish_success_witness :
    ∃ t, MQTTSend (sampleWorld (.ok 7) false none none) (sampleSender true) sampleContext
        [.bytes (some [1, 2])] = some ((true, .nil), t) ∧
      t.ctx.RetryData = none ∧
      t.trace.filter Effect.isPublish = [.publish 7 "export" 1 false (some [1, 2])] :=
  MQTTSend_publish_success (sampleWorld (.ok 7) false none none) (sampleSender true)
    sampleContext (.bytes (some [1, 2])) [] (some [1, 2])
    (clientStep (sampleWorld (.ok 7) false none none)
      { sender := sampleSender true, ctx := sampleContext, trace := [] }).2 7
    rfl rfl rfl (Or.inr (Or.inr rfl)) rfl

/-! ## The export stage: input errors, construction failures, the locked re-checks -/

/-- C11. Input errors halt the export stage before any side effect: with no params `MQTTSend`
returns `(false, "No Data Received")`, and when `params[0]` cannot be coerced it returns
`(false, the coercion error)`; in both cases nothing at all is recorded in the trace (no
client construction, no connect, no publish) and the sender and the context, `RetryData`
included, are what they were, whatever the persistence setting. -/
theorem MQTTSend_input_errors (w : World) (sender : MQTTSecretSender) (ctx : Context) :
    MQTTSend w sender ctx []
      = some ((false, .error "No Data Received"),
          { sender := sender, ctx := ctx, trace := [] }) ∧
    ∀ p ps err, w.CoerceType p = .error err →
      MQTTSend w sender ctx (p :: ps)
        = some ((false, .error err), { sender := sender, ctx := ctx, trace := [] }) := by
  refine ⟨rfl, fun p ps err h => ?_⟩
  simp only [MQTTSend, h]

/-- C11 at a sender with persistence enabled and an input that does not coerce. -/
theorem MQTTSend_input_errors_witness :
    MQTTSend (sampleWorld (.ok 7) false none none) (sampleSender true) sampleContext
        [.other "chan int"]
      = some ((false,
            .error "passed in data must be of type []byte, string or implement json.Marshaler"),
          { sender := sampleSender true, ctx := sampleContext, trace := [] }) :=
  (MQTTSend_input_errors (sampleWorld (.ok 7) false none none) (sampleSender true)
    sampleContext).2 (.other "chan int") []
    "passed in data must be of type []byte, string or implement json.Marshaler" rfl

/-- C12. Client-construction failures are reported, not persisted: when a (re)construction is
required and the factory's `Create` fails with `err`, `MQTTSend` returns `(false, err)`; the
only effect recorded is the factory call (no connect, no publish); the sender, with its
cached client and `secretsLastRetrieved`, and the context are what they were.  And
`initializeMQTTClient` never changes the context, so never writes `RetryData`. -/
theorem MQTTSend_construction_failure_reported (w : World) (sender : MQTTSecretSender)
    (ctx : Context) (p : Value) (ps : List Value) (P : Bytes) (err : Error)
    (hcoerce : w.CoerceType p = .ok P)
    (hstale : sender.client = none ∨
      sender.secretsLastRetrieved < ctx.SecretProvider.SecretsLastUpdated)
    (hcreate : w.Create sender.mqttConfig.AuthMode sender.mqttConfig.SecretPath
      sender.mqttConfig.SkipCertVerify sender.opts = .error err) :
    MQTTSend w sender ctx (p :: ps)
      = some ((false, .error err),
          { sender := sender
            ctx := ctx
            trace := [.create sender.mqttConfig.AuthMode sender.mqttConfig.SecretPath
              sender.mqttConfig.SkipCertVerify sender.opts] }) ∧
    ∀ (v : World) (s : MQTTState), (initializeMQTTClient v s).2.ctx = s.ctx := by
  constructor
  · rw [MQTTSend_eq_sendWithClient w sender ctx p ps P hcoerce, clientStep_eq]
    simp only [if_pos hstale, hcreate]
    rfl
  · intro v s
    unfold initializeMQTTClient
    by_cases h : s.sender.client ≠ none ∧
        ¬ s.sender.secretsLastRetrieved < s.ctx.SecretProvider.SecretsLastUpdated
    · rw [if_pos h]
    · rw [if_neg h]
      simp only [MQTTState.emit]
      cases v.Create s.sender.mqttConfig.AuthMode s.sender.mqttConfig.SecretPath
        s.sender.mqttConfig.SkipCertVerify s.sender.opts <;> rfl

/-- C12 at a sender without a client, with persistence enabled, whose factory fails. -/
theorem MQTTSend_construction_failure_reported_witness :
    ∃ s, MQTTSend (sampleWorld (.error "no secrets") false none none) (sampleSender true)
        sampleContext [.bytes (some [1, 2])] = some ((false, .error "no secrets"), s) ∧
      s.sender = sampleSender true ∧ s.ctx.RetryData = none ∧
      s.trace.filter Effect.isConnect = [] ∧ s.trace.filter Effect.isPublish = [] :=
  ⟨_, (MQTTSend_construction_failure_reported
      (sampleWorld (.error "no secrets") false none none) (sampleSender true) sampleContext
      (.bytes (some [1, 2])) [] (some [1, 2]) "no secrets" rfl (Or.inl rfl) rfl).1,
    rfl, rfl, rfl, rfl⟩

/-- C17. The locked re-checks are no-ops when nothing is stale: `initializeMQTTClient`,
entered while the sender has a client and `secretsLastRetrieved` is not before the provider's
`SecretsLastUpdated()`, returns nil and leaves the whole state (cached client, timestamp,
context, trace: no factory call) as it was; `connectToBroker`, entered while the client
reports connected, returns nil and leaves the whole state (context with `RetryData`, trace:
no `Connect`) as it was. -/
theorem locked_rechecks_are_noops (w : World) (s : MQTTState) (exportData : Bytes) :
    (s.sender.client ≠ none →
      ¬ s.sender.secretsLastRetrieved < s.ctx.SecretProvider.SecretsLastUpdated →
      initializeMQTTClient w s = (none, s)) ∧
    (∀ c, s.sender.client = some c → w.IsConnected c = true →
      connectToBroker w s exportData = some (none, s)) := by
  constructor
  · intro h1 h2
    unfold initializeMQTTClient
    rw [if_pos ⟨h1, h2⟩]
  · intro c hc hconn
    unfold connectToBroker
    simp only [hc, hconn, if_true]

/-- C17 at a sender holding client 3 fetched at the instant the secrets were last updated. -/
theorem locked_rechecks_are_noops_witness :
    initializeMQTTClient (sampleWorld (.ok 7) true none none) sampleCachedState
      = (none, sampleCachedState) ∧
    connectToBroker (sampleWorld (.ok 7) true none none) sampleCachedState (some [1])
      = some (none, sampleCachedState) :=
  ⟨(locked_rechecks_are_noops (sampleWorld (.ok 7) true none none) sampleCachedState
      (some [1])).1 (by decide) (by decide),
    (locked_rechecks_are_noops (sampleWorld (.ok 7) true none none) sampleCachedState
      (some [1])).2 3 rfl rfl⟩

/-- C18. `NewMQTTSecretSender` normalises only the auth mode: the returned sender has no
client, `persistOnError = p`, a zero `secretsLastRetrieved`, and a stored configuration equal
to `c` in every field except `AuthMode`, which is the lower-cased `c.AuthMode`; so two auth
modes with the same lower-cased form configure the same sender.  The configuration is passed
by value: the function has no access to the caller's own `c`. -/
theorem NewMQTTSecretSender_normalises_auth_mode (ToLower : String → String)
    (c : MQTTSecretConfig) (p : Bool) :
    (NewMQTTSecretSender ToLower c p).client = none ∧
    (NewMQTTSecretSender ToLower c p).persistOnError = p ∧
    (NewMQTTSecretSender ToLower c p).secretsLastRetrieved = 0 ∧
    (NewMQTTSecretSender ToLower c p).mqttConfig = { c with AuthMode := ToLower c.AuthMode } ∧
    (NewMQTTSecretSender ToLower c p).mqttConfig.AuthMode = ToLower c.AuthMode ∧
    (NewMQTTSecretSender ToLower c p).mqttConfig.BrokerAddress = c.BrokerAddress ∧
    (NewMQTTSecretSender ToLower c p).mqttConfig.ClientId = c.ClientId ∧
    (NewMQTTSecretSender ToLower c p).mqttConfig.SecretPath = c.SecretPath ∧
    (NewMQTTSecretSender ToLower c p).mqttConfig.AutoReconnect = c.AutoReconnect ∧
    (NewMQTTSecretSender ToLower c p).mqttConfig.Topic = c.Topic ∧
    (NewMQTTSecretSender ToLower c p).mqttConfig.QoS = c.QoS ∧
    (NewMQTTSecretSender ToLower c p).mqttConfig.Retain = c.Retain ∧
    (NewMQTTSecretSender ToLower c p).mqttConfig.SkipCertVerify = c.SkipCertVerify ∧
    ∀ a b, ToLower a = ToLower b →
      NewMQTTSecretSender ToLower { c with AuthMode := a } p
        = NewMQTTSecretSender ToLower { c with AuthMode := b } p := by
  refine ⟨rfl, rfl, rfl, rfl, rfl, rfl, rfl, rfl, rfl, rfl, rfl, rfl, rfl, fun a b h => ?_⟩
  simp only [NewMQTTSecretSender, h]

/-- C18 with ASCII lower-casing: `ClientCert` and `clientcert` configure the same sender,
whose stored mode is `clientcert`. -/
theorem NewMQTTSecretSender_normalises_auth_mode_witness :
    NewMQTTSecretSender asciiToLower { sampleMQTTConfig with AuthMode := "ClientCert" } true
      = NewMQTTSecretSender asciiToLower { sampleMQTTConfig with AuthMode := "clientcert" }
          true ∧
    (NewMQTTSecretSender asciiToLower sampleMQTTConfig true).mqttConfig.AuthMode
      = "clientcert" ∧
    (NewMQTTSecretSender asciiToLower sampleMQTTConfig true).mqttConfig.Topic = "export" :=
  ⟨(NewMQTTSecretSender_normalises_auth_mode asciiToLower sampleMQTTConfig
      true).2.2.2.2.2.2.2.2.2.2.2.2.2 "ClientCert" "clientcert" (by decide),
    (NewMQTTSecretSender_normalises_auth_mode asciiToLower sampleMQTTConfig
      true).2.2.2.2.1.trans (by decide),
    (NewMQTTSecretSender_normalises_auth_mode asciiToLower sampleMQTTConfig
      true).2.2.2.2.2.2.2.2.2.1.trans rfl⟩

/-! ## The tag transform -/

/-- Looking a key up after the `range` loop: a configured key has its configured value, any
other key the value it had. -/
theorem lookup_addAll (entries : List (Sigma fun _ : String => String))
    (hnd : entries.NodupKeys) (m : StringMap) (k : String) :
    (addAll entries m).lookup k =
      match entries.dlookup k with
      | some v => some v
      | none => m.lookup k := by
  induction entries generalizing m with
  | nil => rfl
  | cons x rest ih =>
    obtain ⟨a, b⟩ := x
    obtain ⟨hna, hrest⟩ := List.nodupKeys_cons.1 hnd
    have hstep : addAll (⟨a, b⟩ :: rest) m = addAll rest (m.insert a b) := rfl
    rw [hstep, ih hrest]
    by_cases hk : k = a
    · subst hk
      rw [List.dlookup_eq_none.2 hna, List.dlookup_cons_eq, AList.lookup_insert]
    · rw [List.dlookup_cons_ne rest ⟨a, b⟩ hk, AList.lookup_insert_ne hk]

/-- C6. `AddTags` merges the configured tags into the event: for every Event `e` and every
non-empty configured map `T` it returns `continue = true` and the event `e` with a `Tags` map
whose keys are exactly those of `e.Tags` together with those of `T`, where each key of `T` has
its value in `T` and every other key its value in `e.Tags`; an event without a `Tags` map ends
up with the entries of `T`.  No other field of the event changes. -/
theorem Tags.AddTags_merges (T : TagMap) (e : Event) (ps : List Value) (hT : T.len > 0) :
    ∃ m tr, (NewTags T).AddTags (.event e :: ps)
        = ((true, .event { e with Tags := some m }), tr) ∧
      (∀ k, k ∈ m ↔ (e.Tags.get k).isSome ∨ (T.get k).isSome) ∧
      (∀ k v, T.get k = some v → m.lookup k = some v) ∧
      (∀ k, T.get k = none → m.lookup k = e.Tags.get k) ∧
      (e.Tags = none → m.entries.Perm T.entries) := by
  cases T with
  | none => exact absurd hT (by simp [TagMap.len])
  | some t =>
    have hlook : ∀ (m0 : StringMap) (k : String), (addAll t.entries m0).lookup k =
        match t.lookup k with
        | some v => some v
        | none => m0.lookup k := fun m0 k => lookup_addAll t.entries t.nodupKeys m0 k
    refine ⟨addAll t.entries (match e.Tags with | none => ∅ | some m => m),
      ((NewTags (some t)).AddTags (.event e :: ps)).2, ?_, ?_, ?_, ?_, ?_⟩
    · simp only [Tags.AddTags, NewTags, hT, if_true, TagMap.entries]
    · intro k
      rw [← AList.lookup_isSome, hlook]
      cases ht : t.lookup k with
      | some v => simp [TagMap.get, ht]
      | none =>
        cases he : e.Tags with
        | none => simp [TagMap.get, ht]
        | some m => simp [TagMap.get, ht]
    · intro k v hk
      rw [hlook]
      simp only [TagMap.get] at hk
      rw [hk]
    · intro k hk
      rw [hlook]
      simp only [TagMap.get] at hk
      rw [hk]
      cases he : e.Tags with
      | none => rfl
      | some m => rfl
    · intro he
      apply List.lookup_ext (AList.nodupKeys _) t.nodupKeys
      intro k v
      have := hlook (match e.Tags with | none => ∅ | some m => m) k
      rw [he] at this ⊢
      simp only [AList.lookup_empty] at this
      change v ∈ (addAll t.entries ∅).lookup k ↔ v ∈ t.lookup k
      rw [this]
      cases t.lookup k <;> simp

/-- C6 on the data of `tags_test.go`: the three configured tags are added to the two the
event has. -/
theorem Tags.AddTags_merges_witness :
    ∃ m tr, (NewTags tagsToAdd).AddTags [.event eventWithExistingTags]
        = ((true, .event { eventWithExistingTags with Tags := some m }), tr) ∧
      m.lookup "GatewayId" = some "HoustonStore000123" ∧ m.lookup "Tag1" = some "Value1" ∧
      m.lookup "Tag2" = some "Value2" ∧ m.lookup "Other" = none := by
  obtain ⟨m, tr, h, _, h2, h3, _⟩ :=
    Tags.AddTags_merges tagsToAdd eventWithExistingTags [] (by decide)
  exact ⟨m, tr, h, h2 _ _ rfl, (h3 "Tag1" rfl).trans rfl, (h3 "Tag2" rfl).trans rfl,
    (h3 "Other" rfl).trans rfl⟩

/-! ## The tag transform: no configured tags, bad input -/

/-- C13. `AddTags` with no configured tags is the identity: when the configured map is nil or
empty, `AddTags` returns `continue = true` and the event it was given, field for field, its
`Tags` exactly as they were (a nil map stays nil); it only logs. -/
theorem Tags.AddTags_identity_without_tags (T : TagMap) (e : Event) (ps : List Value)
    (hT : T.len = 0) :
    (NewTags T).AddTags (.event e :: ps)
      = ((true, .event e),
          [.log "DEBUG" "Adding tags to Event" [],
            .log "DEBUG" "No tags added to Event. Add tags list is empty." []]) := by
  simp only [Tags.AddTags, NewTags, hT, gt_iff_lt, lt_self_iff_false, if_false,
    List.singleton_append]

/-- C13 at the empty map and at the nil map, on an event with tags and on one without. -/
theorem Tags.AddTags_identity_without_tags_witness :
    ((NewTags (some ∅)).AddTags [.event eventWithExistingTags]).1
      = (true, .event eventWithExistingTags) ∧
    ((NewTags none).AddTags [.event { eventWithExistingTags with Tags := none }]).1
      = (true, .event { eventWithExistingTags with Tags := none }) :=
  ⟨congrArg Prod.fst (Tags.AddTags_identity_without_tags (some ∅) eventWithExistingTags []
      rfl),
    congrArg Prod.fst (Tags.AddTags_identity_without_tags none
      { eventWithExistingTags with Tags := none } [] rfl)⟩

theorem contains_no_event_received :
    "no Event Received".toList <:+: "no Event Received".toList ∧
    ¬ "not an Event".toList <:+: "no Event Received".toList := by
  decide

theorem contains_not_an_event :
    "not an Event".toList <:+: "type received is not an Event".toList ∧
    ¬ "no Event Received".toList <:+: "type received is not an Event".toList := by
  decide

/-- C14. `AddTags` rejects bad input: it returns `continue = false` with an error containing
"no Event Received" exactly when it is called with no params, and `continue = false` with an
error containing "not an Event" exactly when `params[0]` is present but is not a
`models.Event`; when `params[0]` is an Event it returns `continue = true` with an Event.  A
rejected call gives the same result and the same log whatever tags are configured. -/
theorem Tags.AddTags_rejects_bad_input (t : Tags) (params : List Value) :
    (((t.AddTags params).1.1 = false ∧
        (t.AddTags params).1.2.errorContains "no Event Received") ↔ params = []) ∧
    (((t.AddTags params).1.1 = false ∧
        (t.AddTags params).1.2.errorContains "not an Event") ↔
      ∃ v ps, params = v :: ps ∧ v.isEvent = false) ∧
    ((∃ v ps, params = v :: ps ∧ v.isEvent = true) →
      (t.AddTags params).1.1 = true ∧ (t.AddTags params).1.2.isEvent = true) ∧
    (∀ u : Tags, (t.AddTags params).1.1 = false → u.AddTags params = t.AddTags params) := by
  cases params with
  | nil =>
    refine ⟨⟨fun _ => rfl, fun _ => ⟨rfl, contains_no_event_received.1⟩⟩,
      ⟨fun h => absurd h.2 contains_no_event_received.2, ?_⟩, ?_, fun _ _ => rfl⟩
    · rintro ⟨v, ps, h, _⟩
      cases h
    · rintro ⟨v, ps, h, _⟩
      cases h
  | cons v ps =>
    cases v with
    | event e =>
      have hres : (t.AddTags (.event e :: ps)).1.1 = true ∧
          (t.AddTags (.event e :: ps)).1.2.isEvent = true := by
        unfold Tags.AddTags
        by_cases h : t.tags.len > 0
        · simp only [h, if_true]
          exact ⟨trivial, rfl⟩
        · simp only [h, if_false]
          exact ⟨trivial, rfl⟩
      refine ⟨⟨fun h => ?_, fun h => by cases h⟩, ⟨fun h => ?_, ?_⟩, fun _ => hres, fun _ h => ?_⟩
      · rw [hres.1] at h
        exact absurd h.1 (by decide)
      · rw [hres.1] at h
        exact absurd h.1 (by decide)
      · rintro ⟨v, qs, h, hv⟩
        cases h
        exact absurd hv (by simp [Value.isEvent])
      · rw [hres.1] at h
        exact absurd h (by decide)
    | nil =>
      exact ⟨⟨fun h => absurd h.2 contains_not_an_event.2, fun h => by cases h⟩,
        ⟨fun _ => ⟨_, _, rfl, rfl⟩, fun _ => ⟨rfl, contains_not_an_event.1⟩⟩,
        fun ⟨_, _, h, hv⟩ => by cases h; exact absurd hv (by simp [Value.isEvent]), fun _ _ => rfl⟩
    | error err =>
      exact ⟨⟨fun h => absurd h.2 contains_not_an_event.2, fun h => by cases h⟩,
        ⟨fun _ => ⟨_, _, rfl, rfl⟩, fun _ => ⟨rfl, contains_not_an_event.1⟩⟩,
        fun ⟨_, _, h, hv⟩ => by cases h; exact absurd hv (by simp [Value.isEvent]), fun _ _ => rfl⟩
    | bytes b =>
      exact ⟨⟨fun h => absurd h.2 contains_not_an_event.2, fun h => by cases h⟩,
        ⟨fun _ => ⟨_, _, rfl, rfl⟩, fun _ => ⟨rfl, contains_not_an_event.1⟩⟩,
        fun ⟨_, _, h, hv⟩ => by cases h; exact absurd hv (by simp [Value.isEvent]), fun _ _ => rfl⟩
    | string s =>
      exact ⟨⟨fun h => absurd h.2 contains_not_an_event.2, fun h => by cases h⟩,
        ⟨fun _ => ⟨_, _, rfl, rfl⟩, fun _ => ⟨rfl, contains_not_an_event.1⟩⟩,
        fun ⟨_, _, h, hv⟩ => by cases h; exact absurd hv (by simp [Value.isEvent]), fun _ _ => rfl⟩
    | other d =>
      exact ⟨⟨fun h => absurd h.2 contains_not_an_event.2, fun h => by cases h⟩,
        ⟨fun _ => ⟨_, _, rfl, rfl⟩, fun _ => ⟨rfl, contains_not_an_event.1⟩⟩,
        fun ⟨_, _, h, hv⟩ => by cases h; exact absurd hv (by simp [Value.isEvent]), fun _ _ => rfl⟩

/-- C14 on the two error cases of `tags_test.go` and on an event. -/
theorem Tags.AddTags_rejects_bad_input_witness :
    ((NewTags none).AddTags []).1 = (false, .error "no Event Received") ∧
    ((NewTags none).AddTags [.string "Not an Event"]).1.1 = false ∧
    ((NewTags none).AddTags [.string "Not an Event"]).1.2.errorContains "not an Event" ∧
    ((NewTags tagsToAdd).AddTags [.event eventWithExistingTags]).1.1 = true ∧
    (NewTags tagsToAdd).AddTags [.string "Not an Event"]
      = (NewTags none).AddTags [.string "Not an Event"] := by
  have h1 := (Tags.AddTags_rejects_bad_input (NewTags none) [.string "Not an Event"]).2.1.2
    ⟨_, _, rfl, rfl⟩
  have h2 := (Tags.AddTags_rejects_bad_input (NewTags tagsToAdd)
    [.event eventWithExistingTags]).2.2.1 ⟨_, _, rfl, rfl⟩
  have h3 := (Tags.AddTags_rejects_bad_input (NewTags none)
    [.string "Not an Event"]).2.2.2 (NewTags tagsToAdd) h1.1
  exact ⟨rfl, h1.1, h1.2, h2.1, h3⟩

/-! ## The store factory -/

/-- C7. `NewStoreClient` rejects unknown backends: when `Type` is neither `db.MongoDB` nor
`db.RedisDB` it returns a nil client with `db.ErrUnsupportedDatabase` and calls no backend
constructor; for `db.MongoDB` it returns exactly the result of `mongo.NewClient(config)` and
for `db.RedisDB` exactly the result of `redis.NewClient(config)`, calling that constructor
once and no other. -/
theorem NewStoreClient_dispatch (db : DbPackage)
    (mongoNewClient redisNewClient : DatabaseInfo → StoreResult) (config : DatabaseInfo)
    (hdistinct : db.MongoDB ≠ db.RedisDB) :
    (config.DBType ≠ db.MongoDB → config.DBType ≠ db.RedisDB →
      NewStoreClient db mongoNewClient redisNewClient config
        = ((none, some db.ErrUnsupportedDatabase), [])) ∧
    (config.DBType = db.MongoDB →
      NewStoreClient db mongoNewClient redisNewClient config
        = (mongoNewClient config, [.mongoNewClient config])) ∧
    (config.DBType = db.RedisDB →
      NewStoreClient db mongoNewClient redisNewClient config
        = (redisNewClient config, [.redisNewClient config])) := by
  unfold NewStoreClient
  refine ⟨fun h1 h2 => ?_, fun h => ?_, fun h => ?_⟩
  · rw [if_neg h1, if_neg h2]
  · rw [if_pos h]
  · have h1 : config.DBType ≠ db.MongoDB := fun hm => hdistinct (hm.symm.trans h)
    rw [if_neg h1, if_pos h]

/-- C7 at an unknown backend name and at the Redis one. -/
theorem NewStoreClient_dispatch_witness :
    NewStoreClient sampleDb (fun _ => (some 1, none)) (fun _ => (some 2, none))
        (sampleConfig "postgres")
      = ((none, some "unsupported database type"), []) ∧
    NewStoreClient sampleDb (fun _ => (some 1, none)) (fun _ => (some 2, none))
        (sampleConfig "redisdb")
      = ((some 2, none), [.redisNewClient (sampleConfig "redisdb")]) :=
  ⟨(NewStoreClient_dispatch sampleDb (fun _ => (some 1, none)) (fun _ => (some 2, none))
      (sampleConfig "postgres") (by decide)).1 (by decide) (by decide),
    (NewStoreClient_dispatch sampleDb (fun _ => (some 1, none)) (fun _ => (some 2, none))
      (sampleConfig "redisdb") (by decide)).2.2 rfl⟩
